import Mathlib

/-!
# Detection pipeline of `rm_buff::Detector` (src/src/buffdetector.cpp)

A shallow embedding of the detector's letterbox transform, candidate decoder,
suppression call and coordinate remapper, followed by theorems about them.

Conventions of the embedding:

* The definitions `letterboxVars`, `decode`, `convert_coord`, `makeBlade`,
  `non_max_suppression` and `Detect` model C++ `float`/`double` values by exact
  rationals (`ℚ`) and C++ `int` values by `Int` (or `Nat` where the source
  value is a size or a loop counter). They carry the properties that do not
  depend on the rounding of the machine formats: which slots become candidates,
  classes and keypoint rules, the order of the results, the bounds after
  clamping, the canvas size, the inverse of the letterbox map in rational
  arithmetic.
* The definitions with the suffix `_f32` repeat the letterbox, the decoder, the
  remapper and `Detect` with the machine arithmetic of the source: every `float`
  operation is rounded to the nearest binary32 value, conversions to `int` are
  32-bit, the `int` sums of the result loop wrap around and a division by zero
  yields an infinity or NaN. They carry the properties that depend on the
  computed values: scaled dimensions and paddings, decoded boxes, returned
  boxes.
* The detector object is an explicit state record `Detector`; every member
  function takes the state and returns the new state.
* Library calls that the repository does not contain (the inference runtime,
  `cv::dnn::NMSBoxes`) are parameters of the functions that call them.
-/

namespace rm_buff

/-! ## Numeric conversions -/

/-- C `round`: nearest integer, halfway cases away from zero. -/
def cround (x : ℚ) : Int :=
  if 0 ≤ x then ⌊x + 1 / 2⌋ else -⌊-x + 1 / 2⌋

/-- Conversion of a floating value to `int`: truncation toward zero. -/
def toInt (x : ℚ) : Int :=
  if 0 ≤ x then ⌊x⌋ else -⌊-x⌋

/-- Largest finite `float`, `FLT_MAX = 2^128 - 2^104`. -/
def FLT_MAX : ℚ := 340282346638528859811704183484516925440

/-! ## Data model -/

/-- Image header `cv::Mat`: only the dimensions are modelled. -/
structure Mat where
  cols : Nat
  rows : Nat
deriving DecidableEq, Repr

/-- Emptiness test `cv::Mat::empty`: no pixels. -/
def Mat.empty (m : Mat) : Bool :=
  m.cols == 0 || m.rows == 0

/-- Integer size `cv::Size`. -/
structure Size where
  width : Nat
  height : Nat
deriving DecidableEq, Repr

/-- Size of an image, `cv::Mat::size`. -/
def Mat.size (m : Mat) : Size :=
  ⟨m.cols, m.rows⟩

/-- Integer rectangle `cv::Rect`. -/
structure Rect where
  x : Int
  y : Int
  width : Int
  height : Int
deriving DecidableEq, Repr

/-- Floating point `cv::Point2f`. -/
structure Point2f where
  x : ℚ
  y : ℚ
deriving DecidableEq

/-- Detection result `Blade` (buffdetector.h). -/
structure Blade where
  rect : Rect
  label : String
  prob : ℚ
  kpt : List Point2f
deriving DecidableEq

/-- Raw output tensor `ov::Tensor`: its three-dimensional shape and its flat
data buffer, read by index as `data[offset + k]`. -/
structure Tensor where
  shape0 : Nat
  shape1 : Nat
  shape2 : Nat
  data : Nat → ℚ

/-- Type of the external suppression routine `cv::dnn::NMSBoxes(bboxes, scores,
score_threshold, nms_threshold, indices)`, returning `indices`. -/
abbrev NMSFn := List Rect → List ℚ → ℚ → ℚ → List Nat

/-- Mutable members of `Detector` (buffdetector.h), with their default member
initialisers. `infer_runs` counts the executions of `infer_request_.infer()`
and `cerr` collects the lines written to `std::cerr`. -/
structure Detector where
  padd_w_ : ℚ := 0
  padd_h_ : ℚ := 0
  conf_threshold_ : ℚ := 1 / 2
  nms_threshold_ : ℚ := 2 / 5
  blade_array_ : List Blade := []
  infer_runs : Nat := 0
  cerr : List String := []

def buff_image_size : Int := 640

def CLS_NUM : Nat := 4

def KPT_NUM : Nat := 4

def class_names : List String := ["RR", "RW", "BR", "BW"]

/-- The absent-keypoint marker `cv::Point2f(-1, -1)`. -/
def sentinel : Point2f := ⟨-1, -1⟩

/-! ## Letterbox (buffdetector.cpp, lines 76-105) -/

/-- Local variables of `Detector::letterbox` after line 97. -/
structure LetterboxVars where
  r : ℚ
  inside_w : Int
  inside_h : Int
  padd_w : ℚ
  padd_h : ℚ
  top : Int
  bottom : Int
  left : Int
  right : Int

/-- The arithmetic of `Detector::letterbox` (lines 78-97). -/
def letterboxVars (src : Mat) (h w : Int) : LetterboxVars :=
  let in_w : Int := src.cols
  let in_h : Int := src.rows
  let tar_w : Int := w
  let tar_h : Int := h
  let r : ℚ := min ((tar_h : ℚ) / (in_h : ℚ)) ((tar_w : ℚ) / (in_w : ℚ))
  let inside_w : Int := cround ((in_w : ℚ) * r)
  let inside_h : Int := cround ((in_h : ℚ) * r)
  let padd_w : ℚ := ((tar_w - inside_w : Int) : ℚ)
  let padd_h : ℚ := ((tar_h - inside_h : Int) : ℚ)
  let padd_w : ℚ := padd_w / 2
  let padd_h : ℚ := padd_h / 2
  { r := r
    inside_w := inside_w
    inside_h := inside_h
    padd_w := padd_w
    padd_h := padd_h
    top := cround (padd_h - 1 / 10)
    bottom := cround (padd_h + 1 / 10)
    left := cround (padd_w - 1 / 10)
    right := cround (padd_w + 1 / 10) }

/-- Effect of `cv::resize(src, dst, cv::Size(w, h))` on the dimensions. -/
def resize (_src : Mat) (w h : Int) : Mat :=
  ⟨w.toNat, h.toNat⟩

/-- Effect of `cv::copyMakeBorder` on the dimensions. -/
def copyMakeBorder (m : Mat) (top bottom left right : Int) : Mat :=
  ⟨((m.cols : Int) + left + right).toNat, ((m.rows : Int) + top + bottom).toNat⟩

/-- `Detector::letterbox`: returns the canvas and stores the paddings. -/
def letterbox (d : Detector) (src : Mat) (h w : Int) : Mat × Detector :=
  let v := letterboxVars src h w
  let resize_img := resize src v.inside_w v.inside_h
  let resize_img := copyMakeBorder resize_img v.top v.bottom v.left v.right
  (resize_img, { d with padd_w_ := v.padd_w, padd_h_ := v.padd_h })

/-! ## Candidate decoder (buffdetector.cpp, lines 113-180) -/

/-- The four parallel candidate lists filled by the decoding loop. -/
structure Decoded where
  classIds : List Nat := []
  confidences : List ℚ := []
  boxes : List Rect := []
  kpts_list : List (List Point2f) := []

/-- Class score loop (lines 137-145): running maximum and its index. -/
def classScan (data : Nat → ℚ) (offset : Nat) : ℚ × Nat :=
  (List.range CLS_NUM).foldl
    (fun (acc : ℚ × Nat) (k : Nat) =>
      if data (offset + 4 + k) > acc.1 then (data (offset + 4 + k), k) else acc)
    (-FLT_MAX, 0)

/-- One keypoint of the keypoint loop (lines 161-176). -/
def decodeKpt (data : Nat → ℚ) (num_features offset k : Nat) : Point2f :=
  let kpt_x_idx := 8 + k * 2
  let kpt_y_idx := 8 + k * 2 + 1
  if kpt_x_idx < num_features ∧ kpt_y_idx < num_features then
    let kpt_x_640 := data (offset + kpt_x_idx)
    let kpt_y_640 := data (offset + kpt_y_idx)
    if kpt_x_640 ≥ 0 ∧ kpt_y_640 ≥ 0 ∧ kpt_x_640 ≤ 640 ∧ kpt_y_640 ≤ 640 then
      ⟨kpt_x_640, kpt_y_640⟩
    else
      ⟨-1, -1⟩
  else
    ⟨-1, -1⟩

/-- Body of the slot loop (lines 128-178) for batch `i`, slot `j`. -/
def decodeSlot (output : Tensor) (conf_thres : ℚ) (acc : Decoded) (i j : Nat) : Decoded :=
  let num_detections := output.shape1
  let num_features := output.shape2
  let offset := i * num_detections * num_features + j * num_features
  let center_x_640 := output.data (offset + 0)
  let center_y_640 := output.data (offset + 1)
  let width_640 := output.data (offset + 2)
  let height_640 := output.data (offset + 3)
  let max_class_score := (classScan output.data offset).1
  let classId := (classScan output.data offset).2
  if max_class_score < conf_thres then
    acc
  else
    let x1_640 := center_x_640 - width_640 / 2
    let y1_640 := center_y_640 - height_640 / 2
    { classIds := acc.classIds ++ [classId]
      confidences := acc.confidences ++ [max_class_score]
      boxes := acc.boxes ++ [⟨toInt x1_640, toInt y1_640, toInt width_640, toInt height_640⟩]
      kpts_list := acc.kpts_list ++
        [(List.range KPT_NUM).map (decodeKpt output.data num_features offset)] }

/-- The decoding loops (lines 126-180). -/
def decode (output : Tensor) (conf_thres : ℚ) : Decoded :=
  (List.range output.shape0).foldl
    (fun acc i =>
      (List.range output.shape1).foldl (fun acc j => decodeSlot output conf_thres acc i j) acc)
    {}

/-! ## Coordinate remapper (buffdetector.cpp, lines 186-238) -/

/-- The lambda `convert_coord` (lines 194-202). -/
def convert_coord (d : Detector) (img_size : Size) (coord_640 : ℚ) (is_x : Bool) : ℚ :=
  if is_x then
    (coord_640 - d.padd_w_) * (img_size.width : ℚ) / ((buff_image_size : ℚ) - 2 * d.padd_w_)
  else
    (coord_640 - d.padd_h_) * (img_size.height : ℚ) / ((buff_image_size : ℚ) - 2 * d.padd_h_)

/-- Keypoint conversion (lines 219-231). -/
def convertKpt (d : Detector) (img_size : Size) (kpt_640 : Point2f) : Point2f :=
  if kpt_640.x ≥ 0 ∧ kpt_640.y ≥ 0 then
    let kpt_x_orig := convert_coord d img_size kpt_640.x true
    let kpt_y_orig := convert_coord d img_size kpt_640.y false
    let kpt_x_orig := max 0 (min kpt_x_orig (img_size.width : ℚ))
    let kpt_y_orig := max 0 (min kpt_y_orig (img_size.height : ℚ))
    ⟨kpt_x_orig, kpt_y_orig⟩
  else
    ⟨-1, -1⟩

/-- Body of the result loop (lines 188-237) for the picked index `idx`. -/
def makeBlade (d : Detector) (dec : Decoded) (img_size : Size) (idx : Nat) : Blade :=
  let box_640 := dec.boxes.getD idx ⟨0, 0, 0, 0⟩
  let x1_orig := convert_coord d img_size (box_640.x : ℚ) true
  let y1_orig := convert_coord d img_size (box_640.y : ℚ) false
  let x2_orig := convert_coord d img_size ((box_640.x + box_640.width : Int) : ℚ) true
  let y2_orig := convert_coord d img_size ((box_640.y + box_640.height : Int) : ℚ) false
  let x1_orig := max 0 (min x1_orig (img_size.width : ℚ))
  let y1_orig := max 0 (min y1_orig (img_size.height : ℚ))
  let x2_orig := max 0 (min x2_orig (img_size.width : ℚ))
  let y2_orig := max 0 (min y2_orig (img_size.height : ℚ))
  { rect := ⟨toInt x1_orig, toInt y1_orig, toInt (x2_orig - x1_orig), toInt (y2_orig - y1_orig)⟩
    label := class_names.getD (dec.classIds.getD idx 0) ""
    prob := dec.confidences.getD idx 0
    kpt := (dec.kpts_list.getD idx []).map (convertKpt d img_size) }

/-- `Detector::non_max_suppression` (lines 107-239): decode, call the
suppression routine, rebuild `blade_array_`. -/
def non_max_suppression (nmsBoxes : NMSFn) (d : Detector) (output : Tensor)
    (conf_thres iou_thres : ℚ) (img_size : Size) : Detector :=
  let dec := decode output conf_thres
  let picked := nmsBoxes dec.boxes dec.confidences conf_thres iou_thres
  { d with blade_array_ := picked.map (makeBlade d dec img_size) }

/-- `Detector::Detect` (lines 37-74). `infer` stands for the inference runtime
applied to the normalised canvas. -/
def Detect (infer : Mat → Tensor) (nmsBoxes : NMSFn) (d : Detector) (src_img : Mat) :
    List Blade × Detector :=
  if src_img.empty then
    ([], { d with cerr := d.cerr ++ ["Empty image!"] })
  else
    let (img, d) := letterbox d src_img buff_image_size buff_image_size
    let output := infer img
    let d := { d with infer_runs := d.infer_runs + 1 }
    let d := non_max_suppression nmsBoxes d output d.conf_threshold_ d.nms_threshold_ src_img.size
    (d.blade_array_, d)

/-! ## Suppression engine -/

/-- Modelled from the spec: `cv::dnn::NMSBoxes` is called at line 183 but is
library code absent from src/. Intersection-over-union of two axis-aligned
boxes (spec §4.4, item 3): the standard ratio, and 0 as soon as the
intersection is empty, which includes every pair with a zero-area box. -/
def IoU (a b : Rect) : ℚ :=
  let iw : Int := min (a.x + a.width) (b.x + b.width) - max a.x b.x
  let ih : Int := min (a.y + a.height) (b.y + b.height) - max a.y b.y
  if iw ≤ 0 ∨ ih ≤ 0 then 0
  else ((iw * ih : Int) : ℚ) / ((a.width * a.height + b.width * b.height - iw * ih : Int) : ℚ)

/-- Modelled from the spec: `cv::dnn::NMSBoxes` is absent from src/. Candidate
indices sorted by confidence, descending, stable (spec §4.4, item 1): index `i`
is inserted before the first later index whose score does not exceed its own. -/
def sortByConfidence (scores : List ℚ) : List Nat :=
  (List.range scores.length).insertionSort (fun i j => scores.getD j 0 ≤ scores.getD i 0)

/-- Modelled from the spec: `cv::dnn::NMSBoxes` is absent from src/. The greedy
loop (spec §4.4, item 2): pick the first remaining candidate as kept, drop every
remaining candidate whose IoU with it exceeds the threshold, repeat. The first
argument bounds the number of rounds. -/
def greedyLoop (bboxes : List Rect) (nms_threshold : ℚ) : Nat → List Nat → List Nat
  | 0, _ => []
  | _ + 1, [] => []
  | fuel + 1, i :: rest =>
    i :: greedyLoop bboxes nms_threshold fuel
      (rest.filter fun j =>
        !decide (nms_threshold < IoU (bboxes.getD i ⟨0, 0, 0, 0⟩) (bboxes.getD j ⟨0, 0, 0, 0⟩)))

/-- Modelled from the spec: `cv::dnn::NMSBoxes` is absent from src/. Greedy
class-agnostic suppression over all candidates (spec §4.4); the result is the
list of kept candidate indices in selection order. The score threshold takes no
part: the spec names the decoder's confidence floor as the single filter. -/
def NMSBoxes : NMSFn := fun bboxes scores _score_threshold nms_threshold =>
  greedyLoop bboxes nms_threshold scores.length (sortByConfidence scores)

/-! ## Machine arithmetic: binary32 rounding and 32-bit integers

The definitions of this section are used by the `_f32` variants of the
letterbox, the decoder and the remapper, in which every `float` operation of
the source is rounded to the nearest binary32 value (IEEE 754, ties to even,
subnormals included). Overflow to infinity is not represented: the theorems over
the `_f32` variants carry the range conditions under which it cannot occur. -/

/-- Nearest integer, halfway cases to the even neighbour. -/
def roundEven (x : ℚ) : Int :=
  if x - ⌊x⌋ < 1 / 2 then ⌊x⌋
  else if 1 / 2 < x - ⌊x⌋ then ⌊x⌋ + 1
  else if ⌊x⌋ % 2 = 0 then ⌊x⌋ else ⌊x⌋ + 1

/-- Binary logarithm of a natural number, rounded down; the first argument
bounds the number of halvings. -/
def log2Nat : Nat → Nat → Nat
  | 0, _ => 0
  | fuel + 1, n => if 2 ≤ n then log2Nat fuel (n / 2) + 1 else 0

/-- Binary exponent of a positive rational `x`: the `e` with `2^e ≤ x < 2^(e+1)`. -/
def ilog2 (x : ℚ) : Int :=
  let k : Int := (log2Nat x.num.natAbs x.num.natAbs : Int) - (log2Nat x.den x.den : Int)
  if (2 : ℚ) ^ k ≤ x then k else k - 1

/-- Rounding of a non-negative rational to binary32: 24 significant bits, the
exponent of the last place not below -149. -/
def flPos (x : ℚ) : ℚ :=
  if x = 0 then 0
  else
    (roundEven (x / (2 : ℚ) ^ (max (ilog2 x) (-126) - 23)) : ℚ) *
      (2 : ℚ) ^ (max (ilog2 x) (-126) - 23)

/-- Rounding to the nearest binary32 value: the result of one `float` operation
whose exact result is `x`, and of a conversion of `x` to `float`. -/
def fl32 (x : ℚ) : ℚ :=
  if 0 ≤ x then flPos x else -flPos (-x)

/-- 32-bit two's complement wrap-around of an `int` result. -/
def wrap32 (z : Int) : Int :=
  (z + 2147483648) % 4294967296 - 2147483648

/-- Whether a value converts to `int` without leaving the 32-bit range. -/
def InInt32 (x : ℚ) : Prop :=
  -2147483649 < x ∧ x < 2147483648

instance (x : ℚ) : Decidable (InInt32 x) := by
  unfold InInt32; infer_instance

/-- Conversion of a floating value to a 32-bit `int`: truncation toward zero.
Outside the range of `int` the conversion is undefined in C++; the x86 result
`INT_MIN` stands for it. -/
def toInt32 (x : ℚ) : Int :=
  if InInt32 x then toInt x else -2147483648

/-! ## Letterbox, decoder and remapper in binary32 arithmetic

The `_f32` definitions repeat the source functions with every `float`
operation rounded by `fl32`, every conversion of an `int` to `float` rounded by
`fl32`, every conversion of a `float` to `int` done by `toInt32`, the `int`
additions of lines 207-208 wrapped by `wrap32`, and the division of
`convert_coord` done by `fdiv32`. -/

/-- The arithmetic of `Detector::letterbox` (lines 78-97) in binary32: `r`, the
products `in_w * r`, `in_h * r` and the paddings are `float` values. The
arguments of `round` at lines 94-97 are `double` values, taken exactly. -/
def letterboxVars_f32 (src : Mat) (h w : Int) : LetterboxVars :=
  let in_w : Int := src.cols
  let in_h : Int := src.rows
  let tar_w : Int := w
  let tar_h : Int := h
  let r : ℚ :=
    min (fl32 (fl32 (tar_h : ℚ) / fl32 (in_h : ℚ))) (fl32 (fl32 (tar_w : ℚ) / fl32 (in_w : ℚ)))
  let inside_w : Int := cround (fl32 (fl32 (in_w : ℚ) * r))
  let inside_h : Int := cround (fl32 (fl32 (in_h : ℚ) * r))
  let padd_w : ℚ := fl32 ((tar_w - inside_w : Int) : ℚ)
  let padd_h : ℚ := fl32 ((tar_h - inside_h : Int) : ℚ)
  let padd_w : ℚ := fl32 (padd_w / 2)
  let padd_h : ℚ := fl32 (padd_h / 2)
  { r := r
    inside_w := inside_w
    inside_h := inside_h
    padd_w := padd_w
    padd_h := padd_h
    top := cround (padd_h - 1 / 10)
    bottom := cround (padd_h + 1 / 10)
    left := cround (padd_w - 1 / 10)
    right := cround (padd_w + 1 / 10) }

/-- `Detector::letterbox` in binary32: returns the canvas and stores the
paddings. -/
def letterbox_f32 (d : Detector) (src : Mat) (h w : Int) : Mat × Detector :=
  let v := letterboxVars_f32 src h w
  let resize_img := resize src v.inside_w v.inside_h
  let resize_img := copyMakeBorder resize_img v.top v.bottom v.left v.right
  (resize_img, { d with padd_w_ := v.padd_w, padd_h_ := v.padd_h })

/-- Body of the slot loop (lines 128-178) in binary32 for batch `i`, slot `j`:
the corner `x1_640`, `y1_640` is a rounded `float` difference and the four
arguments of `cv::Rect` are converted to 32-bit `int`. -/
def decodeSlot_f32 (output : Tensor) (conf_thres : ℚ) (acc : Decoded) (i j : Nat) : Decoded :=
  let num_detections := output.shape1
  let num_features := output.shape2
  let offset := i * num_detections * num_features + j * num_features
  let center_x_640 := output.data (offset + 0)
  let center_y_640 := output.data (offset + 1)
  let width_640 := output.data (offset + 2)
  let height_640 := output.data (offset + 3)
  let max_class_score := (classScan output.data offset).1
  let classId := (classScan output.data offset).2
  if max_class_score < conf_thres then
    acc
  else
    let x1_640 := fl32 (center_x_640 - fl32 (width_640 / 2))
    let y1_640 := fl32 (center_y_640 - fl32 (height_640 / 2))
    { classIds := acc.classIds ++ [classId]
      confidences := acc.confidences ++ [max_class_score]
      boxes := acc.boxes ++
        [⟨toInt32 x1_640, toInt32 y1_640, toInt32 width_640, toInt32 height_640⟩]
      kpts_list := acc.kpts_list ++
        [(List.range KPT_NUM).map (decodeKpt output.data num_features offset)] }

/-- The decoding loops (lines 126-180) in binary32. -/
def decode_f32 (output : Tensor) (conf_thres : ℚ) : Decoded :=
  (List.range output.shape0).foldl
    (fun acc i =>
      (List.range output.shape1).foldl (fun acc j => decodeSlot_f32 output conf_thres acc i j) acc)
    {}

/-- Value of a binary32 division: a finite number or one of the special values
that a zero divisor produces. -/
inductive F32 where
  | fin (q : ℚ)
  | pinf
  | ninf
  | nan
deriving DecidableEq

/-- Binary32 division `a / b`: the rounded quotient for a non-zero divisor; for
a zero divisor NaN when the dividend is zero and the infinity of the sign of the
dividend otherwise. -/
def fdiv32 (a b : ℚ) : F32 :=
  if b = 0 then
    if a = 0 then F32.nan else if 0 < a then F32.pinf else F32.ninf
  else
    F32.fin (fl32 (a / b))

/-- The clamp `std::max(0.0f, std::min(x, hi))` of lines 210-213 and 225-226:
`std::min(x, hi)` is `hi` when `hi < x` and `x` otherwise, `std::max(0.0f, m)` is
`m` when `0 < m` and `0` otherwise, and every comparison with NaN is false. -/
def clamp32 (x : F32) (hi : ℚ) : ℚ :=
  match x with
  | F32.fin q => max 0 (min q hi)
  | F32.pinf => max 0 hi
  | F32.ninf => 0
  | F32.nan => 0

/-- The lambda `convert_coord` (lines 194-202) in binary32: subtraction,
product, divisor and quotient are each rounded. -/
def convert_coord_f32 (d : Detector) (img_size : Size) (coord_640 : ℚ) (is_x : Bool) : F32 :=
  if is_x then
    fdiv32 (fl32 (fl32 (coord_640 - d.padd_w_) * fl32 (img_size.width : ℚ)))
      (fl32 (fl32 (buff_image_size : ℚ) - fl32 (2 * d.padd_w_)))
  else
    fdiv32 (fl32 (fl32 (coord_640 - d.padd_h_) * fl32 (img_size.height : ℚ)))
      (fl32 (fl32 (buff_image_size : ℚ) - fl32 (2 * d.padd_h_)))

/-- Keypoint conversion (lines 219-231) in binary32. -/
def convertKpt_f32 (d : Detector) (img_size : Size) (kpt_640 : Point2f) : Point2f :=
  if kpt_640.x ≥ 0 ∧ kpt_640.y ≥ 0 then
    let kpt_x_orig := convert_coord_f32 d img_size kpt_640.x true
    let kpt_y_orig := convert_coord_f32 d img_size kpt_640.y false
    let kpt_x_orig := clamp32 kpt_x_orig (fl32 (img_size.width : ℚ))
    let kpt_y_orig := clamp32 kpt_y_orig (fl32 (img_size.height : ℚ))
    ⟨kpt_x_orig, kpt_y_orig⟩
  else
    ⟨-1, -1⟩

/-- Body of the result loop (lines 188-237) in binary32 for the picked index
`idx`: the corners of the `int` box are converted to `float`, the sums
`box_640.x + box_640.width` and `box_640.y + box_640.height` are 32-bit, the
differences of the clamped corners are rounded and the four arguments of
`cv::Rect` are converted to 32-bit `int`. -/
def makeBlade_f32 (d : Detector) (dec : Decoded) (img_size : Size) (idx : Nat) : Blade :=
  let box_640 := dec.boxes.getD idx ⟨0, 0, 0, 0⟩
  let x1_orig := convert_coord_f32 d img_size (fl32 (box_640.x : ℚ)) true
  let y1_orig := convert_coord_f32 d img_size (fl32 (box_640.y : ℚ)) false
  let x2_orig :=
    convert_coord_f32 d img_size (fl32 ((wrap32 (box_640.x + box_640.width) : Int) : ℚ)) true
  let y2_orig :=
    convert_coord_f32 d img_size (fl32 ((wrap32 (box_640.y + box_640.height) : Int) : ℚ)) false
  let x1_orig := clamp32 x1_orig (fl32 (img_size.width : ℚ))
  let y1_orig := clamp32 y1_orig (fl32 (img_size.height : ℚ))
  let x2_orig := clamp32 x2_orig (fl32 (img_size.width : ℚ))
  let y2_orig := clamp32 y2_orig (fl32 (img_size.height : ℚ))
  { rect := ⟨toInt32 x1_orig, toInt32 y1_orig, toInt32 (fl32 (x2_orig - x1_orig)),
      toInt32 (fl32 (y2_orig - y1_orig))⟩
    label := class_names.getD (dec.classIds.getD idx 0) ""
    prob := dec.confidences.getD idx 0
    kpt := (dec.kpts_list.getD idx []).map (convertKpt_f32 d img_size) }

/-- `Detector::non_max_suppression` (lines 107-239) in binary32. -/
def non_max_suppression_f32 (nmsBoxes : NMSFn) (d : Detector) (output : Tensor)
    (conf_thres iou_thres : ℚ) (img_size : Size) : Detector :=
  let dec := decode_f32 output conf_thres
  let picked := nmsBoxes dec.boxes dec.confidences conf_thres iou_thres
  { d with blade_array_ := picked.map (makeBlade_f32 d dec img_size) }

/-- `Detector::Detect` (lines 37-74) in binary32. `infer` stands for the
inference runtime applied to the normalised canvas. -/
def Detect_f32 (infer : Mat → Tensor) (nmsBoxes : NMSFn) (d : Detector) (src_img : Mat) :
    List Blade × Detector :=
  if src_img.empty then
    ([], { d with cerr := d.cerr ++ ["Empty image!"] })
  else
    let (img, d) := letterbox_f32 d src_img buff_image_size buff_image_size
    let output := infer img
    let d := { d with infer_runs := d.infer_runs + 1 }
    let d :=
      non_max_suppression_f32 nmsBoxes d output d.conf_threshold_ d.nms_threshold_ src_img.size
    (d.blade_array_, d)

/-! ## Definitions used to state the properties -/

/-- Canvas position of a source point under the letterbox: `cv::resize` scales
each axis by scaled dimension over source dimension and `cv::copyMakeBorder`
shifts by the left and top borders actually inserted. -/
def letterboxPoint (src : Mat) (p : Point2f) : Point2f :=
  let v := letterboxVars src buff_image_size buff_image_size
  ⟨p.x * (v.inside_w : ℚ) / (src.cols : ℚ) + (v.left : ℚ),
   p.y * (v.inside_h : ℚ) / (src.rows : ℚ) + (v.top : ℚ)⟩

/-- Source position of a canvas point: `convert_coord` on both axes. -/
def remapPoint (d : Detector) (img_size : Size) (p : Point2f) : Point2f :=
  ⟨convert_coord d img_size p.x true, convert_coord d img_size p.y false⟩

/-- Offsets of the slots of the raw tensor, in the order the decoding loops
visit them. -/
def slotOffsets (output : Tensor) : List Nat :=
  (List.range output.shape0).flatMap fun i =>
    (List.range output.shape1).map fun j =>
      i * output.shape1 * output.shape2 + j * output.shape2

/-- Maximum of the four class scores of the slot at `offset`. -/
def maxClassScore (data : Nat → ℚ) (offset : Nat) : ℚ :=
  max (max (data (offset + 4)) (data (offset + 5))) (max (data (offset + 6)) (data (offset + 7)))

/-- Slots whose maximum class score is not below the confidence threshold, in
slot order. -/
def survivingSlots (output : Tensor) (conf_thres : ℚ) : List Nat :=
  (slotOffsets output).filter fun off => decide (conf_thres ≤ maxClassScore output.data off)

/-- Slots that the decoding loop does not skip at line 147, in slot order. -/
def candidateOffsets (output : Tensor) (conf_thres : ℚ) : List Nat :=
  (slotOffsets output).filter fun off => !decide ((classScan output.data off).1 < conf_thres)

/-- Corner-form integer box built at line 156 from the slot at `offset`. -/
def slotBox (data : Nat → ℚ) (offset : Nat) : Rect :=
  ⟨toInt (data (offset + 0) - data (offset + 2) / 2),
   toInt (data (offset + 1) - data (offset + 3) / 2),
   toInt (data (offset + 2)), toInt (data (offset + 3))⟩

/-- Keypoint list built at lines 159-178 from the slot at `offset`. -/
def slotKpts (output : Tensor) (offset : Nat) : List Point2f :=
  (List.range KPT_NUM).map (decodeKpt output.data output.shape2 offset)

/-- All coordinates of a detection lie inside the `W x H` source image: both
box corners, and every keypoint that is not the absent marker. -/
def InImage (W H : Nat) (b : Blade) : Prop :=
  0 ≤ b.rect.x ∧ b.rect.x ≤ W ∧ 0 ≤ b.rect.y ∧ b.rect.y ≤ H ∧
    0 ≤ b.rect.x + b.rect.width ∧ b.rect.x + b.rect.width ≤ W ∧
    0 ≤ b.rect.y + b.rect.height ∧ b.rect.y + b.rect.height ≤ H ∧
    ∀ p ∈ b.kpt, p ≠ sentinel → 0 ≤ p.x ∧ p.x ≤ W ∧ 0 ≤ p.y ∧ p.y ≤ H

instance (W H : Nat) (b : Blade) : Decidable (InImage W H b) := by
  unfold InImage
  infer_instance

/-- Values of a raw tensor of shape [1, 3, 16] used to evaluate the pipeline.
Slot 0: box centre (50, 75), size 100 x 150, best class 0 with score 9/10.
Slot 1: box centre (50, 145), size 100 x 12, best class 1 with score 4/5.
Slot 2: best score 3/10, below the default confidence threshold. -/
def sampleData : List ℚ :=
  [50, 75, 100, 150, 9 / 10, 0, 0, 0, 10, 20, 700, 5, 0, 640, -3, 4,
   50, 145, 100, 12, 0, 4 / 5, 0, 0, 1, 2, 3, 4, 5, 6, 7, 8,
   300, 300, 40, 40, 1 / 10, 3 / 10, 2 / 10, 0, 1, 1, 1, 1, 1, 1, 1, 1]

/-- The raw tensor holding `sampleData`; reads outside the buffer give 0. -/
def sampleTensor : Tensor :=
  ⟨1, 3, 16, fun n => sampleData.getD n 0⟩

/-- A detector that has already produced one detection in three earlier runs. -/
def usedDetector : Detector :=
  { padd_w_ := 0
    padd_h_ := 140
    blade_array_ := [⟨⟨900, 480, 120, 120⟩, "RR", 9 / 10, []⟩]
    infer_runs := 3 }

/-- Both coordinates of a canvas point lie in the inclusive range [0, 640]. -/
def InCanvas (p : Point2f) : Prop :=
  0 ≤ p.x ∧ p.x ≤ 640 ∧ 0 ≤ p.y ∧ p.y ≤ 640

instance (p : Point2f) : Decidable (InCanvas p) := by
  unfold InCanvas
  infer_instance

/-- Selection order on candidate indices: the higher confidence comes first,
and of two equal confidences the lower index (earlier in decode order). -/
def SelectsBefore (scores : List ℚ) (a b : Nat) : Prop :=
  scores.getD b 0 < scores.getD a 0 ∨ (scores.getD a 0 = scores.getD b 0 ∧ a < b)

instance (scores : List ℚ) (a b : Nat) : Decidable (SelectsBefore scores a b) := by
  unfold SelectsBefore
  infer_instance

/-- The canvas boxes of candidates `a` and `b` overlap by at most the
threshold. -/
def Compatible (bboxes : List Rect) (nms_threshold : ℚ) (a b : Nat) : Prop :=
  IoU (bboxes.getD a ⟨0, 0, 0, 0⟩) (bboxes.getD b ⟨0, 0, 0, 0⟩) ≤ nms_threshold

instance (bboxes : List Rect) (nms_threshold : ℚ) (a b : Nat) :
    Decidable (Compatible bboxes nms_threshold a b) := by
  unfold Compatible
  infer_instance

/-! ## Accessors (buffdetector.h, lines 33-41) -/

/-- `Detector::getBladeArray`. -/
def getBladeArray (d : Detector) : List Blade :=
  d.blade_array_

/-- `Detector::setConfThreshold`. -/
def setConfThreshold (d : Detector) (conf : ℚ) : Detector :=
  { d with conf_threshold_ := conf }

/-- `Detector::setNMSThreshold`. -/
def setNMSThreshold (d : Detector) (nms : ℚ) : Detector :=
  { d with nms_threshold_ := nms }

/-- `Detector::getConfThreshold`. -/
def getConfThreshold (d : Detector) : ℚ :=
  d.conf_threshold_

/-- `Detector::getNMSThreshold`. -/
def getNMSThreshold (d : Detector) : ℚ :=
  d.nms_threshold_

/-- State left by the constructor (buffdetector.cpp, lines 8-35): it assigns
only the OpenVINO members, so every modelled member keeps its default member
initialiser. -/
def newDetector : Detector := {}

/-! ## Remapping formula of the specification -/

/-- Inverse letterbox map of one canvas coordinate (spec §4.5):
`orig = (canvas_coord - padding_axis) * source_dim_axis / (S - 2 * padding_axis)`
with `S = 640`. -/
def remapAxis (padding source_dim canvas_coord : ℚ) : ℚ :=
  (canvas_coord - padding) * source_dim / (640 - 2 * padding)

/-- Clamping of a remapped coordinate to `[0, source_dim]` (spec §4.5). -/
def clampAxis (v source_dim : ℚ) : ℚ :=
  max 0 (min v source_dim)

/-- A raw tensor of shape [1, 1, 16] holding the scenario candidate of the
spec: box centre (320, 320), size 40 x 40, i.e. canvas box (300, 300, 40, 40),
best class 0 with score 9/10. -/
def scenarioTensor : Tensor :=
  ⟨1, 1, 16, fun n =>
    ([320, 320, 40, 40, 9 / 10, 0, 0, 0, 310, 310, 330, 310, 330, 330, 310, 330] : List ℚ).getD
      n 0⟩

/-- A raw tensor of shape [1, 1, 16] whose single slot has a negative width:
box centre (100, 100), size -40 x 20, best class 0 with score 9/10. -/
def negWidthTensor : Tensor :=
  ⟨1, 1, 16, fun n =>
    ([100, 100, -40, 20, 9 / 10, 0, 0, 0, 0, 0, 0, 0, 0, 0, 0, 0] : List ℚ).getD n 0⟩

/-! ## Result renderer (buffdetector.cpp, lines 241-290) -/

/-- Drawing calls issued by `draw_blade` on the image: `cv::rectangle` with its
rectangle, `cv::putText` with its text and origin, `cv::circle` with its centre
and the keypoint slot that selects the colour, `cv::polylines` with its
points. -/
inductive DrawOp where
  | rectangle (rec : Rect)
  | putText (text : String) (x y : Int)
  | circle (x y : Int) (slot : Nat)
  | polylines (pts : List (Int × Int))
deriving DecidableEq

def kpt_names : List String := ["kpt0", "kpt1", "kpt2", "kpt3"]

/-- The test `kpt.x >= 0 && kpt.y >= 0 && kpt.x != -1 && kpt.y != -1`. -/
def kptDrawable (kpt : Point2f) : Bool :=
  decide (kpt.x ≥ 0 ∧ kpt.y ≥ 0 ∧ kpt.x ≠ -1 ∧ kpt.y ≠ -1)

/-- Keypoint loop of `draw_blade` (lines 266-275). -/
def drawKpts (b : Blade) : List DrawOp :=
  (List.range (min b.kpt.length 4)).flatMap fun j =>
    let kpt := b.kpt.getD j sentinel
    if kptDrawable kpt then
      [DrawOp.circle (toInt kpt.x) (toInt kpt.y) j,
        DrawOp.putText (kpt_names.getD j "") (toInt (kpt.x + 7)) (toInt (kpt.y - 7))]
    else
      []

/-- The list `valid_pts` collected at lines 278-284. -/
def validPts (b : Blade) : List (Int × Int) :=
  (List.range (min b.kpt.length 4)).flatMap fun j =>
    let kpt := b.kpt.getD j sentinel
    if kptDrawable kpt then [(toInt kpt.x, toInt kpt.y)] else []

/-- Text of the label drawn at lines 250-251. -/
def labelText (b : Blade) : String :=
  b.label ++ ": " ++ toString (toInt32 (fl32 (b.prob * 100))) ++ "%"

/-- Body of the loop of `draw_blade` after the `continue` test (lines 247-288). -/
def drawOne (b : Blade) : List DrawOp :=
  [DrawOp.rectangle b.rect, DrawOp.putText (labelText b) b.rect.x (b.rect.y - 10)] ++
    drawKpts b ++ (if (validPts b).length = 4 then [DrawOp.polylines (validPts b)] else [])

/-- `Detector::draw_blade`: the drawing calls issued on the image, in order. The
stored detections are only read. -/
def draw_blade (d : Detector) : List DrawOp :=
  d.blade_array_.foldl
    (fun ops b => if b.label = "RW" ∨ b.label = "BW" then ops else ops ++ drawOne b) []

/-! ## Tensor reads of the decoder -/

/-- Indices of the data buffer read while decoding the slot at `offset` (lines
130-133, 140, 165-166): the four box fields, the four class scores, and the
two coordinates of every keypoint that passes the index test of line 164. -/
def slotReads (num_features offset : Nat) : List Nat :=
  [offset + 0, offset + 1, offset + 2, offset + 3] ++
    (List.range CLS_NUM).map (fun k => offset + 4 + k) ++
    (List.range KPT_NUM).flatMap fun k =>
      if 8 + k * 2 < num_features ∧ 8 + k * 2 + 1 < num_features then
        [offset + (8 + k * 2), offset + (8 + k * 2 + 1)]
      else
        []

/-- Indices of the data buffer read by the decoding loops. -/
def decodeReads (output : Tensor) : List Nat :=
  (slotOffsets output).flatMap (slotReads output.shape2)

/-- A raw tensor of shape [1, 1, 16] with fractional box fields: centre
(203/4, 301/4), size 201/2 x 301/2, best class 0 with score 9/10. -/
def fracTensor : Tensor :=
  ⟨1, 1, 16, fun n =>
    ([203 / 4, 301 / 4, 201 / 2, 301 / 2, 9 / 10, 0, 0, 0, 0, 0, 0, 0, 0, 0, 0, 0] :
      List ℚ).getD n 0⟩

/-! ## Candidates of one detection call -/

/-- The candidate lists decoded during a detection call on `src_img`. -/
def detectDecoded (infer : Mat → Tensor) (d : Detector) (src_img : Mat) : Decoded :=
  decode (infer (letterbox d src_img buff_image_size buff_image_size).1) d.conf_threshold_

/-- The candidate indices picked by the suppression step during a detection
call on `src_img`. -/
def detectPicked (infer : Mat → Tensor) (d : Detector) (src_img : Mat) : List Nat :=
  NMSBoxes (detectDecoded infer d src_img).boxes (detectDecoded infer d src_img).confidences
    d.conf_threshold_ d.nms_threshold_

/-- A raw tensor of shape [1, 2, 16] with two overlapping candidates: canvas
boxes (0, 0, 100, 100) with score 9/10 and (10, 10, 100, 100) with score 4/5,
whose IoU is 81/119. -/
def overlapTensor : Tensor :=
  ⟨1, 2, 16, fun n =>
    ([50, 50, 100, 100, 9 / 10, 0, 0, 0, 0, 0, 0, 0, 0, 0, 0, 0,
      60, 60, 100, 100, 4 / 5, 0, 0, 0, 0, 0, 0, 0, 0, 0, 0, 0] : List ℚ).getD n 0⟩

/-! ## Definitions used to state the binary32 properties -/

/-- Corner-form integer box built at line 156 from the slot at `offset`, in
binary32. -/
def slotBox_f32 (data : Nat → ℚ) (offset : Nat) : Rect :=
  ⟨toInt32 (fl32 (data (offset + 0) - fl32 (data (offset + 2) / 2))),
   toInt32 (fl32 (data (offset + 1) - fl32 (data (offset + 3) / 2))),
   toInt32 (data (offset + 2)), toInt32 (data (offset + 3))⟩

/-- Inverse letterbox map of one canvas coordinate (spec §4.5) with every
operation rounded to binary32: the difference `canvas_coord - padding`, its
product with the source dimension, the divisor `640 - 2 * padding` and the
quotient. -/
def remapAxis_f32 (padding source_dim canvas_coord : ℚ) : ℚ :=
  fl32 (fl32 (fl32 (canvas_coord - padding) * fl32 source_dim) /
    fl32 (640 - fl32 (2 * padding)))

/-- A raw tensor of shape [1, 1, 16] with the single candidate box centre
(49/2, 49/2), size 35 x 35, i.e. canvas box (7, 7, 35, 35), best class 0 with
score 7/8. -/
def cornerTensor : Tensor :=
  ⟨1, 1, 16, fun n =>
    ([49 / 2, 49 / 2, 35, 35, 7 / 8, 0, 0, 0, 0, 0, 0, 0, 0, 0, 0, 0] : List ℚ).getD n 0⟩

/-- A raw tensor of shape [1, 1, 16] whose box centre 1201/4 and width
32769/65536 are binary32 values with an inexact difference: centre
(1201/4, 100), size 32769/65536 x 20, best class 0 with score 7/8. -/
def roundingTensor : Tensor :=
  ⟨1, 1, 16, fun n =>
    ([1201 / 4, 100, 32769 / 65536, 20, 7 / 8, 0, 0, 0, 0, 0, 0, 0, 0, 0, 0, 0] :
      List ℚ).getD n 0⟩

/-- A raw tensor of shape [1, 1, 16] whose canvas box has x = 2000000000 and
width 2000000000: centre (3000000000, 100), size 2000000000 x 20, best class 0
with score 7/8. -/
def wideTensor : Tensor :=
  ⟨1, 1, 16, fun n =>
    ([3000000000, 100, 2000000000, 20, 7 / 8, 0, 0, 0, 0, 0, 0, 0, 0, 0, 0, 0] :
      List ℚ).getD n 0⟩

/-- A raw tensor of shape [1, 1, 12]: one slot of twelve features, i.e. the
box, the four class scores and the keypoints 0 and 1 only. Box centre
(100, 100), size 40 x 20, best class 2 with score 7/8, keypoints (10, 20) and
(30, 40). -/
def twelveTensor : Tensor :=
  ⟨1, 1, 12, fun n =>
    ([100, 100, 40, 20, 0, 0, 7 / 8, 0, 10, 20, 30, 40] : List ℚ).getD n 0⟩

/-! ## Rounding lemmas -/

theorem cround_of_nonneg {x : ℚ} (hx : 0 ≤ x) : cround x = ⌊x + 1 / 2⌋ := by
  simp [cround, hx]

theorem cround_eq_round {x : ℚ} (hx : 0 ≤ x) : cround x = round x := by
  rw [cround_of_nonneg hx, round_eq]

theorem cround_bounds {x : ℚ} {n : Int} (h0 : 0 ≤ x) (hn : x ≤ n) :
    0 ≤ cround x ∧ cround x ≤ n := by
  rw [cround_of_nonneg h0]
  constructor
  · exact Int.floor_nonneg.mpr (by linarith)
  · have h : ⌊x + 1 / 2⌋ < n + 1 := by
      rw [Int.floor_lt]
      push_cast
      linarith
    omega

/-- Borders computed from a half-integer padding `P / 2`: the two rounded
offsets are non-negative and add up to `P`. -/
theorem border_split (P : Int) (hP : 0 ≤ P) :
    0 ≤ cround ((P : ℚ) / 2 - 1 / 10) ∧ 0 ≤ cround ((P : ℚ) / 2 + 1 / 10) ∧
      cround ((P : ℚ) / 2 - 1 / 10) + cround ((P : ℚ) / 2 + 1 / 10) = P ∧
      ((cround ((P : ℚ) / 2 - 1 / 10) : ℚ) =
        (P : ℚ) / 2 - (if P % 2 = 0 then 0 else 1 / 2)) := by
  have hPq : (0 : ℚ) ≤ (P : ℚ) := by exact_mod_cast hP
  obtain ⟨m, rfl | rfl⟩ := Int.even_or_odd' P
  · -- even padding
    have hm : 0 ≤ m := by omega
    have hmq : (0 : ℚ) ≤ (m : ℚ) := by exact_mod_cast hm
    have hb : cround (((2 * m : Int) : ℚ) / 2 + 1 / 10) = m := by
      rw [cround_of_nonneg (by push_cast; linarith), Int.floor_eq_iff]
      push_cast
      constructor <;> linarith
    have ht : cround (((2 * m : Int) : ℚ) / 2 - 1 / 10) = m := by
      rcases eq_or_lt_of_le hm with h0 | hpos
      · subst h0
        norm_num [cround]
      · have h1 : (1 : ℚ) ≤ (m : ℚ) := by exact_mod_cast hpos
        rw [cround_of_nonneg (by push_cast; linarith), Int.floor_eq_iff]
        push_cast
        constructor <;> linarith
    rw [ht, hb]
    refine ⟨hm, hm, by ring, ?_⟩
    have : (2 * m) % 2 = 0 := by omega
    rw [if_pos this]
    push_cast
    ring
  · -- odd padding
    have hm : 0 ≤ m := by omega
    have hmq : (0 : ℚ) ≤ (m : ℚ) := by exact_mod_cast hm
    have hb : cround (((2 * m + 1 : Int) : ℚ) / 2 + 1 / 10) = m + 1 := by
      rw [cround_of_nonneg (by push_cast; linarith), Int.floor_eq_iff]
      push_cast
      constructor <;> linarith
    have ht : cround (((2 * m + 1 : Int) : ℚ) / 2 - 1 / 10) = m := by
      rw [cround_of_nonneg (by push_cast; linarith), Int.floor_eq_iff]
      push_cast
      constructor <;> linarith
    rw [ht, hb]
    refine ⟨hm, by omega, by ring, ?_⟩
    have : ¬ (2 * m + 1) % 2 = 0 := by omega
    rw [if_neg this]
    push_cast
    ring

/-! ## Letterbox lemmas -/

/-- The scale factor fits both axes into the canvas. -/
theorem letterbox_scaled_le (W H : Nat) (hW : 1 ≤ W) (hH : 1 ≤ H) :
    0 ≤ (W : ℚ) * min ((640 : ℚ) / H) ((640 : ℚ) / W) ∧
      (W : ℚ) * min ((640 : ℚ) / H) ((640 : ℚ) / W) ≤ 640 ∧
      0 ≤ (H : ℚ) * min ((640 : ℚ) / H) ((640 : ℚ) / W) ∧
      (H : ℚ) * min ((640 : ℚ) / H) ((640 : ℚ) / W) ≤ 640 := by
  have hWq : (0 : ℚ) < (W : ℚ) := by exact_mod_cast hW
  have hHq : (0 : ℚ) < (H : ℚ) := by exact_mod_cast hH
  have hr0 : (0 : ℚ) ≤ min ((640 : ℚ) / H) ((640 : ℚ) / W) := by
    apply le_min <;> positivity
  have h1 : (W : ℚ) * min ((640 : ℚ) / H) ((640 : ℚ) / W) ≤ (W : ℚ) * ((640 : ℚ) / W) :=
    mul_le_mul_of_nonneg_left (min_le_right _ _) hWq.le
  have h2 : (H : ℚ) * min ((640 : ℚ) / H) ((640 : ℚ) / W) ≤ (H : ℚ) * ((640 : ℚ) / H) :=
    mul_le_mul_of_nonneg_left (min_le_left _ _) hHq.le
  have h3 : (W : ℚ) * ((640 : ℚ) / W) = 640 := by field_simp
  have h4 : (H : ℚ) * ((640 : ℚ) / H) = 640 := by field_simp
  exact ⟨by positivity, by linarith, by positivity, by linarith⟩

theorem letterboxVars_inside (src : Mat) (hW : 1 ≤ src.cols) (hH : 1 ≤ src.rows) :
    0 ≤ (letterboxVars src 640 640).inside_w ∧ (letterboxVars src 640 640).inside_w ≤ 640 ∧
      0 ≤ (letterboxVars src 640 640).inside_h ∧ (letterboxVars src 640 640).inside_h ≤ 640 := by
  obtain ⟨a, b, c, e⟩ := letterbox_scaled_le src.cols src.rows hW hH
  have hw := cround_bounds (n := 640) a (by exact_mod_cast b)
  have hh := cround_bounds (n := 640) c (by exact_mod_cast e)
  simp only [letterboxVars, Int.cast_natCast, Int.cast_ofNat]
  exact ⟨hw.1, hw.2, hh.1, hh.2⟩

theorem letterboxVars_borders (src : Mat) (hW : 1 ≤ src.cols) (hH : 1 ≤ src.rows) :
    0 ≤ (letterboxVars src 640 640).top ∧ 0 ≤ (letterboxVars src 640 640).bottom ∧
      0 ≤ (letterboxVars src 640 640).left ∧ 0 ≤ (letterboxVars src 640 640).right ∧
      (letterboxVars src 640 640).inside_w + (letterboxVars src 640 640).left +
        (letterboxVars src 640 640).right = 640 ∧
      (letterboxVars src 640 640).inside_h + (letterboxVars src 640 640).top +
        (letterboxVars src 640 640).bottom = 640 := by
  obtain ⟨w0, w1, h0, h1⟩ := letterboxVars_inside src hW hH
  obtain ⟨a1, a2, a3, _⟩ := border_split (640 - (letterboxVars src 640 640).inside_w) (by omega)
  obtain ⟨b1, b2, b3, _⟩ := border_split (640 - (letterboxVars src 640 640).inside_h) (by omega)
  refine ⟨b1, b2, a1, a2, ?_, ?_⟩
  · have : (letterboxVars src 640 640).left + (letterboxVars src 640 640).right =
        640 - (letterboxVars src 640 640).inside_w := a3
    omega
  · have : (letterboxVars src 640 640).top + (letterboxVars src 640 640).bottom =
        640 - (letterboxVars src 640 640).inside_h := b3
    omega

/-- C10: for a source of size W x H (both at least 1) the scaled dimensions are
at most 640, the borders top = round(padd_h_ - 0.1), bottom = round(padd_h_ +
0.1), left = round(padd_w_ - 0.1), right = round(padd_w_ + 0.1) are
non-negative, scaled_w + left + right = 640 and scaled_h + top + bottom = 640,
so the canvas returned by letterbox is exactly 640 x 640. -/
theorem letterbox_canvas_is_640 (d : Detector) (src : Mat)
    (hW : 1 ≤ src.cols) (hH : 1 ≤ src.rows) :
    (letterboxVars src buff_image_size buff_image_size).inside_w ≤ 640 ∧
      (letterboxVars src buff_image_size buff_image_size).inside_h ≤ 640 ∧
      (letterboxVars src buff_image_size buff_image_size).top =
        cround ((letterbox d src buff_image_size buff_image_size).2.padd_h_ - 1 / 10) ∧
      (letterboxVars src buff_image_size buff_image_size).bottom =
        cround ((letterbox d src buff_image_size buff_image_size).2.padd_h_ + 1 / 10) ∧
      (letterboxVars src buff_image_size buff_image_size).left =
        cround ((letterbox d src buff_image_size buff_image_size).2.padd_w_ - 1 / 10) ∧
      (letterboxVars src buff_image_size buff_image_size).right =
        cround ((letterbox d src buff_image_size buff_image_size).2.padd_w_ + 1 / 10) ∧
      0 ≤ (letterboxVars src buff_image_size buff_image_size).top ∧
      0 ≤ (letterboxVars src buff_image_size buff_image_size).bottom ∧
      0 ≤ (letterboxVars src buff_image_size buff_image_size).left ∧
      0 ≤ (letterboxVars src buff_image_size buff_image_size).right ∧
      (letterboxVars src buff_image_size buff_image_size).inside_w +
        (letterboxVars src buff_image_size buff_image_size).left +
        (letterboxVars src buff_image_size buff_image_size).right = 640 ∧
      (letterboxVars src buff_image_size buff_image_size).inside_h +
        (letterboxVars src buff_image_size buff_image_size).top +
        (letterboxVars src buff_image_size buff_image_size).bottom = 640 ∧
      (letterbox d src buff_image_size buff_image_size).1 = ⟨640, 640⟩ := by
  obtain ⟨w0, w1, h0, h1⟩ := letterboxVars_inside src hW hH
  obtain ⟨t, b, l, r, sw, sh⟩ := letterboxVars_borders src hW hH
  refine ⟨w1, h1, rfl, rfl, rfl, rfl, t, b, l, r, sw, sh, ?_⟩
  have ew : (((letterboxVars src 640 640).inside_w.toNat : Int)) =
      (letterboxVars src 640 640).inside_w := Int.toNat_of_nonneg w0
  have eh : (((letterboxVars src 640 640).inside_h.toNat : Int)) =
      (letterboxVars src 640 640).inside_h := Int.toNat_of_nonneg h0
  simp only [letterbox, resize, copyMakeBorder, buff_image_size, ew, eh, sw, sh]
  rfl

theorem letterbox_canvas_is_640_witness :
    1 ≤ (⟨1920, 1083⟩ : Mat).cols ∧ 1 ≤ (⟨1920, 1083⟩ : Mat).rows ∧
      (letterboxVars ⟨1920, 1083⟩ buff_image_size buff_image_size).top = 139 ∧
      (letterboxVars ⟨1920, 1083⟩ buff_image_size buff_image_size).bottom = 140 ∧
      (letterbox {} ⟨1920, 1083⟩ buff_image_size buff_image_size).1 = ⟨640, 640⟩ :=
  ⟨by decide, by decide, by decide!, by decide!,
    (letterbox_canvas_is_640 {} ⟨1920, 1083⟩ (by decide) (by decide)).2.2.2.2.2.2.2.2.2.2.2.2⟩

/-- Round trip on one axis: with scaled dimension `s` (non-zero), source
dimension `n` (non-zero), inserted border `b` and stored padding `(640 - s) / 2`,
mapping forward and back moves `x` by `(b - (640 - s) / 2) * n / s`. -/
theorem axis_round_trip (x n s b : ℚ) (hn : n ≠ 0) (hs : s ≠ 0) :
    (x * s / n + b - (640 - s) / 2) * n / (640 - 2 * ((640 - s) / 2)) =
      x + (b - (640 - s) / 2) * n / s := by
  have e : (640 : ℚ) - 2 * ((640 - s) / 2) = s := by ring
  rw [e]
  field_simp
  ring

/-- Round trip along x: the point comes back shifted by the difference between
the inserted left border and the stored padding. -/
theorem round_trip_x (d : Detector) (src : Mat) (p : Point2f)
    (hW : 1 ≤ src.cols) (hH : 1 ≤ src.rows)
    (hw : (letterboxVars src buff_image_size buff_image_size).inside_w ≠ 0) :
    (remapPoint (letterbox d src buff_image_size buff_image_size).2 src.size
        (letterboxPoint src p)).x =
      p.x - (if (640 - (letterboxVars src buff_image_size buff_image_size).inside_w) % 2 = 0
          then 0 else 1 / 2) * (src.cols : ℚ) /
        ((letterboxVars src buff_image_size buff_image_size).inside_w : ℚ) := by
  obtain ⟨w0, w1, -, -⟩ := letterboxVars_inside src hW hH
  obtain ⟨-, -, -, hl⟩ :=
    border_split (640 - (letterboxVars src 640 640).inside_w) (by omega)
  have hn : (src.cols : ℚ) ≠ 0 := by
    have : (0 : ℚ) < (src.cols : ℚ) := by exact_mod_cast hW
    exact this.ne'
  have hs : ((letterboxVars src 640 640).inside_w : ℚ) ≠ 0 := by exact_mod_cast hw
  have hleft : ((letterboxVars src 640 640).left : ℚ) =
      ((640 - (letterboxVars src 640 640).inside_w : Int) : ℚ) / 2 -
        (if (640 - (letterboxVars src 640 640).inside_w) % 2 = 0 then 0 else 1 / 2) := hl
  have key := axis_round_trip p.x (src.cols : ℚ) ((letterboxVars src 640 640).inside_w : ℚ)
    ((letterboxVars src 640 640).left : ℚ) hn hs
  have hp : (letterbox d src buff_image_size buff_image_size).2.padd_w_ =
      (640 - ((letterboxVars src 640 640).inside_w : ℚ)) / 2 := by
    simp [letterbox, letterboxVars, buff_image_size]
  simp only [remapPoint, letterboxPoint, convert_coord, if_true, hp, Mat.size]
  simp only [buff_image_size, Int.cast_ofNat]
  rw [key, hleft]
  push_cast
  ring

/-- Round trip along y: the point comes back shifted by the difference between
the inserted top border and the stored padding. -/
theorem round_trip_y (d : Detector) (src : Mat) (p : Point2f)
    (hW : 1 ≤ src.cols) (hH : 1 ≤ src.rows)
    (hh : (letterboxVars src buff_image_size buff_image_size).inside_h ≠ 0) :
    (remapPoint (letterbox d src buff_image_size buff_image_size).2 src.size
        (letterboxPoint src p)).y =
      p.y - (if (640 - (letterboxVars src buff_image_size buff_image_size).inside_h) % 2 = 0
          then 0 else 1 / 2) * (src.rows : ℚ) /
        ((letterboxVars src buff_image_size buff_image_size).inside_h : ℚ) := by
  obtain ⟨-, -, h0, h1⟩ := letterboxVars_inside src hW hH
  obtain ⟨-, -, -, hl⟩ :=
    border_split (640 - (letterboxVars src 640 640).inside_h) (by omega)
  have hn : (src.rows : ℚ) ≠ 0 := by
    have : (0 : ℚ) < (src.rows : ℚ) := by exact_mod_cast hH
    exact this.ne'
  have hs : ((letterboxVars src 640 640).inside_h : ℚ) ≠ 0 := by exact_mod_cast hh
  have htop : ((letterboxVars src 640 640).top : ℚ) =
      ((640 - (letterboxVars src 640 640).inside_h : Int) : ℚ) / 2 -
        (if (640 - (letterboxVars src 640 640).inside_h) % 2 = 0 then 0 else 1 / 2) := hl
  have key := axis_round_trip p.y (src.rows : ℚ) ((letterboxVars src 640 640).inside_h : ℚ)
    ((letterboxVars src 640 640).top : ℚ) hn hs
  have hp : (letterbox d src buff_image_size buff_image_size).2.padd_h_ =
      (640 - ((letterboxVars src 640 640).inside_h : ℚ)) / 2 := by
    simp [letterbox, letterboxVars, buff_image_size]
  simp only [remapPoint, letterboxPoint, convert_coord, Bool.false_eq_true, if_false, hp,
    Mat.size]
  simp only [buff_image_size, Int.cast_ofNat]
  rw [key, htop]
  push_cast
  ring

/-- C4 (as stated, refuted): for the 1920 x 1083 source the scaled height is 361,
the total vertical padding 279 is odd, and the interior point (100, 100) comes
back from the round trip as (100, 197/2). -/
theorem letterbox_round_trip_counterexample :
    (0 : ℚ) < 100 ∧ (100 : ℚ) < ((⟨1920, 1083⟩ : Mat).cols : ℚ) ∧
      (100 : ℚ) < ((⟨1920, 1083⟩ : Mat).rows : ℚ) ∧
      (letterboxVars ⟨1920, 1083⟩ buff_image_size buff_image_size).inside_w ≠ 0 ∧
      (letterboxVars ⟨1920, 1083⟩ buff_image_size buff_image_size).inside_h ≠ 0 ∧
      remapPoint (letterbox {} ⟨1920, 1083⟩ buff_image_size buff_image_size).2
        (Mat.size ⟨1920, 1083⟩) (letterboxPoint ⟨1920, 1083⟩ ⟨100, 100⟩) = ⟨100, 197 / 2⟩ ∧
      remapPoint (letterbox {} ⟨1920, 1083⟩ buff_image_size buff_image_size).2
        (Mat.size ⟨1920, 1083⟩) (letterboxPoint ⟨1920, 1083⟩ ⟨100, 100⟩) ≠ ⟨100, 100⟩ := by
  decide!

/-- C4 (amended): for a source of size W x H (both at least 1) with non-zero
scaled dimensions, projecting a point forward through the letterbox and back
through convert_coord with the stored paddings returns the same coordinate on
every axis whose total padding 640 - scaled is even; on an axis whose total
padding is odd the coordinate comes back lowered by source_dim / (2 * scaled). -/
theorem letterbox_round_trip (d : Detector) (src : Mat) (p : Point2f)
    (hW : 1 ≤ src.cols) (hH : 1 ≤ src.rows)
    (hw : (letterboxVars src buff_image_size buff_image_size).inside_w ≠ 0)
    (hh : (letterboxVars src buff_image_size buff_image_size).inside_h ≠ 0) :
    ((640 - (letterboxVars src buff_image_size buff_image_size).inside_w) % 2 = 0 →
        (remapPoint (letterbox d src buff_image_size buff_image_size).2 src.size
          (letterboxPoint src p)).x = p.x) ∧
      ((640 - (letterboxVars src buff_image_size buff_image_size).inside_w) % 2 ≠ 0 →
        (remapPoint (letterbox d src buff_image_size buff_image_size).2 src.size
          (letterboxPoint src p)).x = p.x - (src.cols : ℚ) /
            (2 * ((letterboxVars src buff_image_size buff_image_size).inside_w : ℚ))) ∧
      ((640 - (letterboxVars src buff_image_size buff_image_size).inside_h) % 2 = 0 →
        (remapPoint (letterbox d src buff_image_size buff_image_size).2 src.size
          (letterboxPoint src p)).y = p.y) ∧
      ((640 - (letterboxVars src buff_image_size buff_image_size).inside_h) % 2 ≠ 0 →
        (remapPoint (letterbox d src buff_image_size buff_image_size).2 src.size
          (letterboxPoint src p)).y = p.y - (src.rows : ℚ) /
            (2 * ((letterboxVars src buff_image_size buff_image_size).inside_h : ℚ))) := by
  have hx := round_trip_x d src p hW hH hw
  have hy := round_trip_y d src p hW hH hh
  refine ⟨fun e => ?_, fun e => ?_, fun e => ?_, fun e => ?_⟩
  · rw [hx, if_pos e]; ring
  · rw [hx, if_neg e]
    have hs : ((letterboxVars src buff_image_size buff_image_size).inside_w : ℚ) ≠ 0 := by
      exact_mod_cast hw
    field_simp
  · rw [hy, if_pos e]; ring
  · rw [hy, if_neg e]
    have hs : ((letterboxVars src buff_image_size buff_image_size).inside_h : ℚ) ≠ 0 := by
      exact_mod_cast hh
    field_simp

theorem letterbox_round_trip_witness :
    1 ≤ (⟨1920, 1080⟩ : Mat).cols ∧ 1 ≤ (⟨1920, 1080⟩ : Mat).rows ∧
      (letterboxVars ⟨1920, 1080⟩ buff_image_size buff_image_size).inside_w ≠ 0 ∧
      (letterboxVars ⟨1920, 1080⟩ buff_image_size buff_image_size).inside_h ≠ 0 ∧
      (remapPoint (letterbox {} ⟨1920, 1080⟩ buff_image_size buff_image_size).2
        (Mat.size ⟨1920, 1080⟩) (letterboxPoint ⟨1920, 1080⟩ ⟨100, 100⟩)).x = 100 ∧
      (remapPoint (letterbox {} ⟨1920, 1080⟩ buff_image_size buff_image_size).2
        (Mat.size ⟨1920, 1080⟩) (letterboxPoint ⟨1920, 1080⟩ ⟨100, 100⟩)).y = 100 :=
  ⟨by decide, by decide, by decide!, by decide!,
    (letterbox_round_trip {} ⟨1920, 1080⟩ ⟨100, 100⟩ (by decide) (by decide)
      (by decide!) (by decide!)).1 (by decide!),
    (letterbox_round_trip {} ⟨1920, 1080⟩ ⟨100, 100⟩ (by decide) (by decide)
      (by decide!) (by decide!)).2.2.1 (by decide!)⟩

/-! ## Decoder lemmas -/

/-- One conditional push onto the four parallel lists. -/
theorem decodeSlot_eq (output : Tensor) (conf_thres : ℚ) (acc : Decoded) (i j : Nat) :
    decodeSlot output conf_thres acc i j =
      if (classScan output.data (i * output.shape1 * output.shape2 + j * output.shape2)).1
          < conf_thres then acc
      else
        { classIds := acc.classIds ++
            [(classScan output.data (i * output.shape1 * output.shape2 + j * output.shape2)).2]
          confidences := acc.confidences ++
            [(classScan output.data (i * output.shape1 * output.shape2 + j * output.shape2)).1]
          boxes := acc.boxes ++
            [slotBox output.data (i * output.shape1 * output.shape2 + j * output.shape2)]
          kpts_list := acc.kpts_list ++
            [slotKpts output (i * output.shape1 * output.shape2 + j * output.shape2)] } := by
  rfl

/-- Folding conditional pushes over a list of offsets appends the images of
the offsets that are not skipped. -/
theorem foldl_push (output : Tensor) (conf_thres : ℚ) (l : List Nat) (acc : Decoded) :
    l.foldl (fun acc off =>
        if (classScan output.data off).1 < conf_thres then acc
        else
          { classIds := acc.classIds ++ [(classScan output.data off).2]
            confidences := acc.confidences ++ [(classScan output.data off).1]
            boxes := acc.boxes ++ [slotBox output.data off]
            kpts_list := acc.kpts_list ++ [slotKpts output off] }) acc =
      { classIds := acc.classIds ++
          (l.filter fun off => !decide ((classScan output.data off).1 < conf_thres)).map
            fun off => (classScan output.data off).2
        confidences := acc.confidences ++
          (l.filter fun off => !decide ((classScan output.data off).1 < conf_thres)).map
            fun off => (classScan output.data off).1
        boxes := acc.boxes ++
          (l.filter fun off => !decide ((classScan output.data off).1 < conf_thres)).map
            (slotBox output.data)
        kpts_list := acc.kpts_list ++
          (l.filter fun off => !decide ((classScan output.data off).1 < conf_thres)).map
            (slotKpts output) } := by
  induction l generalizing acc with
  | nil => simp
  | cons off rest ih =>
    rw [List.foldl_cons, ih]
    by_cases h : (classScan output.data off).1 < conf_thres
    · simp [h]
    · simp [h]

/-- The nested decoding loops are one pass over `slotOffsets`. -/
theorem decode_as_pass (output : Tensor) (conf_thres : ℚ) :
    decode output conf_thres =
      (slotOffsets output).foldl (fun acc off =>
        if (classScan output.data off).1 < conf_thres then acc
        else
          { classIds := acc.classIds ++ [(classScan output.data off).2]
            confidences := acc.confidences ++ [(classScan output.data off).1]
            boxes := acc.boxes ++ [slotBox output.data off]
            kpts_list := acc.kpts_list ++ [slotKpts output off] }) {} := by
  unfold decode slotOffsets
  generalize ({} : Decoded) = acc
  induction List.range output.shape0 generalizing acc with
  | nil => rfl
  | cons i rest ih =>
    rw [List.foldl_cons, List.flatMap_cons, List.foldl_append, ← ih]
    congr 1
    rw [List.foldl_map]
    simp only [decodeSlot_eq]

/-- Closed form of the decoder output: the candidate lists are the images of
the slots that are not skipped, in slot order. -/
theorem decode_eq (output : Tensor) (conf_thres : ℚ) :
    decode output conf_thres =
      { classIds := (candidateOffsets output conf_thres).map
          fun off => (classScan output.data off).2
        confidences := (candidateOffsets output conf_thres).map
          fun off => (classScan output.data off).1
        boxes := (candidateOffsets output conf_thres).map (slotBox output.data)
        kpts_list := (candidateOffsets output conf_thres).map (slotKpts output) } := by
  rw [decode_as_pass, foldl_push]
  simp [candidateOffsets]

/-- The running maximum of the class-score loop, for any list of class
indices and any starting value. -/
theorem classScan_fold (data : Nat → ℚ) (offset : Nat) (ks : List Nat) (acc : ℚ × Nat) :
    (ks.foldl (fun (acc : ℚ × Nat) (k : Nat) =>
        if data (offset + 4 + k) > acc.1 then (data (offset + 4 + k), k) else acc) acc).1 =
      ks.foldl (fun m k => max m (data (offset + 4 + k))) acc.1 := by
  induction ks generalizing acc with
  | nil => rfl
  | cons k rest ih =>
    rw [List.foldl_cons, List.foldl_cons, ih]
    congr 1
    by_cases h : data (offset + 4 + k) > acc.1
    · rw [if_pos h, max_eq_right h.le]
    · rw [if_neg h, max_eq_left (not_lt.mp h)]

/-- The class-score loop computes the maximum of `-FLT_MAX` and the four
scores. -/
theorem classScan_fst (data : Nat → ℚ) (offset : Nat) :
    (classScan data offset).1 = max (-FLT_MAX) (maxClassScore data offset) := by
  have hr : List.range CLS_NUM = [0, 1, 2, 3] := by decide
  rw [classScan, classScan_fold, hr]
  simp only [List.foldl_cons, List.foldl_nil, maxClassScore, max_assoc, Nat.add_zero]

theorem classScan_fst_of_finite (data : Nat → ℚ) (offset : Nat)
    (hfin : ∀ n, -FLT_MAX ≤ data n) :
    (classScan data offset).1 = maxClassScore data offset := by
  rw [classScan_fst]
  apply max_eq_right
  exact le_trans (hfin (offset + 4)) (le_trans (le_max_left _ _) (le_max_left _ _))

theorem candidateOffsets_eq_surviving (output : Tensor) (conf_thres : ℚ)
    (hfin : ∀ n, -FLT_MAX ≤ output.data n) :
    candidateOffsets output conf_thres = survivingSlots output conf_thres := by
  unfold candidateOffsets survivingSlots
  congr 1
  funext off
  rw [classScan_fst_of_finite output.data off hfin]
  by_cases h : maxClassScore output.data off < conf_thres
  · simp [h]
  · simp [h, not_lt.mp h]

theorem getD_lower_bound (l : List ℚ) (m : ℚ) (h : ∀ x ∈ l, m ≤ x) (h0 : m ≤ 0) (n : Nat) :
    m ≤ l.getD n 0 := by
  rcases Nat.lt_or_ge n l.length with hn | hn
  · rw [List.getD_eq_getElem _ _ hn]
    exact h _ (List.getElem_mem _)
  · rw [List.getD_eq_default _ _ hn]
    exact h0

/-- C3: the decoder's candidate lists are exactly the slots of the raw tensor,
in slot order, whose maximum class score is not below the confidence threshold
(tensor entries being floats, none is below -FLT_MAX): a slot with maximum
score below the threshold is absent, a slot with maximum score at or above it
is present, and nothing else removes a slot. -/
theorem decode_keeps_exactly_surviving_slots (output : Tensor) (conf_thres : ℚ)
    (hfin : ∀ n, -FLT_MAX ≤ output.data n) :
    (decode output conf_thres).confidences =
        (survivingSlots output conf_thres).map (maxClassScore output.data) ∧
      (decode output conf_thres).classIds =
        (survivingSlots output conf_thres).map (fun off => (classScan output.data off).2) ∧
      (decode output conf_thres).boxes =
        (survivingSlots output conf_thres).map (slotBox output.data) ∧
      (decode output conf_thres).kpts_list =
        (survivingSlots output conf_thres).map (slotKpts output) ∧
      (∀ off ∈ slotOffsets output, maxClassScore output.data off < conf_thres →
        off ∉ survivingSlots output conf_thres) ∧
      (∀ off ∈ slotOffsets output, conf_thres ≤ maxClassScore output.data off →
        off ∈ survivingSlots output conf_thres) := by
  rw [decode_eq, candidateOffsets_eq_surviving output conf_thres hfin]
  refine ⟨?_, rfl, rfl, rfl, ?_, ?_⟩
  · apply List.map_congr_left
    intro off _
    exact classScan_fst_of_finite output.data off hfin
  · intro off _ hlt hmem
    have := (List.mem_filter.mp hmem).2
    simp only [decide_eq_true_eq] at this
    exact absurd hlt (not_lt.mpr this)
  · intro off hoff hle
    exact List.mem_filter.mpr ⟨hoff, by simpa using hle⟩

theorem decode_keeps_exactly_surviving_slots_witness :
    (∀ n, -FLT_MAX ≤ sampleTensor.data n) ∧
      survivingSlots sampleTensor (1 / 2) = [0, 16] ∧
      (decode sampleTensor (1 / 2)).confidences =
        (survivingSlots sampleTensor (1 / 2)).map (maxClassScore sampleTensor.data) :=
  ⟨getD_lower_bound sampleData _ (by decide!) (by decide!), by decide!,
    (decode_keeps_exactly_surviving_slots sampleTensor (1 / 2)
      (getD_lower_bound sampleData _ (by decide!) (by decide!))).1⟩

/-- C8: for an empty source image Detect returns the empty sequence, reports
"Empty image!", and neither letterboxes (the stored paddings are untouched) nor
runs inference (the run counter is untouched), for every detector state and
thresholds. -/
theorem Detect_empty_image (infer : Mat → Tensor) (nmsBoxes : NMSFn) (d : Detector)
    (src_img : Mat) (h : src_img.empty = true) :
    (Detect infer nmsBoxes d src_img).1 = [] ∧
      (Detect infer nmsBoxes d src_img).2.infer_runs = d.infer_runs ∧
      (Detect infer nmsBoxes d src_img).2.padd_w_ = d.padd_w_ ∧
      (Detect infer nmsBoxes d src_img).2.padd_h_ = d.padd_h_ ∧
      (Detect infer nmsBoxes d src_img).2.cerr = d.cerr ++ ["Empty image!"] := by
  simp [Detect, h]

theorem Detect_empty_image_witness :
    Mat.empty ⟨0, 480⟩ = true ∧
      (Detect (fun _ => sampleTensor) NMSBoxes usedDetector ⟨0, 480⟩).1 = [] ∧
      (Detect (fun _ => sampleTensor) NMSBoxes usedDetector ⟨0, 480⟩).2.infer_runs = 3 :=
  ⟨by decide, (Detect_empty_image (fun _ => sampleTensor) NMSBoxes usedDetector ⟨0, 480⟩
      (by decide)).1,
    (Detect_empty_image (fun _ => sampleTensor) NMSBoxes usedDetector ⟨0, 480⟩ (by decide)).2.1⟩

/-! ## Remapper lemmas -/

theorem clamp_bounds (v : ℚ) (n : Nat) :
    0 ≤ max 0 (min v (n : ℚ)) ∧ max 0 (min v (n : ℚ)) ≤ (n : ℚ) := by
  have hn : (0 : ℚ) ≤ (n : ℚ) := Nat.cast_nonneg n
  exact ⟨le_max_left _ _, max_le hn (min_le_right _ _)⟩

theorem toInt_bounds {x : ℚ} {n : Nat} (h0 : 0 ≤ x) (hn : x ≤ (n : ℚ)) :
    0 ≤ toInt x ∧ toInt x ≤ (n : Int) := by
  simp only [toInt, if_pos h0]
  constructor
  · exact Int.floor_nonneg.mpr h0
  · have : ⌊x⌋ ≤ ⌊((n : Int) : ℚ)⌋ := Int.floor_le_floor (by exact_mod_cast hn)
    rwa [Int.floor_intCast] at this

/-- Truncated corner plus truncated extent stays inside `[0, n]` when both
clamped corners do, also when the second corner lies before the first. -/
theorem toInt_corner_extent {a b : ℚ} {n : Nat} (ha0 : 0 ≤ a) (han : a ≤ (n : ℚ))
    (hb0 : 0 ≤ b) (hbn : b ≤ (n : ℚ)) :
    0 ≤ toInt a + toInt (b - a) ∧ toInt a + toInt (b - a) ≤ (n : Int) := by
  obtain ⟨fa0, fan⟩ := toInt_bounds ha0 han
  have hfa : toInt a = ⌊a⌋ := by simp [toInt, ha0]
  by_cases hd : 0 ≤ b - a
  · have hfd : toInt (b - a) = ⌊b - a⌋ := by simp only [toInt, if_pos hd]
    have hd0 : 0 ≤ ⌊b - a⌋ := Int.floor_nonneg.mpr hd
    refine ⟨by rw [hfd]; omega, ?_⟩
    have h1 : ((⌊a⌋ + ⌊b - a⌋ : Int) : ℚ) ≤ ((n : Int) : ℚ) := by
      have := Int.floor_le a
      have := Int.floor_le (b - a)
      push_cast
      linarith
    rw [hfa, hfd]
    exact_mod_cast h1
  · have hfd : toInt (b - a) = -⌊a - b⌋ := by
      simp only [toInt, if_neg hd, neg_sub]
    have hpos : 0 ≤ ⌊a - b⌋ := Int.floor_nonneg.mpr (by linarith)
    have hmono : ⌊a - b⌋ ≤ ⌊a⌋ := Int.floor_le_floor (by linarith)
    rw [hfd]
    rw [hfa] at fa0 fan ⊢
    constructor <;> omega

theorem convertKpt_sentinel (d : Detector) (img_size : Size) :
    convertKpt d img_size sentinel = sentinel := by
  simp [convertKpt, sentinel]

theorem convertKpt_valid (d : Detector) (img_size : Size) (p : Point2f)
    (hx : 0 ≤ p.x) (hy : 0 ≤ p.y) :
    0 ≤ (convertKpt d img_size p).x ∧ (convertKpt d img_size p).x ≤ (img_size.width : ℚ) ∧
      0 ≤ (convertKpt d img_size p).y ∧ (convertKpt d img_size p).y ≤ (img_size.height : ℚ) := by
  have hc : p.x ≥ 0 ∧ p.y ≥ 0 := ⟨hx, hy⟩
  simp only [convertKpt, if_pos hc]
  exact ⟨(clamp_bounds _ _).1, (clamp_bounds _ _).2, (clamp_bounds _ _).1, (clamp_bounds _ _).2⟩

theorem convertKpt_cases (d : Detector) (img_size : Size) (p : Point2f) :
    convertKpt d img_size p = sentinel ∨
      (0 ≤ (convertKpt d img_size p).x ∧ (convertKpt d img_size p).x ≤ (img_size.width : ℚ) ∧
        0 ≤ (convertKpt d img_size p).y ∧
        (convertKpt d img_size p).y ≤ (img_size.height : ℚ)) := by
  by_cases hc : p.x ≥ 0 ∧ p.y ≥ 0
  · exact Or.inr (convertKpt_valid d img_size p hc.1 hc.2)
  · left
    simp only [convertKpt, if_neg hc, sentinel]

/-- Every detection built by the result loop lies inside the image, whatever
index the suppression routine picked. -/
theorem makeBlade_inImage (d : Detector) (dec : Decoded) (img_size : Size) (idx : Nat) :
    InImage img_size.width img_size.height (makeBlade d dec img_size idx) := by
  unfold InImage
  simp only [makeBlade]
  refine ⟨?_, ?_, ?_, ?_, ?_, ?_, ?_, ?_, ?_⟩
  · exact (toInt_bounds (clamp_bounds _ _).1 (clamp_bounds _ _).2).1
  · exact (toInt_bounds (clamp_bounds _ _).1 (clamp_bounds _ _).2).2
  · exact (toInt_bounds (clamp_bounds _ _).1 (clamp_bounds _ _).2).1
  · exact (toInt_bounds (clamp_bounds _ _).1 (clamp_bounds _ _).2).2
  · exact (toInt_corner_extent (clamp_bounds _ _).1 (clamp_bounds _ _).2
      (clamp_bounds _ _).1 (clamp_bounds _ _).2).1
  · exact (toInt_corner_extent (clamp_bounds _ _).1 (clamp_bounds _ _).2
      (clamp_bounds _ _).1 (clamp_bounds _ _).2).2
  · exact (toInt_corner_extent (clamp_bounds _ _).1 (clamp_bounds _ _).2
      (clamp_bounds _ _).1 (clamp_bounds _ _).2).1
  · exact (toInt_corner_extent (clamp_bounds _ _).1 (clamp_bounds _ _).2
      (clamp_bounds _ _).1 (clamp_bounds _ _).2).2
  · intro p hp hne
    obtain ⟨q, -, rfl⟩ := List.mem_map.mp hp
    rcases convertKpt_cases d img_size q with h | h
    · exact absurd h hne
    · exact h

/-- Result of a detection call on a non-empty image, unfolded. -/
theorem Detect_nonempty (infer : Mat → Tensor) (nmsBoxes : NMSFn) (d : Detector)
    (src_img : Mat) (h : src_img.empty = false) :
    (Detect infer nmsBoxes d src_img).1 =
      (nmsBoxes
          (decode (infer (letterbox d src_img buff_image_size buff_image_size).1)
            d.conf_threshold_).boxes
          (decode (infer (letterbox d src_img buff_image_size buff_image_size).1)
            d.conf_threshold_).confidences
          d.conf_threshold_ d.nms_threshold_).map
        (makeBlade
          { (letterbox d src_img buff_image_size buff_image_size).2 with
            infer_runs := d.infer_runs + 1 }
          (decode (infer (letterbox d src_img buff_image_size buff_image_size).1)
            d.conf_threshold_)
          src_img.size) := by
  simp only [Detect, h]
  rfl

theorem Mat.not_empty {src : Mat} (hW : 1 ≤ src.cols) (hH : 1 ≤ src.rows) :
    src.empty = false := by
  have h1 : src.cols ≠ 0 := by omega
  have h2 : src.rows ≠ 0 := by omega
  simp [Mat.empty, h1, h2]

/-- C1: for every inference result, suppression routine, detector state
(thresholds included) and source image of size W x H with W, H at least 1 and a
non-degenerate letterbox, every detection returned by Detect has both box
corners and every non-absent keypoint inside [0, W] x [0, H]. -/
theorem detections_inside_image (infer : Mat → Tensor) (nmsBoxes : NMSFn) (d : Detector)
    (src_img : Mat) (hW : 1 ≤ src_img.cols) (hH : 1 ≤ src_img.rows)
    (_hw : (buff_image_size : ℚ) -
      2 * (letterbox d src_img buff_image_size buff_image_size).2.padd_w_ ≠ 0)
    (_hh : (buff_image_size : ℚ) -
      2 * (letterbox d src_img buff_image_size buff_image_size).2.padd_h_ ≠ 0) :
    ∀ b ∈ (Detect infer nmsBoxes d src_img).1, InImage src_img.cols src_img.rows b := by
  intro b hb
  rw [Detect_nonempty infer nmsBoxes d src_img (Mat.not_empty hW hH)] at hb
  obtain ⟨idx, -, rfl⟩ := List.mem_map.mp hb
  exact makeBlade_inImage _ _ src_img.size idx

theorem detections_inside_image_witness :
    1 ≤ (⟨1920, 1080⟩ : Mat).cols ∧ 1 ≤ (⟨1920, 1080⟩ : Mat).rows ∧
      (buff_image_size : ℚ) -
        2 * (letterbox {} ⟨1920, 1080⟩ buff_image_size buff_image_size).2.padd_w_ ≠ 0 ∧
      (buff_image_size : ℚ) -
        2 * (letterbox {} ⟨1920, 1080⟩ buff_image_size buff_image_size).2.padd_h_ ≠ 0 ∧
      (Detect (fun _ => sampleTensor) NMSBoxes {} ⟨1920, 1080⟩).1.length = 2 ∧
      ∀ b ∈ (Detect (fun _ => sampleTensor) NMSBoxes {} ⟨1920, 1080⟩).1,
        InImage (⟨1920, 1080⟩ : Mat).cols (⟨1920, 1080⟩ : Mat).rows b :=
  ⟨by decide, by decide, by decide!, by decide!, by decide!,
    detections_inside_image (fun _ => sampleTensor) NMSBoxes {} ⟨1920, 1080⟩
      (by decide) (by decide) (by decide!) (by decide!)⟩

/-- Decoding of a keypoint whose two indices lie inside the slot. -/
theorem decodeKpt_read (data : Nat → ℚ) (num_features offset k : Nat)
    (hF : 8 + k * 2 + 1 < num_features) :
    (InCanvas ⟨data (offset + (8 + k * 2)), data (offset + (8 + k * 2 + 1))⟩ →
        decodeKpt data num_features offset k =
          ⟨data (offset + (8 + k * 2)), data (offset + (8 + k * 2 + 1))⟩) ∧
      (¬ InCanvas ⟨data (offset + (8 + k * 2)), data (offset + (8 + k * 2 + 1))⟩ →
        decodeKpt data num_features offset k = sentinel) := by
  have hx : 8 + k * 2 < num_features := by omega
  have hidx : 8 + k * 2 < num_features ∧ 8 + k * 2 + 1 < num_features := ⟨hx, hF⟩
  constructor
  · intro hc
    obtain ⟨a, b, c, e⟩ := hc
    simp only at a b c e
    have hcond : data (offset + (8 + k * 2)) ≥ 0 ∧ data (offset + (8 + k * 2 + 1)) ≥ 0 ∧
        data (offset + (8 + k * 2)) ≤ 640 ∧ data (offset + (8 + k * 2 + 1)) ≤ 640 :=
      ⟨a, c, b, e⟩
    simp only [decodeKpt, if_pos hidx, if_pos hcond]
  · intro hc
    have hcond : ¬ (data (offset + (8 + k * 2)) ≥ 0 ∧ data (offset + (8 + k * 2 + 1)) ≥ 0 ∧
        data (offset + (8 + k * 2)) ≤ 640 ∧ data (offset + (8 + k * 2 + 1)) ≤ 640) := by
      rintro ⟨a, c, b, e⟩
      exact hc ⟨a, b, c, e⟩
    simp only [decodeKpt, if_pos hidx, if_neg hcond, sentinel]

theorem convertKpt_ne_sentinel (d : Detector) (img_size : Size) (p : Point2f)
    (hx : 0 ≤ p.x) (hy : 0 ≤ p.y) : convertKpt d img_size p ≠ sentinel := by
  intro h
  have h0 := (convertKpt_valid d img_size p hx hy).1
  rw [h] at h0
  norm_num [sentinel] at h0

/-- Keypoints of the detection built for a picked index that refers to the
candidate decoded from the slot at `off`. -/
theorem makeBlade_kpt (d : Detector) (output : Tensor) (conf_thres : ℚ) (img_size : Size)
    (idx off : Nat) (hoff : (candidateOffsets output conf_thres)[idx]? = some off) :
    (makeBlade d (decode output conf_thres) img_size idx).kpt =
      (slotKpts output off).map (convertKpt d img_size) := by
  simp only [makeBlade, decode_eq, List.getD_eq_getElem?_getD, List.getElem?_map, hoff,
    Option.map_some', Option.getD_some]

/-- C5: for the detection built from a kept candidate and a keypoint slot k in
0..3 that is read from the tensor, the returned keypoint is the absent marker
(-1, -1) exactly when the raw keypoint has x or y outside [0, 640]; a raw
keypoint inside [0, 640] x [0, 640] is decoded as its raw value and is not
turned into the marker by remapping; a keypoint decoded as absent passes
through remapping unchanged. -/
theorem keypoint_sentinel_integrity (nmsBoxes : NMSFn) (d : Detector) (output : Tensor)
    (conf_thres iou_thres : ℚ) (img_size : Size) (i idx off k : Nat)
    (hpick : (nmsBoxes (decode output conf_thres).boxes (decode output conf_thres).confidences
      conf_thres iou_thres)[i]? = some idx)
    (hoff : (candidateOffsets output conf_thres)[idx]? = some off)
    (hk : k < KPT_NUM) (hF : 8 + k * 2 + 1 < output.shape2) :
    ∃ b kp dk,
      (non_max_suppression nmsBoxes d output conf_thres iou_thres img_size).blade_array_[i]? =
          some b ∧
        b.kpt[k]? = some kp ∧ (slotKpts output off)[k]? = some dk ∧
        kp = convertKpt d img_size dk ∧
        (kp = sentinel ↔
          ¬ InCanvas ⟨output.data (off + (8 + k * 2)), output.data (off + (8 + k * 2 + 1))⟩) ∧
        (InCanvas ⟨output.data (off + (8 + k * 2)), output.data (off + (8 + k * 2 + 1))⟩ →
          dk = ⟨output.data (off + (8 + k * 2)), output.data (off + (8 + k * 2 + 1))⟩) ∧
        (dk = sentinel → kp = dk) := by
  obtain ⟨hin, hout⟩ := decodeKpt_read output.data output.shape2 off k hF
  have hdk : (slotKpts output off)[k]? = some (decodeKpt output.data output.shape2 off k) := by
    simp only [slotKpts, List.getElem?_map, List.getElem?_range hk, Option.map_some']
  refine ⟨makeBlade d (decode output conf_thres) img_size idx,
    convertKpt d img_size (decodeKpt output.data output.shape2 off k),
    decodeKpt output.data output.shape2 off k, ?_, ?_, hdk, rfl, ?_, hin, ?_⟩
  · simp only [non_max_suppression, List.getElem?_map, hpick, Option.map_some']
  · rw [makeBlade_kpt d output conf_thres img_size idx off hoff, List.getElem?_map, hdk,
      Option.map_some']
  · constructor
    · intro hs hc
      rw [hin hc] at hs
      exact convertKpt_ne_sentinel d img_size _ hc.1 hc.2.2.1 hs
    · intro hc
      rw [hout hc]
      exact convertKpt_sentinel d img_size
  · intro hs
    rw [hs]
    exact convertKpt_sentinel d img_size

theorem keypoint_sentinel_integrity_witness :
    (NMSBoxes (decode sampleTensor (1 / 2)).boxes (decode sampleTensor (1 / 2)).confidences
        (1 / 2) (2 / 5))[0]? = some 0 ∧
      (candidateOffsets sampleTensor (1 / 2))[0]? = some 0 ∧
      1 < KPT_NUM ∧ 8 + 1 * 2 + 1 < sampleTensor.shape2 ∧
      ¬ InCanvas ⟨sampleTensor.data (0 + (8 + 1 * 2)), sampleTensor.data (0 + (8 + 1 * 2 + 1))⟩ ∧
      ∃ b kp dk,
        (non_max_suppression NMSBoxes {} sampleTensor (1 / 2) (2 / 5)
            ⟨1920, 1080⟩).blade_array_[0]? = some b ∧
          b.kpt[1]? = some kp ∧ (slotKpts sampleTensor 0)[1]? = some dk ∧
          kp = convertKpt {} ⟨1920, 1080⟩ dk ∧
          (kp = sentinel ↔
            ¬ InCanvas ⟨sampleTensor.data (0 + (8 + 1 * 2)),
              sampleTensor.data (0 + (8 + 1 * 2 + 1))⟩) ∧
          (InCanvas ⟨sampleTensor.data (0 + (8 + 1 * 2)),
              sampleTensor.data (0 + (8 + 1 * 2 + 1))⟩ →
            dk = ⟨sampleTensor.data (0 + (8 + 1 * 2)),
              sampleTensor.data (0 + (8 + 1 * 2 + 1))⟩) ∧
          (dk = sentinel → kp = dk) :=
  ⟨by decide!, by decide!, by decide, by decide, by decide!,
    keypoint_sentinel_integrity NMSBoxes {} sampleTensor (1 / 2) (2 / 5) ⟨1920, 1080⟩ 0 0 0 1
      (by decide!) (by decide!) (by decide) (by decide)⟩

/-! ## Suppression lemmas -/

/-- Inserting an index smaller than all indices of a list in selection order
keeps the list in selection order. -/
theorem orderedInsert_selects (scores : List ℚ) (a : Nat) (L : List Nat)
    (hL : L.Pairwise (SelectsBefore scores)) (ha : ∀ x ∈ L, a < x) :
    (L.orderedInsert (fun i j => scores.getD j 0 ≤ scores.getD i 0) a).Pairwise
      (SelectsBefore scores) := by
  induction L with
  | nil => simp
  | cons b L ih =>
    obtain ⟨hb, hL'⟩ := List.pairwise_cons.mp hL
    have hab : a < b := ha b (List.mem_cons_self _ _)
    by_cases h : scores.getD b 0 ≤ scores.getD a 0
    · rw [List.orderedInsert, if_pos h]
      refine List.pairwise_cons.mpr ⟨?_, hL⟩
      intro x hx
      have hax : a < x := ha x hx
      have hxb : scores.getD x 0 ≤ scores.getD b 0 := by
        rcases List.mem_cons.mp hx with rfl | hx'
        · exact le_refl _
        · rcases hb x hx' with h1 | h1
          · exact h1.le
          · exact h1.1.ge
      rcases lt_or_eq_of_le (le_trans hxb h) with h2 | h2
      · exact Or.inl h2
      · exact Or.inr ⟨h2.symm, hax⟩
    · rw [List.orderedInsert, if_neg h]
      refine List.pairwise_cons.mpr ⟨?_, ih hL' (fun x hx => ha x (List.mem_cons_of_mem _ hx))⟩
      intro x hx
      rcases (List.mem_orderedInsert _).mp hx with rfl | hx'
      · exact Or.inl (not_le.mp h)
      · exact hb x hx'

/-- Stable descending sort of an increasing index list yields selection
order. -/
theorem insertionSort_selects (scores : List ℚ) (l : List Nat) (hl : l.Pairwise (· < ·)) :
    (l.insertionSort (fun i j => scores.getD j 0 ≤ scores.getD i 0)).Pairwise
      (SelectsBefore scores) := by
  induction l with
  | nil => simp
  | cons a l ih =>
    obtain ⟨ha, hl'⟩ := List.pairwise_cons.mp hl
    rw [List.insertionSort]
    apply orderedInsert_selects scores a _ (ih hl')
    intro x hx
    exact ha x ((List.mem_insertionSort _).mp hx)

theorem sortByConfidence_selects (scores : List ℚ) :
    (sortByConfidence scores).Pairwise (SelectsBefore scores) :=
  insertionSort_selects scores _ (List.pairwise_lt_range _)

theorem mem_sortByConfidence (scores : List ℚ) (x : Nat) :
    x ∈ sortByConfidence scores ↔ x < scores.length := by
  rw [sortByConfidence, List.mem_insertionSort, List.mem_range]

theorem length_sortByConfidence (scores : List ℚ) :
    (sortByConfidence scores).length = scores.length := by
  rw [sortByConfidence, List.length_insertionSort, List.length_range]

/-- The greedy loop only ever removes candidates. -/
theorem greedyLoop_sublist (bboxes : List Rect) (thr : ℚ) (fuel : Nat) (l : List Nat) :
    List.Sublist (greedyLoop bboxes thr fuel l) l := by
  induction fuel generalizing l with
  | zero => simp [greedyLoop]
  | succ n ih =>
    cases l with
    | nil => simp [greedyLoop]
    | cons i rest =>
      rw [greedyLoop]
      exact List.Sublist.cons₂ i ((ih _).trans (List.filter_sublist _))

/-- Any two candidates kept by the greedy loop overlap by at most the
threshold. -/
theorem greedyLoop_compatible (bboxes : List Rect) (thr : ℚ) (fuel : Nat) (l : List Nat) :
    (greedyLoop bboxes thr fuel l).Pairwise (Compatible bboxes thr) := by
  induction fuel generalizing l with
  | zero => simp [greedyLoop]
  | succ n ih =>
    cases l with
    | nil => simp [greedyLoop]
    | cons i rest =>
      rw [greedyLoop]
      refine List.pairwise_cons.mpr ⟨?_, ih _⟩
      intro j hj
      have hj' := (greedyLoop_sublist bboxes thr n _).subset hj
      have hp := (List.mem_filter.mp hj').2
      simp only [Bool.not_eq_true', decide_eq_false_iff_not, not_lt] at hp
      exact hp

/-- On a list of pairwise compatible candidates the greedy loop keeps
everything, given one round per candidate. -/
theorem greedyLoop_of_compatible (bboxes : List Rect) (thr : ℚ) (fuel : Nat) (l : List Nat)
    (hl : l.Pairwise (Compatible bboxes thr)) (hf : l.length ≤ fuel) :
    greedyLoop bboxes thr fuel l = l := by
  induction fuel generalizing l with
  | zero =>
    have : l = [] := List.length_eq_zero.mp (Nat.le_zero.mp hf)
    subst this
    rfl
  | succ n ih =>
    cases l with
    | nil => rfl
    | cons i rest =>
      obtain ⟨hi, hrest⟩ := List.pairwise_cons.mp hl
      have hfilter : (rest.filter fun j =>
          !decide (thr < IoU (bboxes.getD i ⟨0, 0, 0, 0⟩) (bboxes.getD j ⟨0, 0, 0, 0⟩))) =
          rest := by
        apply List.filter_eq_self.mpr
        intro j hj
        have := hi j hj
        simp only [Bool.not_eq_true', decide_eq_false_iff_not, not_lt]
        exact this
      rw [greedyLoop, hfilter, ih rest hrest (by simpa using hf)]

/-- One round per candidate is enough: more rounds change nothing. -/
theorem greedyLoop_fuel (bboxes : List Rect) (thr : ℚ) (fuel extra : Nat) (l : List Nat)
    (hf : l.length ≤ fuel) :
    greedyLoop bboxes thr (fuel + extra) l = greedyLoop bboxes thr fuel l := by
  induction fuel generalizing l with
  | zero =>
    have : l = [] := List.length_eq_zero.mp (Nat.le_zero.mp hf)
    subst this
    cases extra <;> rfl
  | succ n ih =>
    cases l with
    | nil => rw [Nat.add_right_comm]; rfl
    | cons i rest =>
      rw [Nat.add_right_comm, greedyLoop, greedyLoop]
      congr 1
      apply ih
      exact le_trans (List.length_filter_le _ _) (by simpa using hf)

theorem NMSBoxes_sublist (bboxes : List Rect) (scores : List ℚ) (st nt : ℚ) :
    List.Sublist (NMSBoxes bboxes scores st nt) (sortByConfidence scores) :=
  greedyLoop_sublist bboxes nt scores.length _

theorem NMSBoxes_selects (bboxes : List Rect) (scores : List ℚ) (st nt : ℚ) :
    (NMSBoxes bboxes scores st nt).Pairwise (SelectsBefore scores) :=
  (sortByConfidence_selects scores).sublist (NMSBoxes_sublist bboxes scores st nt)

theorem NMSBoxes_compatible (bboxes : List Rect) (scores : List ℚ) (st nt : ℚ) :
    (NMSBoxes bboxes scores st nt).Pairwise (Compatible bboxes nt) :=
  greedyLoop_compatible bboxes nt scores.length _

theorem NMSBoxes_valid (bboxes : List Rect) (scores : List ℚ) (st nt : ℚ) :
    ∀ idx ∈ NMSBoxes bboxes scores st nt, idx < scores.length := fun idx h =>
  (mem_sortByConfidence scores idx).mp ((NMSBoxes_sublist bboxes scores st nt).subset h)

theorem getD_map_of_lt {α β : Type} (f : α → β) (l : List α) (a : Nat) (h : a < l.length)
    (dflt : β) : (l.map f).getD a dflt = f l[a] := by
  simp [List.getD_eq_getElem?_getD, List.getElem?_map, List.getElem?_eq_getElem h]

/-- A pairwise relation on a list, read off at positions of the list. -/
theorem pairwise_range_of_pairwise {R : Nat → Nat → Prop} (K : List Nat) (hK : K.Pairwise R) :
    (List.range K.length).Pairwise
      (fun a b => ∃ (ha : a < K.length) (hb : b < K.length), R K[a] K[b]) := by
  refine (List.pairwise_lt_range K.length).imp_of_mem ?_
  intro a b ha hb hab
  have ha' := List.mem_range.mp ha
  have hb' := List.mem_range.mp hb
  exact ⟨ha', hb', (List.pairwise_iff_getElem.mp hK) a b ha' hb' hab⟩

/-- C6: if K is the list of candidates kept by the suppression step, running
the suppression step again on the boxes and confidences of K with the same
thresholds keeps every element of K, in the same order (the kept positions
are 0, 1, ..., |K| - 1). -/
theorem suppression_idempotent (bboxes : List Rect) (scores : List ℚ) (st nt : ℚ) :
    NMSBoxes ((NMSBoxes bboxes scores st nt).map fun k => bboxes.getD k ⟨0, 0, 0, 0⟩)
        ((NMSBoxes bboxes scores st nt).map fun k => scores.getD k 0) st nt =
      List.range (NMSBoxes bboxes scores st nt).length := by
  generalize hK : NMSBoxes bboxes scores st nt = K
  have hsel : K.Pairwise (SelectsBefore scores) := hK ▸ NMSBoxes_selects bboxes scores st nt
  have hcomp : K.Pairwise (Compatible bboxes nt) := hK ▸ NMSBoxes_compatible bboxes scores st nt
  have hsorted : sortByConfidence (K.map fun k => scores.getD k 0) = List.range K.length := by
    rw [sortByConfidence, List.length_map]
    apply List.Sorted.insertionSort_eq
    refine (pairwise_range_of_pairwise K hsel).imp ?_
    rintro a b ⟨ha, hb, h⟩
    rw [getD_map_of_lt _ K a ha, getD_map_of_lt _ K b hb]
    rcases h with h | h
    · exact h.le
    · exact h.1.ge
  rw [NMSBoxes, hsorted, List.length_map]
  apply greedyLoop_of_compatible
  · refine (pairwise_range_of_pairwise K hcomp).imp ?_
    rintro a b ⟨ha, hb, h⟩
    unfold Compatible
    rw [getD_map_of_lt _ K a ha, getD_map_of_lt _ K b hb]
    exact h
  · rw [List.length_range]

/-- Candidates picked by the suppression step for a detection call on a
non-empty image, and the detections built from them. -/
theorem Detect_picked (infer : Mat → Tensor) (d : Detector) (src_img : Mat)
    (h : src_img.empty = false) :
    ∃ d1 : Detector,
      (Detect infer NMSBoxes d src_img).1 =
        (NMSBoxes
            (decode (infer (letterbox d src_img buff_image_size buff_image_size).1)
              d.conf_threshold_).boxes
            (decode (infer (letterbox d src_img buff_image_size buff_image_size).1)
              d.conf_threshold_).confidences
            d.conf_threshold_ d.nms_threshold_).map
          (makeBlade d1
            (decode (infer (letterbox d src_img buff_image_size buff_image_size).1)
              d.conf_threshold_)
            src_img.size) :=
  ⟨_, Detect_nonempty infer NMSBoxes d src_img h⟩

theorem makeBlade_prob (d : Detector) (dec : Decoded) (img_size : Size) (idx : Nat) :
    (makeBlade d dec img_size idx).prob = dec.confidences.getD idx 0 := rfl

/-- C7: the detections returned by Detect are built, in order, from the
candidates picked in selection order: confidences are non-increasing along the
returned sequence, and of two picked candidates with equal confidence the one
decoded first (lower candidate index, hence earlier slot) comes first. -/
theorem detections_in_selection_order (infer : Mat → Tensor) (d : Detector) (src_img : Mat)
    (h : src_img.empty = false) :
    ∃ (d1 : Detector) (picked : List Nat),
      (Detect infer NMSBoxes d src_img).1 =
          picked.map (makeBlade d1
            (decode (infer (letterbox d src_img buff_image_size buff_image_size).1)
              d.conf_threshold_) src_img.size) ∧
        (∀ idx ∈ picked, idx <
          (decode (infer (letterbox d src_img buff_image_size buff_image_size).1)
            d.conf_threshold_).confidences.length) ∧
        picked.Pairwise (SelectsBefore
          (decode (infer (letterbox d src_img buff_image_size buff_image_size).1)
            d.conf_threshold_).confidences) ∧
        (Detect infer NMSBoxes d src_img).1.Pairwise (fun x y => y.prob ≤ x.prob) := by
  obtain ⟨d1, hd⟩ := Detect_picked infer d src_img h
  refine ⟨d1, _, hd, NMSBoxes_valid _ _ _ _, NMSBoxes_selects _ _ _ _, ?_⟩
  rw [hd, List.pairwise_map]
  refine (NMSBoxes_selects _ _ _ _).imp ?_
  intro a b hab
  rw [makeBlade_prob, makeBlade_prob]
  rcases hab with h1 | h1
  · exact h1.le
  · exact h1.1.ge

theorem detections_in_selection_order_witness :
    Mat.empty ⟨1920, 1080⟩ = false ∧
      (Detect (fun _ => sampleTensor) NMSBoxes {} ⟨1920, 1080⟩).1.map (fun b => b.prob) =
        [9 / 10, 4 / 5] ∧
      ∃ (d1 : Detector) (picked : List Nat),
        (Detect (fun _ => sampleTensor) NMSBoxes {} ⟨1920, 1080⟩).1 =
            picked.map (makeBlade d1
              (decode ((fun _ => sampleTensor)
                (letterbox {} ⟨1920, 1080⟩ buff_image_size buff_image_size).1)
                ({} : Detector).conf_threshold_) (Mat.size ⟨1920, 1080⟩)) ∧
          (∀ idx ∈ picked, idx <
            (decode ((fun _ => sampleTensor)
              (letterbox {} ⟨1920, 1080⟩ buff_image_size buff_image_size).1)
              ({} : Detector).conf_threshold_).confidences.length) ∧
          picked.Pairwise (SelectsBefore
            (decode ((fun _ => sampleTensor)
              (letterbox {} ⟨1920, 1080⟩ buff_image_size buff_image_size).1)
              ({} : Detector).conf_threshold_).confidences) ∧
          (Detect (fun _ => sampleTensor) NMSBoxes {} ⟨1920, 1080⟩).1.Pairwise
            (fun x y => y.prob ≤ x.prob) :=
  ⟨by decide, by decide!,
    detections_in_selection_order (fun _ => sampleTensor) {} ⟨1920, 1080⟩ (by decide)⟩

theorem decode_lengths (output : Tensor) (conf_thres : ℚ) :
    (decode output conf_thres).boxes.length = (decode output conf_thres).confidences.length := by
  rw [decode_eq]
  simp

/-- C2 (as stated, refuted): on the 1920 x 1080 source, the candidates of slots
0 and 1 of `sampleTensor` have canvas boxes (0, 0, 100, 150) and
(0, 139, 100, 12) with IoU 11/151, so both are kept under the threshold 2/5;
remapping and clamping to the image turns them into the returned boxes
(0, 0, 300, 30) and (0, 0, 300, 33), whose IoU 10/11 exceeds the threshold. -/
theorem returned_boxes_iou_counterexample :
    (decode sampleTensor (1 / 2)).boxes = [⟨0, 0, 100, 150⟩, ⟨0, 139, 100, 12⟩] ∧
      IoU ⟨0, 0, 100, 150⟩ ⟨0, 139, 100, 12⟩ = 11 / 151 ∧
      (Detect (fun _ => sampleTensor) NMSBoxes {} ⟨1920, 1080⟩).1.map (fun b => b.rect) =
        [⟨0, 0, 300, 30⟩, ⟨0, 0, 300, 33⟩] ∧
      IoU ⟨0, 0, 300, 30⟩ ⟨0, 0, 300, 33⟩ = 10 / 11 ∧
      ¬ (IoU ⟨0, 0, 300, 30⟩ ⟨0, 0, 300, 33⟩ ≤ ({} : Detector).nms_threshold_) := by
  decide!

/-- C2 (amended): the detections returned by one Detect call on a non-empty
image are built, in order, from kept candidates, and any two of these
candidates have canvas boxes (the integer boxes decoded from the tensor, before
remapping and clamping) whose intersection-over-union is at most the configured
NMS threshold. -/
theorem returned_pairs_canvas_iou (infer : Mat → Tensor) (d : Detector) (src_img : Mat)
    (h : src_img.empty = false) :
    ∃ (d1 : Detector) (picked : List Nat),
      (Detect infer NMSBoxes d src_img).1 =
          picked.map (makeBlade d1
            (decode (infer (letterbox d src_img buff_image_size buff_image_size).1)
              d.conf_threshold_) src_img.size) ∧
        (∀ idx ∈ picked, idx <
          (decode (infer (letterbox d src_img buff_image_size buff_image_size).1)
            d.conf_threshold_).boxes.length) ∧
        picked.Pairwise (Compatible
          (decode (infer (letterbox d src_img buff_image_size buff_image_size).1)
            d.conf_threshold_).boxes d.nms_threshold_) := by
  obtain ⟨d1, hd⟩ := Detect_picked infer d src_img h
  refine ⟨d1, _, hd, ?_, NMSBoxes_compatible _ _ _ _⟩
  intro idx hidx
  rw [decode_lengths]
  exact NMSBoxes_valid _ _ _ _ idx hidx

theorem returned_pairs_canvas_iou_witness :
    Mat.empty ⟨1920, 1080⟩ = false ∧
      (Detect (fun _ => sampleTensor) NMSBoxes {} ⟨1920, 1080⟩).1.length = 2 ∧
      ∃ (d1 : Detector) (picked : List Nat),
        (Detect (fun _ => sampleTensor) NMSBoxes {} ⟨1920, 1080⟩).1 =
            picked.map (makeBlade d1
              (decode ((fun _ => sampleTensor)
                (letterbox {} ⟨1920, 1080⟩ buff_image_size buff_image_size).1)
                ({} : Detector).conf_threshold_) (Mat.size ⟨1920, 1080⟩)) ∧
          (∀ idx ∈ picked, idx <
            (decode ((fun _ => sampleTensor)
              (letterbox {} ⟨1920, 1080⟩ buff_image_size buff_image_size).1)
              ({} : Detector).conf_threshold_).boxes.length) ∧
          picked.Pairwise (Compatible
            (decode ((fun _ => sampleTensor)
              (letterbox {} ⟨1920, 1080⟩ buff_image_size buff_image_size).1)
              ({} : Detector).conf_threshold_).boxes ({} : Detector).nms_threshold_) :=
  ⟨by decide, by decide!,
    returned_pairs_canvas_iou (fun _ => sampleTensor) {} ⟨1920, 1080⟩ (by decide)⟩

/-! ## Configuration and stored results -/

/-- C15: the threshold setters are total and store any value unchanged: after
setConfThreshold(v) getConfThreshold() is v and getNMSThreshold() is as before,
after setNMSThreshold(v) getNMSThreshold() is v and getConfThreshold() is as
before, for every v (negative and above 1 included); a freshly constructed
detector has confidence threshold 1/2 and NMS threshold 2/5. -/
theorem threshold_setters (d : Detector) (v : ℚ) :
    getConfThreshold (setConfThreshold d v) = v ∧
      getNMSThreshold (setConfThreshold d v) = getNMSThreshold d ∧
      getNMSThreshold (setNMSThreshold d v) = v ∧
      getConfThreshold (setNMSThreshold d v) = getConfThreshold d ∧
      getConfThreshold (setConfThreshold d (-3)) = -3 ∧
      getNMSThreshold (setNMSThreshold d 7) = 7 ∧
      getConfThreshold newDetector = 1 / 2 ∧
      getNMSThreshold newDetector = 2 / 5 :=
  ⟨rfl, rfl, rfl, rfl, rfl, rfl, rfl, rfl⟩

/-- C16 (code evaluated at the failing input): a first call on a 1920 x 1080
image returns two detections and stores them; a second call on an empty image
returns the empty sequence, yet getBladeArray() still holds the two detections
of the first call. -/
theorem Detect_empty_leaves_stale_blades :
    (Detect (fun _ => sampleTensor) NMSBoxes newDetector ⟨1920, 1080⟩).1.length = 2 ∧
      getBladeArray (Detect (fun _ => sampleTensor) NMSBoxes newDetector ⟨1920, 1080⟩).2 =
        (Detect (fun _ => sampleTensor) NMSBoxes newDetector ⟨1920, 1080⟩).1 ∧
      (Detect (fun _ => sampleTensor) NMSBoxes
        (Detect (fun _ => sampleTensor) NMSBoxes newDetector ⟨1920, 1080⟩).2 ⟨0, 0⟩).1 = [] ∧
      getBladeArray (Detect (fun _ => sampleTensor) NMSBoxes
        (Detect (fun _ => sampleTensor) NMSBoxes newDetector ⟨1920, 1080⟩).2 ⟨0, 0⟩).2 =
        (Detect (fun _ => sampleTensor) NMSBoxes newDetector ⟨1920, 1080⟩).1 ∧
      getBladeArray (Detect (fun _ => sampleTensor) NMSBoxes
        (Detect (fun _ => sampleTensor) NMSBoxes newDetector ⟨1920, 1080⟩).2 ⟨0, 0⟩).2 ≠
        (Detect (fun _ => sampleTensor) NMSBoxes
          (Detect (fun _ => sampleTensor) NMSBoxes newDetector ⟨1920, 1080⟩).2 ⟨0, 0⟩).1 := by
  decide!

/-! ## Suppression in canvas space -/

/-- Intersection-over-union does not depend on the order of the two boxes. -/
theorem IoU_comm (a b : Rect) : IoU a b = IoU b a := by
  simp only [IoU]
  rw [min_comm (a.x + a.width), max_comm a.x, min_comm (a.y + a.height), max_comm a.y,
    add_comm (a.width * a.height)]

theorem Compatible_symm (bboxes : List Rect) (nt : ℚ) : Symmetric (Compatible bboxes nt) := by
  intro a b h
  unfold Compatible at h ⊢
  rwa [IoU_comm]

/-- C19: any two candidates kept by the suppression step have canvas boxes
whose IoU is at most the NMS threshold, so a candidate whose IoU with an
already kept candidate exceeds the threshold is never kept (the kept list is in selection order, higher confidence first);
for the boxes
(0, 0, 100, 100) and (10, 10, 100, 100) (IoU 81/119) with confidences 0.9 and
0.8 and threshold 0.4 only the first candidate is kept. -/
theorem suppression_keeps_compatible (bboxes : List Rect) (scores : List ℚ) (st nt : ℚ) :
    (NMSBoxes bboxes scores st nt).Pairwise (Compatible bboxes nt) ∧
      (NMSBoxes bboxes scores st nt).Pairwise (SelectsBefore scores) ∧
      (∀ i ∈ NMSBoxes bboxes scores st nt, ∀ j ∈ NMSBoxes bboxes scores st nt,
        i ≠ j → IoU (bboxes.getD i ⟨0, 0, 0, 0⟩) (bboxes.getD j ⟨0, 0, 0, 0⟩) ≤ nt) ∧
      IoU ⟨0, 0, 100, 100⟩ ⟨10, 10, 100, 100⟩ = 81 / 119 ∧
      NMSBoxes [⟨0, 0, 100, 100⟩, ⟨10, 10, 100, 100⟩] [9 / 10, 4 / 5] (1 / 2) (2 / 5) = [0] := by
  refine ⟨NMSBoxes_compatible bboxes scores st nt, NMSBoxes_selects bboxes scores st nt, ?_,
    by decide!, by decide!⟩
  intro i hi j hj hij
  exact (NMSBoxes_compatible bboxes scores st nt).forall (Compatible_symm bboxes nt) hi hj hij

/-! ## Class selection -/

/-- One step of the class-score loop preserves: the running maximum bounds the
scores seen so far, every score before the recorded index is strictly below it,
and the recorded index either holds the running maximum or the loop is still
in its initial state. -/
theorem classScan_invariant (data : Nat → ℚ) (offset : Nat) (n : Nat) :
    let acc := (List.range n).foldl
      (fun (acc : ℚ × Nat) (k : Nat) =>
        if data (offset + 4 + k) > acc.1 then (data (offset + 4 + k), k) else acc)
      (-FLT_MAX, 0)
    (∀ j < n, data (offset + 4 + j) ≤ acc.1) ∧
      (∀ j < acc.2, data (offset + 4 + j) < acc.1) ∧
      ((acc.2 < n ∧ data (offset + 4 + acc.2) = acc.1) ∨ acc = (-FLT_MAX, 0)) := by
  induction n with
  | zero =>
    refine ⟨fun j hj => absurd hj (Nat.not_lt_zero j), fun j hj => ?_, Or.inr rfl⟩
    simp at hj
  | succ n ih =>
    simp only [List.range_succ, List.foldl_append, List.foldl_cons, List.foldl_nil]
    generalize (List.range n).foldl
      (fun (acc : ℚ × Nat) (k : Nat) =>
        if data (offset + 4 + k) > acc.1 then (data (offset + 4 + k), k) else acc)
      (-FLT_MAX, 0) = acc at ih
    obtain ⟨h1, h2, h3⟩ := ih
    by_cases h : data (offset + 4 + n) > acc.1
    · rw [if_pos h]
      refine ⟨fun j hj => ?_, fun j hj => ?_, Or.inl ⟨Nat.lt_succ_self n, rfl⟩⟩
      · rcases Nat.lt_succ_iff_lt_or_eq.mp hj with hlt | rfl
        · exact le_trans (h1 j hlt) h.le
        · exact le_refl _
      · exact lt_of_le_of_lt (h1 j hj) h
    · rw [if_neg h]
      refine ⟨fun j hj => ?_, h2, ?_⟩
      · rcases Nat.lt_succ_iff_lt_or_eq.mp hj with hlt | rfl
        · exact h1 j hlt
        · exact not_lt.mp h
      · rcases h3 with ⟨hlt, he⟩ | he
        · exact Or.inl ⟨Nat.lt_succ_of_lt hlt, he⟩
        · exact Or.inr he

/-- The class index found by the class-score loop is one of 0..3. -/
theorem classScan_snd_lt (data : Nat → ℚ) (offset : Nat) :
    (classScan data offset).2 < CLS_NUM := by
  obtain ⟨-, -, h3⟩ := classScan_invariant data offset CLS_NUM
  rcases h3 with ⟨hlt, -⟩ | he
  · exact hlt
  · have : (classScan data offset).2 = 0 := congrArg Prod.snd he
    rw [this]
    decide

/-- For scores that are not below `-FLT_MAX`, the class-score loop returns the
first index that holds the maximum score. -/
theorem classScan_argmax (data : Nat → ℚ) (offset : Nat)
    (hfin : ∀ n, -FLT_MAX ≤ data n) :
    data (offset + 4 + (classScan data offset).2) = maxClassScore data offset ∧
      ∀ j < (classScan data offset).2, data (offset + 4 + j) < maxClassScore data offset := by
  obtain ⟨h1, h2, h3⟩ := classScan_invariant data offset CLS_NUM
  have hmax := classScan_fst_of_finite data offset hfin
  change (∀ j < CLS_NUM, data (offset + 4 + j) ≤ (classScan data offset).1) at h1
  change (∀ j < (classScan data offset).2, data (offset + 4 + j) < (classScan data offset).1)
    at h2
  change (((classScan data offset).2 < CLS_NUM ∧
    data (offset + 4 + (classScan data offset).2) = (classScan data offset).1) ∨
    classScan data offset = (-FLT_MAX, 0)) at h3
  rw [hmax] at h1 h2 h3
  refine ⟨?_, h2⟩
  rcases h3 with ⟨-, he⟩ | he
  · exact he
  · have e2 : (classScan data offset).2 = 0 := congrArg Prod.snd he
    have e1 : (classScan data offset).1 = -FLT_MAX := congrArg Prod.fst he
    rw [e2]
    rw [hmax] at e1
    have := h1 0 (by decide)
    rw [e1] at this ⊢
    exact le_antisymm this (hfin _)

/-- C20: for every slot (tensor entries being floats, none is below -FLT_MAX)
the class id computed by the decoder is the smallest index whose score equals
the maximum of the four class scores, and the confidence is that maximum; the
candidate lists record exactly these two values for every surviving slot. -/
theorem class_is_first_argmax (output : Tensor) (conf_thres : ℚ)
    (hfin : ∀ n, -FLT_MAX ≤ output.data n) :
    (∀ off, (classScan output.data off).2 < CLS_NUM ∧
        output.data (off + 4 + (classScan output.data off).2) = maxClassScore output.data off ∧
        (∀ j < (classScan output.data off).2,
          output.data (off + 4 + j) < maxClassScore output.data off) ∧
        (classScan output.data off).1 = maxClassScore output.data off) ∧
      ∀ (idx off : Nat), (candidateOffsets output conf_thres)[idx]? = some off →
        (decode output conf_thres).classIds[idx]? = some (classScan output.data off).2 ∧
        (decode output conf_thres).confidences[idx]? = some (maxClassScore output.data off) := by
  constructor
  · intro off
    exact ⟨classScan_snd_lt output.data off, (classScan_argmax output.data off hfin).1,
      (classScan_argmax output.data off hfin).2, classScan_fst_of_finite output.data off hfin⟩
  · intro idx off hoff
    rw [decode_eq]
    simp only [List.getElem?_map, hoff, Option.map_some',
      classScan_fst_of_finite output.data off hfin, and_self]

theorem class_is_first_argmax_witness :
    (∀ n, -FLT_MAX ≤ sampleTensor.data n) ∧
      classScan (fun n => ([0, 0, 0, 0, 7 / 10, 9 / 10, 9 / 10, 1 / 10] : List ℚ).getD n 0) 0 =
        (9 / 10, 1) ∧
      (candidateOffsets sampleTensor (1 / 2))[1]? = some 16 ∧
      (decode sampleTensor (1 / 2)).classIds[1]? = some 1 ∧
      (decode sampleTensor (1 / 2)).classIds[1]? = some (classScan sampleTensor.data 16).2 ∧
      (decode sampleTensor (1 / 2)).confidences[1]? =
        some (maxClassScore sampleTensor.data 16) :=
  ⟨getD_lower_bound sampleData _ (by decide!) (by decide!), by decide!, by decide!, by decide!,
    ((class_is_first_argmax sampleTensor (1 / 2)
      (getD_lower_bound sampleData _ (by decide!) (by decide!))).2 1 16 (by decide!)).1,
    ((class_is_first_argmax sampleTensor (1 / 2)
      (getD_lower_bound sampleData _ (by decide!) (by decide!))).2 1 16 (by decide!)).2⟩

/-! ## Shape of the returned detections -/

theorem class_names_getD_mem (c : Nat) (hc : c < CLS_NUM) :
    class_names.getD c "" ∈ class_names := by
  have h4 : c < 4 := hc
  interval_cases c <;> decide

theorem decode_classIds_lt (output : Tensor) (conf_thres : ℚ) :
    ∀ c ∈ (decode output conf_thres).classIds, c < CLS_NUM := by
  rw [decode_eq]
  intro c hc
  obtain ⟨off, -, rfl⟩ := List.mem_map.mp hc
  exact classScan_snd_lt output.data off

theorem decode_boxes_length (output : Tensor) (conf_thres : ℚ) :
    (decode output conf_thres).boxes.length = (candidateOffsets output conf_thres).length := by
  rw [decode_eq]
  simp

theorem slotKpts_length (output : Tensor) (off : Nat) : (slotKpts output off).length = 4 := by
  simp [slotKpts, KPT_NUM]

theorem makeBlade_label_mem (d : Detector) (output : Tensor) (conf_thres : ℚ)
    (img_size : Size) (idx : Nat) :
    (makeBlade d (decode output conf_thres) img_size idx).label ∈ class_names := by
  have hc : (decode output conf_thres).classIds.getD idx 0 < CLS_NUM := by
    rcases Nat.lt_or_ge idx (decode output conf_thres).classIds.length with h | h
    · rw [List.getD_eq_getElem _ _ h]
      exact decode_classIds_lt output conf_thres _ (List.getElem_mem _)
    · rw [List.getD_eq_default _ _ h]
      decide
  exact class_names_getD_mem _ hc

theorem makeBlade_kpt_length (d : Detector) (output : Tensor) (conf_thres : ℚ)
    (img_size : Size) (idx : Nat) (hidx : idx < (decode output conf_thres).boxes.length) :
    (makeBlade d (decode output conf_thres) img_size idx).kpt.length = 4 := by
  rw [decode_boxes_length] at hidx
  rw [makeBlade_kpt d output conf_thres img_size idx _ (List.getElem?_eq_getElem hidx),
    List.length_map, slotKpts_length]

/-- C13: for every raw tensor (whatever its feature count), every detection
returned by Detect carries exactly 4 keypoints and a label among RR, RW, BR,
BW, and every class index stored by the decoder is below 4, provided the
suppression routine returns indices into the candidate lists it is given. -/
theorem detections_well_formed (infer : Mat → Tensor) (nmsBoxes : NMSFn) (d : Detector)
    (src_img : Mat)
    (hvalid : ∀ bboxes scores st nt, bboxes.length = scores.length →
      ∀ idx ∈ nmsBoxes bboxes scores st nt, idx < bboxes.length) :
    (∀ b ∈ (Detect infer nmsBoxes d src_img).1,
        b.kpt.length = 4 ∧ b.label ∈ ["RR", "RW", "BR", "BW"]) ∧
      ∀ output conf_thres, ∀ c ∈ (decode output conf_thres).classIds, c < 4 := by
  refine ⟨?_, decode_classIds_lt⟩
  intro b hb
  rcases Bool.eq_false_or_eq_true src_img.empty with he | he
  · simp [Detect, he] at hb
  · rw [Detect_nonempty infer nmsBoxes d src_img he] at hb
    obtain ⟨idx, hidx, rfl⟩ := List.mem_map.mp hb
    exact ⟨makeBlade_kpt_length _ _ _ _ idx
        (hvalid _ _ _ _ (decode_lengths _ _) idx hidx),
      makeBlade_label_mem _ _ _ _ idx⟩

theorem detections_well_formed_witness :
    (∀ bboxes scores st nt, bboxes.length = scores.length →
        ∀ idx ∈ NMSBoxes bboxes scores st nt, idx < bboxes.length) ∧
      (Detect (fun _ => sampleTensor) NMSBoxes newDetector ⟨1920, 1080⟩).1.length = 2 ∧
      ∀ b ∈ (Detect (fun _ => sampleTensor) NMSBoxes newDetector ⟨1920, 1080⟩).1,
        b.kpt.length = 4 ∧ b.label ∈ ["RR", "RW", "BR", "BW"] :=
  ⟨fun bboxes scores st nt hlen idx hidx =>
      hlen ▸ NMSBoxes_valid bboxes scores st nt idx hidx,
    by decide!,
    (detections_well_formed (fun _ => sampleTensor) NMSBoxes newDetector ⟨1920, 1080⟩
      (fun bboxes scores st nt hlen idx hidx =>
        hlen ▸ NMSBoxes_valid bboxes scores st nt idx hidx)).1⟩

/-! ## Unread keypoints -/

/-- A keypoint whose x or y index is not below the feature count is recorded
as absent, whatever the tensor holds. -/
theorem decodeKpt_unread (data : Nat → ℚ) (num_features offset k : Nat)
    (hF : ¬ 8 + k * 2 + 1 < num_features) :
    decodeKpt data num_features offset k = sentinel := by
  have hidx : ¬ (8 + k * 2 < num_features ∧ 8 + k * 2 + 1 < num_features) := fun h => hF h.2
  simp only [decodeKpt, if_neg hidx, sentinel]

/-! ## Result renderer -/

/-- The drawing loop appends the calls of every detection that is not skipped. -/
theorem foldl_draw (l : List Blade) (ops : List DrawOp) :
    l.foldl (fun ops b => if b.label = "RW" ∨ b.label = "BW" then ops else ops ++ drawOne b)
        ops =
      ops ++ (l.filter fun b => !decide (b.label = "RW" ∨ b.label = "BW")).flatMap drawOne := by
  induction l generalizing ops with
  | nil => simp
  | cons b rest ih =>
    rw [List.foldl_cons, ih]
    by_cases h : b.label = "RW" ∨ b.label = "BW"
    · have hp : ¬ (!decide (b.label = "RW" ∨ b.label = "BW")) = true := by
        rw [decide_eq_true h]
        decide
      rw [if_pos h, List.filter_cons_of_neg
        (p := fun b : Blade => !decide (b.label = "RW" ∨ b.label = "BW")) hp]
    · have hp : (!decide (b.label = "RW" ∨ b.label = "BW")) = true := by
        rw [decide_eq_false h]
        rfl
      rw [if_neg h, List.filter_cons_of_pos
        (p := fun b : Blade => !decide (b.label = "RW" ∨ b.label = "BW")) hp,
        List.flatMap_cons, List.append_assoc]

theorem draw_blade_eq (d : Detector) :
    draw_blade d =
      (d.blade_array_.filter fun b => !decide (b.label = "RW" ∨ b.label = "BW")).flatMap
        drawOne := by
  rw [draw_blade, foldl_draw, List.nil_append]

theorem drawOne_mem (d : Detector) (b : Blade) (hb : b ∈ d.blade_array_)
    (hl : ¬ (b.label = "RW" ∨ b.label = "BW")) (op : DrawOp) (hop : op ∈ drawOne b) :
    op ∈ draw_blade d := by
  rw [draw_blade_eq, List.mem_flatMap]
  refine ⟨b, List.mem_filter.mpr ⟨hb, ?_⟩, hop⟩
  rw [decide_eq_false hl]
  rfl

/-- C23: the drawing calls of draw_blade are exactly the calls of the stored
detections whose label is neither RW nor BW, in order, so no call (rectangle,
label, keypoint marker or quadrilateral) is issued for a detection labelled RW
or BW; for every stored detection labelled RR or BR the rectangle and the
label text are issued. -/
theorem draw_blade_skips_wrong_classes (d : Detector) :
    draw_blade d =
        (d.blade_array_.filter fun b => !decide (b.label = "RW" ∨ b.label = "BW")).flatMap
          drawOne ∧
      ((∀ b ∈ d.blade_array_, b.label = "RW" ∨ b.label = "BW") → draw_blade d = []) ∧
      (∀ b ∈ d.blade_array_, b.label = "RR" ∨ b.label = "BR" →
        DrawOp.rectangle b.rect ∈ draw_blade d ∧
        DrawOp.putText (labelText b) b.rect.x (b.rect.y - 10) ∈ draw_blade d) ∧
      draw_blade (Detect (fun _ => sampleTensor) NMSBoxes newDetector ⟨1920, 1080⟩).2 =
        [DrawOp.rectangle ⟨0, 0, 300, 30⟩, DrawOp.putText "RR: 90%" 0 (-10),
          DrawOp.circle 30 0 0, DrawOp.putText "kpt0" 37 (-7),
          DrawOp.circle 0 1080 2, DrawOp.putText "kpt2" 7 1073] := by
  refine ⟨draw_blade_eq d, ?_, ?_, by decide!⟩
  · intro h
    rw [draw_blade_eq]
    have : (d.blade_array_.filter fun b => !decide (b.label = "RW" ∨ b.label = "BW")) = [] := by
      apply List.filter_eq_nil_iff.mpr
      intro b hb
      rw [decide_eq_true (h b hb)]
      decide
    rw [this]
    rfl
  · intro b hb hl
    have hn : ¬ (b.label = "RW" ∨ b.label = "BW") := by
      rcases hl with h | h <;> rw [h] <;> decide
    exact ⟨drawOne_mem d b hb hn _ (by simp [drawOne]),
      drawOne_mem d b hb hn _ (by simp [drawOne])⟩

/-! ## Tensor reads of the decoder -/

/-- A slot lies inside the buffer: its offset plus the feature count does not
exceed the number of elements. -/
theorem slotOffsets_add_le (output : Tensor) (off : Nat) (h : off ∈ slotOffsets output) :
    off + output.shape2 ≤ output.shape0 * output.shape1 * output.shape2 := by
  simp only [slotOffsets, List.mem_flatMap, List.mem_map, List.mem_range] at h
  obtain ⟨i, hi, j, hj, rfl⟩ := h
  have h1 : i * output.shape1 + j + 1 ≤ output.shape0 * output.shape1 := by
    have : (i + 1) * output.shape1 ≤ output.shape0 * output.shape1 :=
      Nat.mul_le_mul_right _ hi
    rw [Nat.add_mul, Nat.one_mul] at this
    omega
  have h2 := Nat.mul_le_mul_right output.shape2 h1
  have e : (i * output.shape1 + j + 1) * output.shape2 =
      i * output.shape1 * output.shape2 + j * output.shape2 + output.shape2 := by ring
  rw [e] at h2
  exact h2

/-- Every index read in a slot of at least 8 features lies inside the slot. -/
theorem slotReads_lt (num_features off n : Nat) (hF : 8 ≤ num_features)
    (h : n ∈ slotReads num_features off) : off ≤ n ∧ n < off + num_features := by
  simp only [slotReads, CLS_NUM, KPT_NUM, List.mem_append, List.mem_cons, List.mem_singleton,
    List.mem_map, List.mem_range, List.mem_flatMap, List.not_mem_nil, or_false] at h
  rcases h with ((h | h | h | h) | ⟨k, hk, rfl⟩) | ⟨k, -, hk⟩
  · omega
  · omega
  · omega
  · omega
  · omega
  · split at hk
    · rename_i hg
      simp only [List.mem_cons, List.mem_singleton, List.not_mem_nil, or_false] at hk
      rcases hk with rfl | rfl <;> omega
    · simp at hk

theorem classScan_congr (data data' : Nat → ℚ) (off : Nat)
    (h : ∀ k < CLS_NUM, data' (off + 4 + k) = data (off + 4 + k)) :
    classScan data' off = classScan data off := by
  unfold classScan
  apply List.foldl_ext
  intro acc k hk
  rw [h k (List.mem_range.mp hk)]

theorem decodeKpt_congr (data data' : Nat → ℚ) (num_features off k : Nat)
    (h : 8 + k * 2 < num_features ∧ 8 + k * 2 + 1 < num_features →
      data' (off + (8 + k * 2)) = data (off + (8 + k * 2)) ∧
      data' (off + (8 + k * 2 + 1)) = data (off + (8 + k * 2 + 1))) :
    decodeKpt data' num_features off k = decodeKpt data num_features off k := by
  unfold decodeKpt
  by_cases hg : 8 + k * 2 < num_features ∧ 8 + k * 2 + 1 < num_features
  · simp only [if_pos hg, (h hg).1, (h hg).2]
  · simp only [if_neg hg]

/-- What is decoded from a slot depends only on the indices listed in
`slotReads`. -/
theorem slot_congr (output : Tensor) (data' : Nat → ℚ) (off : Nat)
    (h : ∀ n ∈ slotReads output.shape2 off, data' n = output.data n) :
    classScan data' off = classScan output.data off ∧
      slotBox data' off = slotBox output.data off ∧
      slotKpts { output with data := data' } off = slotKpts output off := by
  refine ⟨?_, ?_, ?_⟩
  · apply classScan_congr
    intro k hk
    apply h
    simp only [slotReads, List.mem_append, List.mem_map, List.mem_range]
    exact Or.inl (Or.inr ⟨k, hk, rfl⟩)
  · have h0 := h (off + 0) (by simp [slotReads])
    have h1 := h (off + 1) (by simp [slotReads])
    have h2 := h (off + 2) (by simp [slotReads])
    have h3 := h (off + 3) (by simp [slotReads])
    simp only [slotBox, h0, h1, h2, h3]
  · unfold slotKpts
    apply List.map_congr_left
    intro k hk
    apply decodeKpt_congr
    intro hg
    have hx : off + (8 + k * 2) ∈ slotReads output.shape2 off := by
      simp only [slotReads, List.mem_append, List.mem_flatMap]
      exact Or.inr ⟨k, hk, by rw [if_pos hg]; simp⟩
    have hy : off + (8 + k * 2 + 1) ∈ slotReads output.shape2 off := by
      simp only [slotReads, List.mem_append, List.mem_flatMap]
      exact Or.inr ⟨k, hk, by rw [if_pos hg]; simp⟩
    exact ⟨h _ hx, h _ hy⟩

/-- The decoder output depends only on the indices listed in `decodeReads`. -/
theorem decode_congr (output : Tensor) (conf_thres : ℚ) (data' : Nat → ℚ)
    (h : ∀ n ∈ decodeReads output, data' n = output.data n) :
    decode { output with data := data' } conf_thres = decode output conf_thres := by
  have hs : ∀ off ∈ slotOffsets output,
      classScan data' off = classScan output.data off ∧
        slotBox data' off = slotBox output.data off ∧
        slotKpts { output with data := data' } off = slotKpts output off := by
    intro off hoff
    apply slot_congr
    intro n hn
    exact h n (List.mem_flatMap.mpr ⟨off, hoff, hn⟩)
  have hc : candidateOffsets { output with data := data' } conf_thres =
      candidateOffsets output conf_thres := by
    unfold candidateOffsets
    have e : slotOffsets { output with data := data' } = slotOffsets output := rfl
    rw [e]
    apply List.filter_congr
    intro off hoff
    show (!decide ((classScan data' off).1 < conf_thres)) = _
    rw [(hs off hoff).1]
  have hsub : ∀ off ∈ candidateOffsets output conf_thres, off ∈ slotOffsets output :=
    fun off hoff => (List.mem_filter.mp hoff).1
  rw [decode_eq, decode_eq, hc]
  congr 1
  · apply List.map_congr_left
    intro off hoff
    show (classScan data' off).2 = _
    rw [(hs off (hsub off hoff)).1]
  · apply List.map_congr_left
    intro off hoff
    show (classScan data' off).1 = _
    rw [(hs off (hsub off hoff)).1]
  · apply List.map_congr_left
    intro off hoff
    exact (hs off (hsub off hoff)).2.1
  · apply List.map_congr_left
    intro off hoff
    exact (hs off (hsub off hoff)).2.2

/-- C24: for a raw tensor of shape [bs, N, F] with F at least 8, every index
the decoder reads (box fields, the four class scores, keypoint coordinates) is
below bs * N * F, and the decoder output is determined by these entries alone;
a keypoint whose x or y index (8 + 2k, 9 + 2k) is not below F is recorded as
the absent marker whatever the buffer holds, i.e. without being read. -/
theorem decoder_reads_in_bounds (output : Tensor) (conf_thres : ℚ)
    (hF : 8 ≤ output.shape2) :
    (∀ n ∈ decodeReads output, n < output.shape0 * output.shape1 * output.shape2) ∧
      (∀ data' : Nat → ℚ,
        (∀ n < output.shape0 * output.shape1 * output.shape2, data' n = output.data n) →
        decode { output with data := data' } conf_thres = decode output conf_thres) ∧
      (∀ (data : Nat → ℚ) (off k : Nat),
        ¬ (8 + k * 2 < output.shape2 ∧ 8 + k * 2 + 1 < output.shape2) →
        decodeKpt data output.shape2 off k = sentinel) := by
  have hb : ∀ n ∈ decodeReads output,
      n < output.shape0 * output.shape1 * output.shape2 := by
    intro n hn
    obtain ⟨off, hoff, hn'⟩ := List.mem_flatMap.mp hn
    have h1 := (slotReads_lt output.shape2 off n hF hn').2
    have h2 := slotOffsets_add_le output off hoff
    omega
  refine ⟨hb, ?_, ?_⟩
  · intro data' hagree
    exact decode_congr output conf_thres data' (fun n hn => hagree n (hb n hn))
  · intro data off k hg
    exact decodeKpt_unread data output.shape2 off k (fun h => hg ⟨by omega, h⟩)

theorem decoder_reads_in_bounds_witness :
    8 ≤ sampleTensor.shape2 ∧
      sampleTensor.shape0 * sampleTensor.shape1 * sampleTensor.shape2 = 48 ∧
      decodeReads sampleTensor = List.range 48 ∧
      ∀ n ∈ decodeReads sampleTensor,
        n < sampleTensor.shape0 * sampleTensor.shape1 * sampleTensor.shape2 :=
  ⟨by decide, by decide, by decide,
    (decoder_reads_in_bounds sampleTensor (1 / 2) (by decide)).1⟩

/-! ## Zero-area boxes and dropped candidates -/

/-- A box of zero area has IoU 0 with every box. -/
theorem IoU_zero_area (a b : Rect) (ha : a.width * a.height = 0) : IoU a b = 0 := by
  unfold IoU
  apply if_pos
  rcases Int.mul_eq_zero.mp ha with hw | hh
  · left
    rw [hw]
    have h1 : min (a.x + 0) (b.x + b.width) ≤ a.x := by
      rw [add_zero]
      exact min_le_left _ _
    have h2 : a.x ≤ max a.x b.x := le_max_left _ _
    omega
  · right
    rw [hh]
    have h1 : min (a.y + 0) (b.y + b.height) ≤ a.y := by
      rw [add_zero]
      exact min_le_left _ _
    have h2 : a.y ≤ max a.y b.y := le_max_left _ _
    omega

/-- A candidate that no candidate of the list overlaps beyond the threshold
survives the greedy loop, given one round per candidate. -/
theorem greedyLoop_keeps (bboxes : List Rect) (thr : ℚ) (j : Nat) (fuel : Nat) (l : List Nat)
    (hj : j ∈ l)
    (hc : ∀ i, ¬ thr < IoU (bboxes.getD i ⟨0, 0, 0, 0⟩) (bboxes.getD j ⟨0, 0, 0, 0⟩))
    (hf : l.length ≤ fuel) : j ∈ greedyLoop bboxes thr fuel l := by
  induction fuel generalizing l with
  | zero =>
    have : l = [] := List.length_eq_zero.mp (Nat.le_zero.mp hf)
    subst this
    exact absurd hj (List.not_mem_nil j)
  | succ n ih =>
    cases l with
    | nil => exact absurd hj (List.not_mem_nil j)
    | cons i rest =>
      rw [greedyLoop]
      rcases List.mem_cons.mp hj with rfl | hj'
      · exact List.mem_cons_self _ _
      · apply List.mem_cons_of_mem
        apply ih
        · refine List.mem_filter.mpr ⟨hj', ?_⟩
          rw [decide_eq_false (hc i)]
          rfl
        · exact le_trans (List.length_filter_le _ _) (by simpa using hf)

/-- A candidate of the list that the greedy loop drops exceeds the threshold
with a kept candidate that stands before it in the list. -/
theorem greedyLoop_dropped {R : Nat → Nat → Prop} (bboxes : List Rect) (thr : ℚ) (j : Nat)
    (fuel : Nat) (l : List Nat) (hR : l.Pairwise R) (hj : j ∈ l) (hf : l.length ≤ fuel)
    (hdrop : j ∉ greedyLoop bboxes thr fuel l) :
    ∃ i ∈ greedyLoop bboxes thr fuel l,
      thr < IoU (bboxes.getD i ⟨0, 0, 0, 0⟩) (bboxes.getD j ⟨0, 0, 0, 0⟩) ∧ R i j := by
  induction fuel generalizing l with
  | zero =>
    have : l = [] := List.length_eq_zero.mp (Nat.le_zero.mp hf)
    subst this
    exact absurd hj (List.not_mem_nil j)
  | succ n ih =>
    cases l with
    | nil => exact absurd hj (List.not_mem_nil j)
    | cons i rest =>
      rw [greedyLoop] at hdrop ⊢
      obtain ⟨hi, hrest⟩ := List.pairwise_cons.mp hR
      have hji : j ≠ i := fun e => hdrop (e ▸ List.mem_cons_self _ _)
      have hj' : j ∈ rest := by
        rcases List.mem_cons.mp hj with e | h
        · exact absurd e hji
        · exact h
      by_cases hov : thr < IoU (bboxes.getD i ⟨0, 0, 0, 0⟩) (bboxes.getD j ⟨0, 0, 0, 0⟩)
      · exact ⟨i, List.mem_cons_self _ _, hov, hi j hj'⟩
      · have hjf : j ∈ rest.filter fun k =>
            !decide (thr < IoU (bboxes.getD i ⟨0, 0, 0, 0⟩) (bboxes.getD k ⟨0, 0, 0, 0⟩)) := by
          refine List.mem_filter.mpr ⟨hj', ?_⟩
          rw [decide_eq_false hov]
          rfl
        obtain ⟨i', hi', hov', hr'⟩ := ih _ (hrest.filter _) hjf
          (le_trans (List.length_filter_le _ _) (by simpa using hf))
          (fun h => hdrop (List.mem_cons_of_mem _ h))
        exact ⟨i', List.mem_cons_of_mem _ hi', hov', hr'⟩

theorem SelectsBefore.score_le {scores : List ℚ} {a b : Nat} (h : SelectsBefore scores a b) :
    scores.getD b 0 ≤ scores.getD a 0 := by
  rcases h with h | h
  · exact h.le
  · exact h.1.ge

/-- Every candidate dropped by the suppression step exceeds the threshold with
a kept candidate of greater or equal confidence. -/
theorem NMSBoxes_dropped (bboxes : List Rect) (scores : List ℚ) (st nt : ℚ) (j : Nat)
    (hj : j < scores.length) (hdrop : j ∉ NMSBoxes bboxes scores st nt) :
    ∃ i ∈ NMSBoxes bboxes scores st nt,
      nt < IoU (bboxes.getD i ⟨0, 0, 0, 0⟩) (bboxes.getD j ⟨0, 0, 0, 0⟩) ∧
        scores.getD j 0 ≤ scores.getD i 0 := by
  obtain ⟨i, hi, hov, hr⟩ := greedyLoop_dropped bboxes nt j scores.length
    (sortByConfidence scores) (sortByConfidence_selects scores)
    ((mem_sortByConfidence scores j).mpr hj) (length_sortByConfidence scores).le hdrop
  exact ⟨i, hi, hov, hr.score_le⟩

/-- For a non-empty candidate list the suppression step keeps, in first
position, a candidate of maximal confidence. -/
theorem NMSBoxes_head (bboxes : List Rect) (scores : List ℚ) (st nt : ℚ)
    (hne : scores ≠ []) :
    ∃ h t, NMSBoxes bboxes scores st nt = h :: t ∧ h < scores.length ∧
      ∀ j < scores.length, scores.getD j 0 ≤ scores.getD h 0 := by
  have hlen : 0 < scores.length := List.length_pos.mpr hne
  have hsl := length_sortByConfidence scores
  have hsel := sortByConfidence_selects scores
  have hmem := mem_sortByConfidence scores
  unfold NMSBoxes
  generalize sortByConfidence scores = sorted at hsl hsel hmem
  cases sorted with
  | nil => simp at hsl; omega
  | cons h t =>
    obtain ⟨n, hn⟩ : ∃ n, scores.length = n + 1 := ⟨scores.length - 1, by omega⟩
    rw [hn, greedyLoop]
    refine ⟨h, _, rfl, ?_, ?_⟩
    · rw [← hn]
      exact (hmem h).mp (List.mem_cons_self _ _)
    · intro j hj
      rw [← hn] at hj
      rcases List.mem_cons.mp ((hmem j).mpr hj) with rfl | hjt
      · exact le_refl _
      · exact ((List.pairwise_cons.mp hsel).1 j hjt).score_le

theorem NMSBoxes_nodup (bboxes : List Rect) (scores : List ℚ) (st nt : ℚ) :
    (NMSBoxes bboxes scores st nt).Nodup := by
  have hsorted : (sortByConfidence scores).Nodup :=
    (List.perm_insertionSort _ _).nodup_iff.mpr (List.nodup_range _)
  exact hsorted.sublist (NMSBoxes_sublist bboxes scores st nt)

/-- C22: in the suppression step a canvas box of zero area has IoU 0 with
every box, in either order (another zero-area box included), so for an NMS
threshold of at least 0 the filter test never fires on it: it removes no other
candidate and every zero-area candidate is kept. -/
theorem zero_area_candidates_are_kept (bboxes : List Rect) (scores : List ℚ) (st nt : ℚ)
    (hnt : 0 ≤ nt) :
    (∀ a b : Rect, a.width * a.height = 0 → IoU a b = 0 ∧ IoU b a = 0) ∧
      (∀ j : Nat,
        (bboxes.getD j ⟨0, 0, 0, 0⟩).width * (bboxes.getD j ⟨0, 0, 0, 0⟩).height = 0 →
        ∀ i : Nat,
          ¬ nt < IoU (bboxes.getD j ⟨0, 0, 0, 0⟩) (bboxes.getD i ⟨0, 0, 0, 0⟩) ∧
          ¬ nt < IoU (bboxes.getD i ⟨0, 0, 0, 0⟩) (bboxes.getD j ⟨0, 0, 0, 0⟩)) ∧
      ∀ j < scores.length,
        (bboxes.getD j ⟨0, 0, 0, 0⟩).width * (bboxes.getD j ⟨0, 0, 0, 0⟩).height = 0 →
        j ∈ NMSBoxes bboxes scores st nt := by
  have hz : ∀ a b : Rect, a.width * a.height = 0 → IoU a b = 0 ∧ IoU b a = 0 := by
    intro a b ha
    exact ⟨IoU_zero_area a b ha, by rw [IoU_comm]; exact IoU_zero_area a b ha⟩
  have hno : ∀ j : Nat,
      (bboxes.getD j ⟨0, 0, 0, 0⟩).width * (bboxes.getD j ⟨0, 0, 0, 0⟩).height = 0 →
      ∀ i : Nat,
        ¬ nt < IoU (bboxes.getD j ⟨0, 0, 0, 0⟩) (bboxes.getD i ⟨0, 0, 0, 0⟩) ∧
        ¬ nt < IoU (bboxes.getD i ⟨0, 0, 0, 0⟩) (bboxes.getD j ⟨0, 0, 0, 0⟩) := by
    intro j hj i
    rw [(hz _ (bboxes.getD i ⟨0, 0, 0, 0⟩) hj).1, (hz _ (bboxes.getD i ⟨0, 0, 0, 0⟩) hj).2]
    exact ⟨not_lt.mpr hnt, not_lt.mpr hnt⟩
  refine ⟨hz, hno, ?_⟩
  intro j hj hzero
  exact greedyLoop_keeps bboxes nt j scores.length _ ((mem_sortByConfidence scores j).mpr hj)
    (fun i => (hno j hzero i).2) (length_sortByConfidence scores).le

theorem zero_area_candidates_are_kept_witness :
    (0 : ℚ) ≤ 0 ∧
      IoU ⟨10, 10, 0, 5⟩ ⟨10, 10, 0, 0⟩ = 0 ∧
      NMSBoxes [⟨10, 10, 0, 5⟩, ⟨10, 10, 0, 0⟩, ⟨0, 0, 100, 100⟩] [9 / 10, 4 / 5, 7 / 10]
        (1 / 2) 0 = [0, 1, 2] ∧
      ∀ j < ([9 / 10, 4 / 5, 7 / 10] : List ℚ).length,
        (([⟨10, 10, 0, 5⟩, ⟨10, 10, 0, 0⟩, ⟨0, 0, 100, 100⟩] : List Rect).getD j
            ⟨0, 0, 0, 0⟩).width *
          (([⟨10, 10, 0, 5⟩, ⟨10, 10, 0, 0⟩, ⟨0, 0, 100, 100⟩] : List Rect).getD j
            ⟨0, 0, 0, 0⟩).height = 0 →
        j ∈ NMSBoxes [⟨10, 10, 0, 5⟩, ⟨10, 10, 0, 0⟩, ⟨0, 0, 100, 100⟩]
          [9 / 10, 4 / 5, 7 / 10] (1 / 2) 0 :=
  ⟨le_refl 0, by decide!, by decide!,
    (zero_area_candidates_are_kept [⟨10, 10, 0, 5⟩, ⟨10, 10, 0, 0⟩, ⟨0, 0, 100, 100⟩]
      [9 / 10, 4 / 5, 7 / 10] (1 / 2) 0 (le_refl 0)).2.2⟩

theorem decode_all_lengths (output : Tensor) (conf_thres : ℚ) :
    (decode output conf_thres).boxes.length = (decode output conf_thres).confidences.length ∧
      (decode output conf_thres).classIds.length =
        (decode output conf_thres).confidences.length ∧
      (decode output conf_thres).kpts_list.length =
        (decode output conf_thres).confidences.length := by
  rw [decode_eq]
  simp

/-- C25: in a detection call on a non-empty image the returned detections are
built, in order, from the picked candidates; every decoded candidate that is
not picked has IoU above the NMS threshold with some picked candidate of
greater or equal confidence; when the candidate list is non-empty the first
picked candidate has maximal confidence and yields the first returned
detection; the picked indices are distinct and valid for all four decoded
lists. -/
theorem suppression_drops_only_with_cause (infer : Mat → Tensor) (d : Detector)
    (src_img : Mat) (h : src_img.empty = false) :
    (∃ d1 : Detector,
        (Detect infer NMSBoxes d src_img).1 =
            (detectPicked infer d src_img).map
              (makeBlade d1 (detectDecoded infer d src_img) src_img.size) ∧
          ((detectDecoded infer d src_img).confidences ≠ [] →
            ∃ first rest, detectPicked infer d src_img = first :: rest ∧
              (∀ j < (detectDecoded infer d src_img).confidences.length,
                (detectDecoded infer d src_img).confidences.getD j 0 ≤
                  (detectDecoded infer d src_img).confidences.getD first 0) ∧
              (Detect infer NMSBoxes d src_img).1.head? =
                some (makeBlade d1 (detectDecoded infer d src_img) src_img.size first))) ∧
      (∀ j < (detectDecoded infer d src_img).confidences.length,
        j ∉ detectPicked infer d src_img →
        ∃ i ∈ detectPicked infer d src_img,
          d.nms_threshold_ <
              IoU ((detectDecoded infer d src_img).boxes.getD i ⟨0, 0, 0, 0⟩)
                ((detectDecoded infer d src_img).boxes.getD j ⟨0, 0, 0, 0⟩) ∧
            (detectDecoded infer d src_img).confidences.getD j 0 ≤
              (detectDecoded infer d src_img).confidences.getD i 0) ∧
      (detectPicked infer d src_img).Nodup ∧
      ∀ idx ∈ detectPicked infer d src_img,
        idx < (detectDecoded infer d src_img).classIds.length ∧
          idx < (detectDecoded infer d src_img).confidences.length ∧
          idx < (detectDecoded infer d src_img).boxes.length ∧
          idx < (detectDecoded infer d src_img).kpts_list.length := by
  obtain ⟨d1, hd⟩ := Detect_picked infer d src_img h
  have hd' : (Detect infer NMSBoxes d src_img).1 =
      (detectPicked infer d src_img).map
        (makeBlade d1 (detectDecoded infer d src_img) src_img.size) := hd
  refine ⟨⟨d1, hd', ?_⟩, ?_, NMSBoxes_nodup _ _ _ _, ?_⟩
  · intro hne
    obtain ⟨first, rest, hp, -, hmax⟩ := NMSBoxes_head (detectDecoded infer d src_img).boxes
      (detectDecoded infer d src_img).confidences d.conf_threshold_ d.nms_threshold_ hne
    have hp' : detectPicked infer d src_img = first :: rest := hp
    refine ⟨first, rest, hp', hmax, ?_⟩
    rw [hd', hp']
    rfl
  · intro j hj hdrop
    exact NMSBoxes_dropped _ _ _ _ j hj hdrop
  · intro idx hidx
    have hv : idx < (detectDecoded infer d src_img).confidences.length :=
      NMSBoxes_valid _ _ _ _ idx hidx
    obtain ⟨e1, e2, e3⟩ := decode_all_lengths
      (infer (letterbox d src_img buff_image_size buff_image_size).1) d.conf_threshold_
    have e1' : (detectDecoded infer d src_img).boxes.length =
        (detectDecoded infer d src_img).confidences.length := e1
    have e2' : (detectDecoded infer d src_img).classIds.length =
        (detectDecoded infer d src_img).confidences.length := e2
    have e3' : (detectDecoded infer d src_img).kpts_list.length =
        (detectDecoded infer d src_img).confidences.length := e3
    omega

theorem suppression_drops_only_with_cause_witness :
    Mat.empty ⟨1920, 1080⟩ = false ∧
      (detectDecoded (fun _ => overlapTensor) newDetector ⟨1920, 1080⟩).confidences =
        [9 / 10, 4 / 5] ∧
      (detectDecoded (fun _ => overlapTensor) newDetector ⟨1920, 1080⟩).boxes =
        [⟨0, 0, 100, 100⟩, ⟨10, 10, 100, 100⟩] ∧
      detectPicked (fun _ => overlapTensor) newDetector ⟨1920, 1080⟩ = [0] ∧
      (detectPicked (fun _ => overlapTensor) newDetector ⟨1920, 1080⟩).Nodup ∧
      ∀ j < (detectDecoded (fun _ => overlapTensor) newDetector ⟨1920, 1080⟩).confidences.length,
        j ∉ detectPicked (fun _ => overlapTensor) newDetector ⟨1920, 1080⟩ →
        ∃ i ∈ detectPicked (fun _ => overlapTensor) newDetector ⟨1920, 1080⟩,
          newDetector.nms_threshold_ <
              IoU ((detectDecoded (fun _ => overlapTensor) newDetector ⟨1920, 1080⟩).boxes.getD i
                  ⟨0, 0, 0, 0⟩)
                ((detectDecoded (fun _ => overlapTensor) newDetector ⟨1920, 1080⟩).boxes.getD j
                  ⟨0, 0, 0, 0⟩) ∧
            (detectDecoded (fun _ => overlapTensor) newDetector
                ⟨1920, 1080⟩).confidences.getD j 0 ≤
              (detectDecoded (fun _ => overlapTensor) newDetector
                ⟨1920, 1080⟩).confidences.getD i 0 :=
  ⟨by decide, by decide!, by decide!, by decide!,
    (suppression_drops_only_with_cause (fun _ => overlapTensor) newDetector ⟨1920, 1080⟩
      (by decide)).2.2.1,
    (suppression_drops_only_with_cause (fun _ => overlapTensor) newDetector ⟨1920, 1080⟩
      (by decide)).2.1⟩

/-! ## Binary32 rounding lemmas -/

theorem roundEven_cases (x : ℚ) : roundEven x = ⌊x⌋ ∨ roundEven x = ⌊x⌋ + 1 := by
  unfold roundEven
  split_ifs <;> simp

theorem roundEven_intCast (z : Int) : roundEven (z : ℚ) = z := by
  unfold roundEven
  simp

theorem abs_roundEven_sub_le (x : ℚ) : |(roundEven x : ℚ) - x| ≤ 1 / 2 := by
  have h1 := Int.floor_le x
  have h2 := Int.lt_floor_add_one x
  unfold roundEven
  split_ifs with a b c
  · rw [abs_le]; constructor <;> linarith
  · rw [abs_le]; push_cast; constructor <;> linarith
  · rw [abs_le]; push_cast at *; constructor <;> linarith
  · rw [abs_le]; push_cast at *; constructor <;> linarith

theorem roundEven_mono {x y : ℚ} (h : x ≤ y) : roundEven x ≤ roundEven y := by
  have hf : ⌊x⌋ ≤ ⌊y⌋ := Int.floor_le_floor h
  rcases hf.lt_or_eq with hlt | heq
  · have hx : roundEven x ≤ ⌊x⌋ + 1 := by rcases roundEven_cases x with e | e <;> omega
    have hy : ⌊y⌋ ≤ roundEven y := by rcases roundEven_cases y with e | e <;> omega
    omega
  · unfold roundEven
    rw [← heq]
    split_ifs <;> first | omega | (exfalso; linarith)

theorem le_roundEven {z : Int} {x : ℚ} (h : (z : ℚ) ≤ x) : z ≤ roundEven x := by
  have := roundEven_mono h
  rwa [roundEven_intCast] at this

theorem roundEven_le {z : Int} {x : ℚ} (h : x ≤ (z : ℚ)) : roundEven x ≤ z := by
  have := roundEven_mono h
  rwa [roundEven_intCast] at this

theorem log2Nat_spec (fuel n : Nat) (hn : n ≠ 0) (hf : n < 2 ^ fuel) :
    2 ^ log2Nat fuel n ≤ n ∧ n < 2 ^ (log2Nat fuel n + 1) := by
  induction fuel generalizing n with
  | zero =>
    simp at hf
    omega
  | succ k ih =>
    unfold log2Nat
    split_ifs with h2
    · have hn2 : n / 2 ≠ 0 := by omega
      have hf2 : n / 2 < 2 ^ k := by
        rw [pow_succ] at hf
        omega
      obtain ⟨a, b⟩ := ih (n / 2) hn2 hf2
      constructor
      · rw [pow_succ]; omega
      · rw [pow_succ]; omega
    · simp
      omega

theorem log2Nat_self (n : Nat) (hn : n ≠ 0) :
    2 ^ log2Nat n n ≤ n ∧ n < 2 ^ (log2Nat n n + 1) :=
  log2Nat_spec n n hn (Nat.lt_two_pow n)

theorem ilog2_spec {x : ℚ} (hx : 0 < x) :
    (2 : ℚ) ^ ilog2 x ≤ x ∧ x < (2 : ℚ) ^ (ilog2 x + 1) := by
  have hnum : 0 < x.num := Rat.num_pos.mpr hx
  have hn0 : x.num.natAbs ≠ 0 := by omega
  have hd0 : x.den ≠ 0 := x.den_nz
  obtain ⟨a1, a2⟩ := log2Nat_self x.num.natAbs hn0
  obtain ⟨b1, b2⟩ := log2Nat_self x.den hd0
  set a := log2Nat x.num.natAbs x.num.natAbs with ha
  set b := log2Nat x.den x.den with hb
  have hxe : x = (x.num.natAbs : ℚ) / (x.den : ℚ) := by
    have h2 : (x.num.natAbs : ℚ) = (x.num : ℚ) := by
      rw [← Int.cast_natCast, Int.natAbs_of_nonneg hnum.le]
    rw [h2]
    exact (Rat.num_div_den x).symm
  have hdpos : (0 : ℚ) < (x.den : ℚ) := by exact_mod_cast Nat.pos_of_ne_zero hd0
  have a1q : (2 : ℚ) ^ a ≤ (x.num.natAbs : ℚ) := by exact_mod_cast a1
  have a2q : (x.num.natAbs : ℚ) < (2 : ℚ) ^ (a + 1) := by exact_mod_cast a2
  have b1q : (2 : ℚ) ^ b ≤ (x.den : ℚ) := by exact_mod_cast b1
  have b2q : (x.den : ℚ) < (2 : ℚ) ^ (b + 1) := by exact_mod_cast b2
  have two_pos : (0 : ℚ) < 2 := by norm_num
  have two_ne : (2 : ℚ) ≠ 0 := by norm_num
  have hk1 : (2 : ℚ) ^ ((a : Int) - (b : Int) + 1) = (2 : ℚ) ^ (a + 1) / (2 : ℚ) ^ b := by
    rw [show ((a : Int) - (b : Int) + 1) = ((a + 1 : Nat) : Int) - ((b : Nat) : Int) by push_cast; ring]
    rw [zpow_sub₀ two_ne, zpow_natCast, zpow_natCast]
  have hk0 : (2 : ℚ) ^ ((a : Int) - (b : Int) - 1) = (2 : ℚ) ^ a / (2 : ℚ) ^ (b + 1) := by
    rw [show ((a : Int) - (b : Int) - 1) = ((a : Nat) : Int) - ((b + 1 : Nat) : Int) by push_cast; ring]
    rw [zpow_sub₀ two_ne, zpow_natCast, zpow_natCast]
  have up : x < (2 : ℚ) ^ ((a : Int) - (b : Int) + 1) := by
    rw [hk1, hxe, div_lt_div_iff₀ hdpos (by positivity)]
    calc (x.num.natAbs : ℚ) * (2 : ℚ) ^ b < (2 : ℚ) ^ (a + 1) * (2 : ℚ) ^ b := by
          apply mul_lt_mul_of_pos_right a2q (by positivity)
      _ ≤ (2 : ℚ) ^ (a + 1) * (x.den : ℚ) := by
          apply mul_le_mul_of_nonneg_left b1q (by positivity)
  have lo : (2 : ℚ) ^ ((a : Int) - (b : Int) - 1) ≤ x := by
    rw [hk0, hxe, div_le_div_iff₀ (by positivity) hdpos]
    calc (2 : ℚ) ^ a * (x.den : ℚ) ≤ (2 : ℚ) ^ a * (2 : ℚ) ^ (b + 1) := by
          apply mul_le_mul_of_nonneg_left b2q.le (by positivity)
      _ ≤ (x.num.natAbs : ℚ) * (2 : ℚ) ^ (b + 1) := by
          apply mul_le_mul_of_nonneg_right a1q (by positivity)
  unfold ilog2
  simp only [← ha, ← hb]
  split_ifs with hc
  · exact ⟨hc, up⟩
  · refine ⟨lo, ?_⟩
    rw [show ((a : Int) - (b : Int) - 1 + 1) = (a : Int) - (b : Int) by ring]
    exact lt_of_not_le hc

theorem ilog2_lt_of_lt {x : ℚ} {k : Int} (hx : 0 < x) (h : x < (2 : ℚ) ^ k) : ilog2 x < k := by
  have h1 := (ilog2_spec hx).1
  have := lt_of_le_of_lt h1 h
  exact (zpow_lt_zpow_iff_right₀ (by norm_num : (1 : ℚ) < 2)).mp this

theorem le_ilog2_of_le {x : ℚ} {k : Int} (hx : 0 < x) (h : (2 : ℚ) ^ k ≤ x) : k ≤ ilog2 x := by
  have h1 := (ilog2_spec hx).2
  have := lt_of_le_of_lt h h1
  have := (zpow_lt_zpow_iff_right₀ (by norm_num : (1 : ℚ) < 2)).mp this
  omega

theorem ilog2_mono {x y : ℚ} (hx : 0 < x) (h : x ≤ y) : ilog2 x ≤ ilog2 y :=
  le_ilog2_of_le (lt_of_lt_of_le hx h) (le_trans (ilog2_spec hx).1 h)

theorem flPos_eq {x : ℚ} (hx : x ≠ 0) :
    flPos x = (roundEven (x / (2 : ℚ) ^ (max (ilog2 x) (-126) - 23)) : ℚ) *
      (2 : ℚ) ^ (max (ilog2 x) (-126) - 23) := by
  unfold flPos
  rw [if_neg hx]

theorem flPos_nonneg {x : ℚ} (hx : 0 ≤ x) : 0 ≤ flPos x := by
  by_cases h0 : x = 0
  · simp [flPos, h0]
  · rw [flPos_eq h0]
    have hq : (0 : ℚ) < (2 : ℚ) ^ (max (ilog2 x) (-126) - 23) := by positivity
    have : (0 : Int) ≤ roundEven (x / (2 : ℚ) ^ (max (ilog2 x) (-126) - 23)) :=
      le_roundEven (by simpa using div_nonneg hx hq.le)
    have h2 : (0 : ℚ) ≤ (roundEven (x / (2 : ℚ) ^ (max (ilog2 x) (-126) - 23)) : ℚ) := by
      exact_mod_cast this
    exact mul_nonneg h2 hq.le

theorem flPos_le_pow {x : ℚ} (hx : 0 < x) :
    flPos x ≤ (2 : ℚ) ^ (max (ilog2 x) (-126) + 1) := by
  rw [flPos_eq hx.ne.symm]
  set e := max (ilog2 x) (-126) with he
  have hq : (0 : ℚ) < (2 : ℚ) ^ (e - 23) := by positivity
  have two_ne : (2 : ℚ) ≠ 0 := by norm_num
  have hx1 : x < (2 : ℚ) ^ (e + 1) := by
    refine lt_of_lt_of_le (ilog2_spec hx).2 ?_
    apply zpow_le_zpow_right₀ (by norm_num)
    have := le_max_left (ilog2 x) (-126)
    omega
  have hsplit : (2 : ℚ) ^ (e + 1) = ((16777216 : Int) : ℚ) * (2 : ℚ) ^ (e - 23) := by
    rw [show e + 1 = 24 + (e - 23) by ring, zpow_add₀ two_ne]
    norm_num
  have hdiv : x / (2 : ℚ) ^ (e - 23) ≤ ((16777216 : Int) : ℚ) := by
    rw [div_le_iff₀ hq, ← hsplit]
    exact hx1.le
  have hr : roundEven (x / (2 : ℚ) ^ (e - 23)) ≤ 16777216 := roundEven_le hdiv
  have hr2 : (roundEven (x / (2 : ℚ) ^ (e - 23)) : ℚ) ≤ ((16777216 : Int) : ℚ) := by
    exact_mod_cast hr
  rw [hsplit]
  exact mul_le_mul_of_nonneg_right hr2 hq.le

theorem pow_le_flPos {x : ℚ} (hx : 0 < x) (hn : -126 ≤ ilog2 x) :
    (2 : ℚ) ^ ilog2 x ≤ flPos x := by
  rw [flPos_eq hx.ne.symm, max_eq_left hn]
  set e := ilog2 x with he
  have hq : (0 : ℚ) < (2 : ℚ) ^ (e - 23) := by positivity
  have two_ne : (2 : ℚ) ≠ 0 := by norm_num
  have hsplit : (2 : ℚ) ^ e = ((8388608 : Int) : ℚ) * (2 : ℚ) ^ (e - 23) := by
    rw [show e = 23 + (e - 23) by ring, zpow_add₀ two_ne, ← show e = 23 + (e - 23) by ring]
    norm_num
  have hdiv : ((8388608 : Int) : ℚ) ≤ x / (2 : ℚ) ^ (e - 23) := by
    rw [le_div_iff₀ hq, ← hsplit]
    exact (ilog2_spec hx).1
  have hr : 8388608 ≤ roundEven (x / (2 : ℚ) ^ (e - 23)) := le_roundEven hdiv
  have hr2 : ((8388608 : Int) : ℚ) ≤ (roundEven (x / (2 : ℚ) ^ (e - 23)) : ℚ) := by
    exact_mod_cast hr
  rw [hsplit]
  exact mul_le_mul_of_nonneg_right hr2 hq.le

theorem flPos_mono {x y : ℚ} (hx : 0 ≤ x) (h : x ≤ y) : flPos x ≤ flPos y := by
  rcases hx.lt_or_eq with hx | hx
  · have hy : 0 < y := lt_of_lt_of_le hx h
    have hm := ilog2_mono hx h
    have hle : max (ilog2 x) (-126) ≤ max (ilog2 y) (-126) := max_le_max hm le_rfl
    rcases hle.lt_or_eq with hlt | heq
    · have hn : -126 ≤ ilog2 y := by
        by_contra hc
        rw [max_eq_right (by omega : ilog2 y ≤ -126)] at hlt
        have := le_max_right (ilog2 x) (-126)
        omega
      have hey : max (ilog2 y) (-126) = ilog2 y := max_eq_left hn
      refine le_trans (flPos_le_pow hx) (le_trans ?_ (pow_le_flPos hy hn))
      apply zpow_le_zpow_right₀ (by norm_num)
      omega
    · rw [flPos_eq hx.ne.symm, flPos_eq hy.ne.symm, heq]
      have hq : (0 : ℚ) < (2 : ℚ) ^ (max (ilog2 y) (-126) - 23) := by positivity
      have hd : x / (2 : ℚ) ^ (max (ilog2 y) (-126) - 23) ≤
          y / (2 : ℚ) ^ (max (ilog2 y) (-126) - 23) := div_le_div_of_nonneg_right h hq.le
      have hr := roundEven_mono hd
      have hr2 : (roundEven (x / (2 : ℚ) ^ (max (ilog2 y) (-126) - 23)) : ℚ) ≤
          (roundEven (y / (2 : ℚ) ^ (max (ilog2 y) (-126) - 23)) : ℚ) := by exact_mod_cast hr
      exact mul_le_mul_of_nonneg_right hr2 hq.le
  · rw [← hx]
    have : flPos 0 = 0 := by simp [flPos]
    rw [this]
    exact flPos_nonneg (hx ▸ h)

theorem flPos_err {x : ℚ} (hx : (2 : ℚ) ^ (-126 : Int) ≤ x) :
    |flPos x - x| ≤ x / 16777216 := by
  have hpos : 0 < x := lt_of_lt_of_le (by positivity) hx
  have hn : -126 ≤ ilog2 x := le_ilog2_of_le hpos hx
  rw [flPos_eq hpos.ne.symm, max_eq_left hn]
  set e := ilog2 x with he
  have hq : (0 : ℚ) < (2 : ℚ) ^ (e - 23) := by positivity
  have two_ne : (2 : ℚ) ≠ 0 := by norm_num
  have hr := abs_roundEven_sub_le (x / (2 : ℚ) ^ (e - 23))
  have hfac : (roundEven (x / (2 : ℚ) ^ (e - 23)) : ℚ) * (2 : ℚ) ^ (e - 23) - x =
      ((roundEven (x / (2 : ℚ) ^ (e - 23)) : ℚ) - x / (2 : ℚ) ^ (e - 23)) * (2 : ℚ) ^ (e - 23) := by
    field_simp
  rw [hfac, abs_mul, abs_of_pos hq]
  have hsplit : (2 : ℚ) ^ e = 8388608 * (2 : ℚ) ^ (e - 23) := by
    rw [show e = 23 + (e - 23) by ring, zpow_add₀ two_ne, ← show e = 23 + (e - 23) by ring]
    norm_num
  have hlo : (2 : ℚ) ^ e ≤ x := (ilog2_spec hpos).1
  calc |(roundEven (x / (2 : ℚ) ^ (e - 23)) : ℚ) - x / (2 : ℚ) ^ (e - 23)| * (2 : ℚ) ^ (e - 23)
      ≤ 1 / 2 * (2 : ℚ) ^ (e - 23) := mul_le_mul_of_nonneg_right hr hq.le
    _ = (2 : ℚ) ^ e / 16777216 := by rw [hsplit]; ring
    _ ≤ x / 16777216 := div_le_div_of_nonneg_right hlo (by norm_num)

theorem flPos_exact (m : Nat) (j : Int) (hm : m < 16777216) (hj : -149 ≤ j) :
    flPos ((m : ℚ) * (2 : ℚ) ^ j) = (m : ℚ) * (2 : ℚ) ^ j := by
  by_cases h0 : m = 0
  · simp [flPos, h0]
  have two_ne : (2 : ℚ) ≠ 0 := by norm_num
  have hmq : (0 : ℚ) < (m : ℚ) := by exact_mod_cast Nat.pos_of_ne_zero h0
  have hpj : (0 : ℚ) < (2 : ℚ) ^ j := by positivity
  have hx : 0 < (m : ℚ) * (2 : ℚ) ^ j := mul_pos hmq hpj
  rw [flPos_eq hx.ne.symm]
  set e := max (ilog2 ((m : ℚ) * (2 : ℚ) ^ j)) (-126) with he
  have hlt : (m : ℚ) * (2 : ℚ) ^ j < (2 : ℚ) ^ (j + 24) := by
    rw [show j + 24 = 24 + j by ring, zpow_add₀ two_ne]
    apply mul_lt_mul_of_pos_right _ hpj
    norm_num
    exact hm
  have hil := ilog2_lt_of_lt hx hlt
  have hej : e - 23 ≤ j := by
    have : e ≤ j + 23 := max_le (by omega) (by omega)
    omega
  obtain ⟨n, hn⟩ := Int.eq_ofNat_of_zero_le (by omega : 0 ≤ j - (e - 23))
  have hdiv : (m : ℚ) * (2 : ℚ) ^ j / (2 : ℚ) ^ (e - 23) = ((m * 2 ^ n : Nat) : Int) := by
    rw [mul_div_assoc, ← zpow_sub₀ two_ne, hn]
    push_cast
    rw [zpow_natCast]
  rw [hdiv, roundEven_intCast]
  push_cast
  rw [mul_assoc, ← zpow_natCast, ← hn, ← zpow_add₀ two_ne]
  congr 2
  ring

theorem fl32_zero : fl32 0 = 0 := by
  simp [fl32, flPos]

theorem fl32_of_nonneg {x : ℚ} (hx : 0 ≤ x) : fl32 x = flPos x := by
  unfold fl32
  rw [if_pos hx]

theorem fl32_neg (x : ℚ) : fl32 (-x) = -fl32 x := by
  rcases lt_trichotomy x 0 with h | h | h
  · unfold fl32
    rw [if_pos (by linarith : (0 : ℚ) ≤ -x), if_neg (by linarith : ¬ (0 : ℚ) ≤ x)]
    simp
  · subst h
    simp [fl32_zero]
  · unfold fl32
    rw [if_neg (by linarith : ¬ (0 : ℚ) ≤ -x), if_pos h.le]
    simp

theorem fl32_nonneg {x : ℚ} (hx : 0 ≤ x) : 0 ≤ fl32 x := by
  rw [fl32_of_nonneg hx]
  exact flPos_nonneg hx

theorem fl32_nonpos {x : ℚ} (hx : x ≤ 0) : fl32 x ≤ 0 := by
  have := fl32_nonneg (by linarith : (0 : ℚ) ≤ -x)
  rw [fl32_neg] at this
  linarith

theorem fl32_mono {x y : ℚ} (h : x ≤ y) : fl32 x ≤ fl32 y := by
  rcases le_total 0 x with hx | hx
  · rw [fl32_of_nonneg hx, fl32_of_nonneg (le_trans hx h)]
    exact flPos_mono hx h
  · rcases le_total 0 y with hy | hy
    · exact le_trans (fl32_nonpos hx) (fl32_nonneg hy)
    · have h1 : fl32 (-y) ≤ fl32 (-x) := by
        rw [fl32_of_nonneg (by linarith : (0 : ℚ) ≤ -y), fl32_of_nonneg (by linarith : (0 : ℚ) ≤ -x)]
        exact flPos_mono (by linarith) (by linarith)
      rw [fl32_neg, fl32_neg] at h1
      linarith

theorem fl32_min (x y : ℚ) : fl32 (min x y) = min (fl32 x) (fl32 y) := by
  rcases le_total x y with h | h
  · rw [min_eq_left h, min_eq_left (fl32_mono h)]
  · rw [min_eq_right h, min_eq_right (fl32_mono h)]

theorem fl32_err {x : ℚ} (hx : (2 : ℚ) ^ (-126 : Int) ≤ x) :
    |fl32 x - x| ≤ x / 16777216 := by
  have hpos : 0 < x := lt_of_lt_of_le (by positivity) hx
  rw [fl32_of_nonneg hpos.le]
  exact flPos_err hx

theorem fl32_exact (m : Nat) (j : Int) (hm : m < 16777216) (hj : -149 ≤ j) :
    fl32 ((m : ℚ) * (2 : ℚ) ^ j) = (m : ℚ) * (2 : ℚ) ^ j := by
  rw [fl32_of_nonneg (by positivity)]
  exact flPos_exact m j hm hj

theorem fl32_natCast {n : Nat} (hn : n ≤ 16777216) : fl32 (n : ℚ) = n := by
  rcases hn.lt_or_eq with h | h
  · have := fl32_exact n 0 h (by norm_num)
    simpa using this
  · subst h
    have := fl32_exact 8388608 1 (by norm_num) (by norm_num)
    norm_num at this ⊢
    exact this

theorem fl32_intCast {z : Int} (h1 : -16777216 ≤ z) (h2 : z ≤ 16777216) : fl32 (z : ℚ) = z := by
  rcases le_total 0 z with h | h
  · obtain ⟨n, rfl⟩ := Int.eq_ofNat_of_zero_le h
    have := fl32_natCast (n := n) (by omega)
    simpa using this
  · obtain ⟨n, hn⟩ := Int.eq_ofNat_of_zero_le (by omega : 0 ≤ -z)
    have hz : z = -(n : Int) := by omega
    have := fl32_natCast (n := n) (by omega)
    rw [hz]
    push_cast
    rw [fl32_neg, this]

theorem fl32_half_natCast {n : Nat} (hn : n < 16777216) : fl32 ((n : ℚ) / 2) = (n : ℚ) / 2 := by
  have := fl32_exact n (-1) hn (by norm_num)
  have e : (n : ℚ) * (2 : ℚ) ^ (-1 : Int) = (n : ℚ) / 2 := by
    rw [zpow_neg_one]; ring
  rwa [e] at this

/-! ## Letterbox in binary32 -/

theorem fl32_640 : fl32 640 = 640 := by decide!

theorem two_pow_neg126_le : (2 : ℚ) ^ (-126 : Int) ≤ 1 / 1000000 := by decide!

theorem fl32_err_of_ge {x : ℚ} (hx : 1 / 1000000 ≤ x) : |fl32 x - x| ≤ x / 16777216 :=
  fl32_err (le_trans two_pow_neg126_le hx)

/-- Error of the scaled dimension computed in binary32: for a dimension `W` of
at most 2^24 and an exact scale `e` with `W * e ≤ 640`, the rounded product of
`W` and the rounded scale is within 1/10000 of `W * e`. -/
theorem fl32_scaled (W : Nat) (e : ℚ) (hW1 : 1 ≤ W) (he1 : 5 / 131072 ≤ e)
    (he2 : (W : ℚ) * e ≤ 640) :
    0 ≤ fl32 ((W : ℚ) * fl32 e) ∧ |fl32 ((W : ℚ) * fl32 e) - (W : ℚ) * e| ≤ 1 / 10000 := by
  have hWq : (1 : ℚ) ≤ (W : ℚ) := by exact_mod_cast hW1
  have err1 := abs_le.mp (fl32_err_of_ge (x := e) (by linarith))
  have hr0 : 0 ≤ fl32 e := fl32_nonneg (by linarith)
  have hz0 : 0 ≤ (W : ℚ) * fl32 e := mul_nonneg (by linarith) hr0
  have hzr : fl32 e ≤ (W : ℚ) * fl32 e := by nlinarith
  have hlo : (W : ℚ) * (-(e / 16777216)) ≤ (W : ℚ) * (fl32 e - e) :=
    mul_le_mul_of_nonneg_left err1.1 (by linarith)
  have hhi : (W : ℚ) * (fl32 e - e) ≤ (W : ℚ) * (e / 16777216) :=
    mul_le_mul_of_nonneg_left err1.2 (by linarith)
  have err2 := abs_le.mp (fl32_err_of_ge (x := (W : ℚ) * fl32 e) (by linarith))
  refine ⟨fl32_nonneg hz0, ?_⟩
  rw [abs_le]
  constructor <;> nlinarith

theorem cround_le_of_lt {x : ℚ} {n : Int} (h0 : 0 ≤ x) (h : x < (n : ℚ) + 1 / 2) :
    0 ≤ cround x ∧ cround x ≤ n := by
  rw [cround_of_nonneg h0]
  constructor
  · exact Int.floor_nonneg.mpr (by linarith)
  · have h1 : ⌊x + 1 / 2⌋ < n + 1 := by
      rw [Int.floor_lt]
      push_cast
      linarith
    omega

theorem floor_diff_le_one {u v : ℚ} (h : |u - v| ≤ 1 / 10000) : |⌊u⌋ - ⌊v⌋| ≤ 1 := by
  have h' := abs_le.mp h
  have u1 := Int.floor_le u
  have u2 := Int.lt_floor_add_one u
  have v1 := Int.floor_le v
  have v2 := Int.lt_floor_add_one v
  rw [abs_le]
  constructor
  · have : ((⌊v⌋ : Int) : ℚ) < ((⌊u⌋ + 2 : Int) : ℚ) := by push_cast; linarith
    have := Int.cast_lt.mp this
    omega
  · have : ((⌊u⌋ : Int) : ℚ) < ((⌊v⌋ + 2 : Int) : ℚ) := by push_cast; linarith
    have := Int.cast_lt.mp this
    omega

/-- Scale factor of letterbox in binary32 for a source of at most 2^24 pixels
per side: the rounded minimum of the two exact quotients. -/
theorem letterboxVars_f32_r (src : Mat) (hW2 : src.cols ≤ 16777216) (hH2 : src.rows ≤ 16777216) :
    (letterboxVars_f32 src buff_image_size buff_image_size).r =
      fl32 (min ((640 : ℚ) / src.rows) ((640 : ℚ) / src.cols)) := by
  simp only [letterboxVars_f32, buff_image_size, Int.cast_natCast, Int.cast_ofNat, fl32_640,
    fl32_natCast hW2, fl32_natCast hH2, fl32_min]

theorem letterbox_scale_ge (W H : Nat) (hW1 : 1 ≤ W) (hH1 : 1 ≤ H) (hW2 : W ≤ 16777216)
    (hH2 : H ≤ 16777216) : (5 : ℚ) / 131072 ≤ min ((640 : ℚ) / H) ((640 : ℚ) / W) := by
  have hWq : (0 : ℚ) < (W : ℚ) := by exact_mod_cast hW1
  have hHq : (0 : ℚ) < (H : ℚ) := by exact_mod_cast hH1
  have hW3 : (W : ℚ) ≤ 16777216 := by exact_mod_cast hW2
  have hH3 : (H : ℚ) ≤ 16777216 := by exact_mod_cast hH2
  apply le_min
  · rw [le_div_iff₀ hHq]; linarith
  · rw [le_div_iff₀ hWq]; linarith

/-- Scaled dimensions of letterbox in binary32 for a source of at most 2^24
pixels per side: the rounded products are within 1/10000 of the exact products
and the scaled dimensions lie between 0 and 640. -/
theorem letterboxVars_f32_inside (src : Mat) (hW : 1 ≤ src.cols) (hH : 1 ≤ src.rows)
    (hW2 : src.cols ≤ 16777216) (hH2 : src.rows ≤ 16777216) :
    (letterboxVars_f32 src buff_image_size buff_image_size).inside_w =
        cround (fl32 ((src.cols : ℚ) * (letterboxVars_f32 src buff_image_size buff_image_size).r)) ∧
      (letterboxVars_f32 src buff_image_size buff_image_size).inside_h =
        cround (fl32 ((src.rows : ℚ) * (letterboxVars_f32 src buff_image_size buff_image_size).r)) ∧
      0 ≤ fl32 ((src.cols : ℚ) * (letterboxVars_f32 src buff_image_size buff_image_size).r) ∧
      |fl32 ((src.cols : ℚ) * (letterboxVars_f32 src buff_image_size buff_image_size).r) -
        (src.cols : ℚ) * min ((640 : ℚ) / src.rows) ((640 : ℚ) / src.cols)| ≤ 1 / 10000 ∧
      0 ≤ fl32 ((src.rows : ℚ) * (letterboxVars_f32 src buff_image_size buff_image_size).r) ∧
      |fl32 ((src.rows : ℚ) * (letterboxVars_f32 src buff_image_size buff_image_size).r) -
        (src.rows : ℚ) * min ((640 : ℚ) / src.rows) ((640 : ℚ) / src.cols)| ≤ 1 / 10000 ∧
      0 ≤ (letterboxVars_f32 src buff_image_size buff_image_size).inside_w ∧
      (letterboxVars_f32 src buff_image_size buff_image_size).inside_w ≤ 640 ∧
      0 ≤ (letterboxVars_f32 src buff_image_size buff_image_size).inside_h ∧
      (letterboxVars_f32 src buff_image_size buff_image_size).inside_h ≤ 640 := by
  obtain ⟨-, b, -, e⟩ := letterbox_scaled_le src.cols src.rows hW hH
  have hge := letterbox_scale_ge src.cols src.rows hW hH hW2 hH2
  obtain ⟨w0, werr⟩ := fl32_scaled src.cols _ hW hge b
  obtain ⟨h0, herr⟩ := fl32_scaled src.rows _ hH hge e
  have hiw : (letterboxVars_f32 src buff_image_size buff_image_size).inside_w =
      cround (fl32 ((src.cols : ℚ) * (letterboxVars_f32 src buff_image_size buff_image_size).r)) := by
    simp only [letterboxVars_f32, buff_image_size, Int.cast_natCast, Int.cast_ofNat, fl32_640,
      fl32_natCast hW2, fl32_natCast hH2]
  have hih : (letterboxVars_f32 src buff_image_size buff_image_size).inside_h =
      cround (fl32 ((src.rows : ℚ) * (letterboxVars_f32 src buff_image_size buff_image_size).r)) := by
    simp only [letterboxVars_f32, buff_image_size, Int.cast_natCast, Int.cast_ofNat, fl32_640,
      fl32_natCast hW2, fl32_natCast hH2]
  rw [hiw, hih, letterboxVars_f32_r src hW2 hH2]
  have wb := cround_le_of_lt (n := 640) w0 (by
    have := (abs_le.mp werr).2
    push_cast
    linarith)
  have hb := cround_le_of_lt (n := 640) h0 (by
    have := (abs_le.mp herr).2
    push_cast
    linarith)
  exact ⟨rfl, rfl, w0, werr, h0, herr, wb.1, wb.2, hb.1, hb.2⟩

/-- Paddings stored by letterbox in binary32 for a source of at most 2^24
pixels per side: exactly half of the padding totals, and the divisors of the
remapper are the scaled dimensions. -/
theorem letterbox_f32_paddings (d : Detector) (src : Mat) (hW : 1 ≤ src.cols) (hH : 1 ≤ src.rows)
    (hW2 : src.cols ≤ 16777216) (hH2 : src.rows ≤ 16777216) :
    (letterbox_f32 d src buff_image_size buff_image_size).2.padd_w_ =
        ((640 : ℚ) - (letterboxVars_f32 src buff_image_size buff_image_size).inside_w) / 2 ∧
      (letterbox_f32 d src buff_image_size buff_image_size).2.padd_h_ =
        ((640 : ℚ) - (letterboxVars_f32 src buff_image_size buff_image_size).inside_h) / 2 ∧
      fl32 (640 - fl32 (2 * (letterbox_f32 d src buff_image_size buff_image_size).2.padd_w_)) =
        (letterboxVars_f32 src buff_image_size buff_image_size).inside_w ∧
      fl32 (640 - fl32 (2 * (letterbox_f32 d src buff_image_size buff_image_size).2.padd_h_)) =
        (letterboxVars_f32 src buff_image_size buff_image_size).inside_h := by
  obtain ⟨-, -, -, -, -, -, w0, w1, h0, h1⟩ := letterboxVars_f32_inside src hW hH hW2 hH2
  have key : ∀ z : Int, 0 ≤ z → z ≤ 640 →
      fl32 (fl32 (((640 : Int) - z : Int) : ℚ) / 2) = ((640 : ℚ) - z) / 2 ∧
      fl32 (640 - fl32 (2 * (((640 : ℚ) - z) / 2))) = z := by
    intro z z0 z1
    obtain ⟨n, hn⟩ := Int.eq_ofNat_of_zero_le (by omega : 0 ≤ 640 - z)
    have e1 : fl32 (((640 : Int) - z : Int) : ℚ) = ((640 : ℚ) - z) := by
      rw [fl32_intCast (by omega) (by omega)]
      push_cast
      ring
    have e2 : ((640 : ℚ) - z) = (n : ℚ) := by
      have : ((640 - z : Int) : ℚ) = ((n : Int) : ℚ) := by rw [hn]
      push_cast at this
      exact this
    constructor
    · rw [e1, e2]
      exact fl32_half_natCast (by omega)
    · have e3 : 2 * (((640 : ℚ) - z) / 2) = ((640 - z : Int) : ℚ) := by
        push_cast
        ring
      have e4 : (640 : ℚ) - ((640 - z : Int) : ℚ) = (z : ℚ) := by
        push_cast
        ring
      rw [e3, fl32_intCast (by omega) (by omega), e4, fl32_intCast (by omega) (by omega)]
  have kw := key _ w0 w1
  have kh := key _ h0 h1
  have pw : (letterbox_f32 d src buff_image_size buff_image_size).2.padd_w_ =
      fl32 (fl32 (((640 : Int) - (letterboxVars_f32 src buff_image_size buff_image_size).inside_w
        : Int) : ℚ) / 2) := rfl
  have ph : (letterbox_f32 d src buff_image_size buff_image_size).2.padd_h_ =
      fl32 (fl32 (((640 : Int) - (letterboxVars_f32 src buff_image_size buff_image_size).inside_h
        : Int) : ℚ) / 2) := rfl
  rw [pw, ph, kw.1, kh.1]
  exact ⟨rfl, rfl, kw.2, kh.2⟩

/-! ## Letterbox scale and padding in binary32 -/

/-- C9 (as stated, refuted): for the 5888 x 4301 source the exact scale is
r = 640/5888, the exact product 4301 * r is 935/2 and round(4301 * r) = 468,
with padding (640 - 468) / 2 = 86; letterbox computes r and the product in
binary32, obtains 15319039/32768, just below 935/2, scales the height to 467
and stores the padding 173/2. -/
theorem letterbox_exact_rounding_counterexample :
    min ((640 : ℚ) / 5888) ((640 : ℚ) / 4301) = 640 / 5888 ∧
      (4301 : ℚ) * min ((640 : ℚ) / 5888) ((640 : ℚ) / 4301) = 935 / 2 ∧
      round ((4301 : ℚ) * min ((640 : ℚ) / 5888) ((640 : ℚ) / 4301)) = 468 ∧
      (letterboxVars_f32 ⟨5888, 4301⟩ buff_image_size buff_image_size).r =
        14588883 / 134217728 ∧
      fl32 ((4301 : ℚ) * (letterboxVars_f32 ⟨5888, 4301⟩ buff_image_size buff_image_size).r) =
        15319039 / 32768 ∧
      (letterboxVars_f32 ⟨5888, 4301⟩ buff_image_size buff_image_size).inside_w = 640 ∧
      (letterboxVars_f32 ⟨5888, 4301⟩ buff_image_size buff_image_size).inside_h = 467 ∧
      (letterbox_f32 newDetector ⟨5888, 4301⟩ buff_image_size buff_image_size).2.padd_h_ =
        173 / 2 ∧
      (letterbox_f32 newDetector ⟨5888, 4301⟩ buff_image_size buff_image_size).2.padd_h_ ≠
        ((640 : ℚ) - (468 : Int)) / 2 := by
  refine ⟨by decide!, by decide!, ?_, by decide!, by decide!, by decide!, by decide!, ?_, ?_⟩
  · rw [round_eq]
    decide!
  · simp only [letterbox_f32]
    decide!
  · simp only [letterbox_f32]
    decide!

/-- C9 (amended): for a source of size W x H with 1 ≤ W, H ≤ 2^24 letterbox
computes in binary32 the scale r = min(640/H, 640/W) (each quotient rounded)
and the products W*r and H*r (each rounded), and scales to the C roundings of
these products; each rounded product is within 1/10000 of the exact product
W * min(640/W, 640/H), H * min(640/W, 640/H), so each scaled dimension differs
from the rounding of the exact product by at most 1 and lies between 0 and 640;
the stored paddings are exactly (640 - scaled width) / 2 and
(640 - scaled height) / 2; for 1920 x 1080 the scaled size is 640 x 360, the
vertical padding 140 and the horizontal padding 0. -/
theorem letterbox_scale_and_padding_f32 (d : Detector) (src : Mat)
    (hW : 1 ≤ src.cols) (hH : 1 ≤ src.rows)
    (hW2 : src.cols ≤ 16777216) (hH2 : src.rows ≤ 16777216) :
    (letterboxVars_f32 src buff_image_size buff_image_size).r =
        min (fl32 ((640 : ℚ) / src.cols)) (fl32 ((640 : ℚ) / src.rows)) ∧
      (letterboxVars_f32 src buff_image_size buff_image_size).inside_w =
        round (fl32 ((src.cols : ℚ) *
          (letterboxVars_f32 src buff_image_size buff_image_size).r)) ∧
      (letterboxVars_f32 src buff_image_size buff_image_size).inside_h =
        round (fl32 ((src.rows : ℚ) *
          (letterboxVars_f32 src buff_image_size buff_image_size).r)) ∧
      |fl32 ((src.cols : ℚ) * (letterboxVars_f32 src buff_image_size buff_image_size).r) -
        (src.cols : ℚ) * min ((640 : ℚ) / src.cols) ((640 : ℚ) / src.rows)| ≤ 1 / 10000 ∧
      |fl32 ((src.rows : ℚ) * (letterboxVars_f32 src buff_image_size buff_image_size).r) -
        (src.rows : ℚ) * min ((640 : ℚ) / src.cols) ((640 : ℚ) / src.rows)| ≤ 1 / 10000 ∧
      |(letterboxVars_f32 src buff_image_size buff_image_size).inside_w -
        round ((src.cols : ℚ) * min ((640 : ℚ) / src.cols) ((640 : ℚ) / src.rows))| ≤ 1 ∧
      |(letterboxVars_f32 src buff_image_size buff_image_size).inside_h -
        round ((src.rows : ℚ) * min ((640 : ℚ) / src.cols) ((640 : ℚ) / src.rows))| ≤ 1 ∧
      0 ≤ (letterboxVars_f32 src buff_image_size buff_image_size).inside_w ∧
      (letterboxVars_f32 src buff_image_size buff_image_size).inside_w ≤ 640 ∧
      0 ≤ (letterboxVars_f32 src buff_image_size buff_image_size).inside_h ∧
      (letterboxVars_f32 src buff_image_size buff_image_size).inside_h ≤ 640 ∧
      (letterbox_f32 d src buff_image_size buff_image_size).2.padd_w_ =
        ((640 : ℚ) - (letterboxVars_f32 src buff_image_size buff_image_size).inside_w) / 2 ∧
      (letterbox_f32 d src buff_image_size buff_image_size).2.padd_h_ =
        ((640 : ℚ) - (letterboxVars_f32 src buff_image_size buff_image_size).inside_h) / 2 ∧
      (letterboxVars_f32 ⟨1920, 1080⟩ buff_image_size buff_image_size).inside_w = 640 ∧
      (letterboxVars_f32 ⟨1920, 1080⟩ buff_image_size buff_image_size).inside_h = 360 ∧
      (letterbox_f32 d ⟨1920, 1080⟩ buff_image_size buff_image_size).2.padd_h_ = 140 ∧
      (letterbox_f32 d ⟨1920, 1080⟩ buff_image_size buff_image_size).2.padd_w_ = 0 := by
  obtain ⟨iw, ih, w0, werr, h0, herr, bw0, bw1, bh0, bh1⟩ :=
    letterboxVars_f32_inside src hW hH hW2 hH2
  obtain ⟨pw, ph, -, -⟩ := letterbox_f32_paddings d src hW hH hW2 hH2
  obtain ⟨a, _, c, _⟩ := letterbox_scaled_le src.cols src.rows hW hH
  rw [min_comm ((640 : ℚ) / src.cols)]
  have hr : (letterboxVars_f32 src buff_image_size buff_image_size).r =
      min (fl32 ((640 : ℚ) / src.rows)) (fl32 ((640 : ℚ) / src.cols)) := by
    rw [letterboxVars_f32_r src hW2 hH2, fl32_min]
  have dw : |(letterboxVars_f32 src buff_image_size buff_image_size).inside_w -
      round ((src.cols : ℚ) * min ((640 : ℚ) / src.rows) ((640 : ℚ) / src.cols))| ≤ 1 := by
    rw [iw, cround_of_nonneg w0, round_eq]
    apply floor_diff_le_one
    rw [add_sub_add_right_eq_sub]
    exact werr
  have dh : |(letterboxVars_f32 src buff_image_size buff_image_size).inside_h -
      round ((src.rows : ℚ) * min ((640 : ℚ) / src.rows) ((640 : ℚ) / src.cols))| ≤ 1 := by
    rw [ih, cround_of_nonneg h0, round_eq]
    apply floor_diff_le_one
    rw [add_sub_add_right_eq_sub]
    exact herr
  refine ⟨by rw [hr, min_comm], ?_, ?_, werr, herr, dw, dh, bw0, bw1, bh0, bh1, pw, ph,
    by decide!, by decide!, ?_, ?_⟩
  · rw [← cround_eq_round w0]
    exact iw
  · rw [← cround_eq_round h0]
    exact ih
  · simp only [letterbox_f32]
    decide!
  · simp only [letterbox_f32]
    decide!

theorem letterbox_scale_and_padding_f32_witness :
    1 ≤ (⟨5888, 4301⟩ : Mat).cols ∧ 1 ≤ (⟨5888, 4301⟩ : Mat).rows ∧
      (⟨5888, 4301⟩ : Mat).cols ≤ 16777216 ∧ (⟨5888, 4301⟩ : Mat).rows ≤ 16777216 ∧
      (letterboxVars_f32 ⟨5888, 4301⟩ buff_image_size buff_image_size).inside_h = 467 ∧
      (letterboxVars_f32 ⟨5888, 4301⟩ buff_image_size buff_image_size).r =
        min (fl32 ((640 : ℚ) / (⟨5888, 4301⟩ : Mat).cols))
          (fl32 ((640 : ℚ) / (⟨5888, 4301⟩ : Mat).rows)) ∧
      (letterboxVars_f32 ⟨5888, 4301⟩ buff_image_size buff_image_size).inside_w =
        round (fl32 (((⟨5888, 4301⟩ : Mat).cols : ℚ) *
          (letterboxVars_f32 ⟨5888, 4301⟩ buff_image_size buff_image_size).r)) ∧
      (letterboxVars_f32 ⟨5888, 4301⟩ buff_image_size buff_image_size).inside_h =
        round (fl32 (((⟨5888, 4301⟩ : Mat).rows : ℚ) *
          (letterboxVars_f32 ⟨5888, 4301⟩ buff_image_size buff_image_size).r)) :=
  ⟨by decide, by decide, by decide, by decide, by decide!,
    (letterbox_scale_and_padding_f32 newDetector ⟨5888, 4301⟩ (by decide) (by decide) (by decide)
      (by decide)).1,
    (letterbox_scale_and_padding_f32 newDetector ⟨5888, 4301⟩ (by decide) (by decide) (by decide)
      (by decide)).2.1,
    (letterbox_scale_and_padding_f32 newDetector ⟨5888, 4301⟩ (by decide) (by decide) (by decide)
      (by decide)).2.2.1⟩

/-! ## Decoder in binary32 -/

theorem decodeSlot_f32_eq (output : Tensor) (conf_thres : ℚ) (acc : Decoded) (i j : Nat) :
    decodeSlot_f32 output conf_thres acc i j =
      if (classScan output.data (i * output.shape1 * output.shape2 + j * output.shape2)).1
          < conf_thres then acc
      else
        { classIds := acc.classIds ++
            [(classScan output.data (i * output.shape1 * output.shape2 + j * output.shape2)).2]
          confidences := acc.confidences ++
            [(classScan output.data (i * output.shape1 * output.shape2 + j * output.shape2)).1]
          boxes := acc.boxes ++
            [slotBox_f32 output.data (i * output.shape1 * output.shape2 + j * output.shape2)]
          kpts_list := acc.kpts_list ++
            [slotKpts output (i * output.shape1 * output.shape2 + j * output.shape2)] } := by
  rfl

theorem foldl_push_f32 (output : Tensor) (conf_thres : ℚ) (l : List Nat) (acc : Decoded) :
    l.foldl (fun acc off =>
        if (classScan output.data off).1 < conf_thres then acc
        else
          { classIds := acc.classIds ++ [(classScan output.data off).2]
            confidences := acc.confidences ++ [(classScan output.data off).1]
            boxes := acc.boxes ++ [slotBox_f32 output.data off]
            kpts_list := acc.kpts_list ++ [slotKpts output off] }) acc =
      { classIds := acc.classIds ++
          (l.filter fun off => !decide ((classScan output.data off).1 < conf_thres)).map
            fun off => (classScan output.data off).2
        confidences := acc.confidences ++
          (l.filter fun off => !decide ((classScan output.data off).1 < conf_thres)).map
            fun off => (classScan output.data off).1
        boxes := acc.boxes ++
          (l.filter fun off => !decide ((classScan output.data off).1 < conf_thres)).map
            (slotBox_f32 output.data)
        kpts_list := acc.kpts_list ++
          (l.filter fun off => !decide ((classScan output.data off).1 < conf_thres)).map
            (slotKpts output) } := by
  induction l generalizing acc with
  | nil => simp
  | cons off rest ih =>
    rw [List.foldl_cons, ih]
    by_cases h : (classScan output.data off).1 < conf_thres
    · simp [h]
    · simp [h]

theorem decode_f32_as_pass (output : Tensor) (conf_thres : ℚ) :
    decode_f32 output conf_thres =
      (slotOffsets output).foldl (fun acc off =>
        if (classScan output.data off).1 < conf_thres then acc
        else
          { classIds := acc.classIds ++ [(classScan output.data off).2]
            confidences := acc.confidences ++ [(classScan output.data off).1]
            boxes := acc.boxes ++ [slotBox_f32 output.data off]
            kpts_list := acc.kpts_list ++ [slotKpts output off] }) {} := by
  unfold decode_f32 slotOffsets
  generalize ({} : Decoded) = acc
  induction List.range output.shape0 generalizing acc with
  | nil => rfl
  | cons i rest ih =>
    rw [List.foldl_cons, List.flatMap_cons, List.foldl_append, ← ih]
    congr 1
    rw [List.foldl_map]
    simp only [decodeSlot_f32_eq]

/-- Closed form of the binary32 decoder output: the candidate lists are the
images of the slots that are not skipped, in slot order. -/
theorem decode_f32_eq (output : Tensor) (conf_thres : ℚ) :
    decode_f32 output conf_thres =
      { classIds := (candidateOffsets output conf_thres).map
          fun off => (classScan output.data off).2
        confidences := (candidateOffsets output conf_thres).map
          fun off => (classScan output.data off).1
        boxes := (candidateOffsets output conf_thres).map (slotBox_f32 output.data)
        kpts_list := (candidateOffsets output conf_thres).map (slotKpts output) } := by
  rw [decode_f32_as_pass, foldl_push_f32]
  simp [candidateOffsets]

theorem toInt32_of_inRange {x : ℚ} (h : InInt32 x) : toInt32 x = toInt x := by
  unfold toInt32
  rw [if_pos h]

theorem toInt_intCast (z : Int) : toInt (z : ℚ) = z := by
  unfold toInt
  split
  · exact Int.floor_intCast z
  · rw [← Int.cast_neg, Int.floor_intCast, neg_neg]

theorem toInt_nonneg {x : ℚ} (hx : 0 ≤ x) : 0 ≤ toInt x := by
  unfold toInt
  rw [if_pos hx]
  exact Int.floor_nonneg.mpr hx

/-- C21 (as stated, refuted): the slot of `roundingTensor` has raw box centre
x 1201/4 and width 32769/65536, both binary32 values. The exact corner
cx - w/2 is 39321599/131072, just below 300, but the binary32 difference is 300
and the decoded candidate box is (300, 90, 0, 20): its x is neither the exact
corner nor its truncation 299, and its width 0 is not the raw width. -/
theorem decoded_box_rounding_counterexample :
    candidateOffsets roundingTensor (1 / 2) = [0] ∧
      fl32 (roundingTensor.data 0) = roundingTensor.data 0 ∧
      fl32 (roundingTensor.data 2) = roundingTensor.data 2 ∧
      roundingTensor.data 0 - roundingTensor.data 2 / 2 = 39321599 / 131072 ∧
      toInt (roundingTensor.data 0 - roundingTensor.data 2 / 2) = 299 ∧
      fl32 (roundingTensor.data 0 - fl32 (roundingTensor.data 2 / 2)) = 300 ∧
      (decode_f32 roundingTensor (1 / 2)).boxes = [⟨300, 90, 0, 20⟩] ∧
      ((300 : Int) : ℚ) ≠ roundingTensor.data 0 - roundingTensor.data 2 / 2 ∧
      ((0 : Int) : ℚ) ≠ roundingTensor.data 2 := by
  decide!

/-- C21 (amended): for every surviving slot with raw box (cx, cy, w, h), the
decoded candidate box is (x1, y1, w, h) with x1 = cx - w/2 and y1 = cy - h/2
computed in binary32 (the halving and the difference each rounded to nearest)
and each of the four values truncated toward zero to an integer, provided the
four values lie in the range of a 32-bit int; a value that is an integer is
stored unchanged. -/
theorem decoded_box_is_rounded_corner_form (output : Tensor) (conf_thres : ℚ)
    (idx off : Nat) (hoff : (candidateOffsets output conf_thres)[idx]? = some off)
    (hx : InInt32 (fl32 (output.data (off + 0) - fl32 (output.data (off + 2) / 2))))
    (hy : InInt32 (fl32 (output.data (off + 1) - fl32 (output.data (off + 3) / 2))))
    (hw : InInt32 (output.data (off + 2))) (hh : InInt32 (output.data (off + 3))) :
    (decode_f32 output conf_thres).boxes[idx]? =
        some ⟨toInt (fl32 (output.data (off + 0) - fl32 (output.data (off + 2) / 2))),
          toInt (fl32 (output.data (off + 1) - fl32 (output.data (off + 3) / 2))),
          toInt (output.data (off + 2)), toInt (output.data (off + 3))⟩ ∧
      ∀ z : Int, toInt (z : ℚ) = z := by
  refine ⟨?_, toInt_intCast⟩
  rw [decode_f32_eq]
  simp only [List.getElem?_map, hoff, Option.map_some', slotBox_f32, toInt32_of_inRange hx,
    toInt32_of_inRange hy, toInt32_of_inRange hw, toInt32_of_inRange hh]

theorem decoded_box_is_rounded_corner_form_witness :
    (candidateOffsets fracTensor (1 / 2))[0]? = some 0 ∧
      InInt32 (fl32 (fracTensor.data (0 + 0) - fl32 (fracTensor.data (0 + 2) / 2))) ∧
      InInt32 (fl32 (fracTensor.data (0 + 1) - fl32 (fracTensor.data (0 + 3) / 2))) ∧
      InInt32 (fracTensor.data (0 + 2)) ∧ InInt32 (fracTensor.data (0 + 3)) ∧
      (decode_f32 fracTensor (1 / 2)).boxes[0]? = some ⟨0, 0, 100, 150⟩ ∧
      (decode_f32 fracTensor (1 / 2)).boxes[0]? =
        some ⟨toInt (fl32 (fracTensor.data (0 + 0) - fl32 (fracTensor.data (0 + 2) / 2))),
          toInt (fl32 (fracTensor.data (0 + 1) - fl32 (fracTensor.data (0 + 3) / 2))),
          toInt (fracTensor.data (0 + 2)), toInt (fracTensor.data (0 + 3))⟩ :=
  ⟨by decide!, by decide!, by decide!, by decide!, by decide!, by decide!,
    (decoded_box_is_rounded_corner_form fracTensor (1 / 2) 0 0 (by decide!) (by decide!) (by decide!) (by decide!)
      (by decide!)).1⟩

/-! ## Remapped boxes in binary32 -/

theorem wrap32_of_inRange {z : Int} (h1 : -2147483648 ≤ z) (h2 : z < 2147483648) :
    wrap32 z = z := by
  unfold wrap32
  omega

theorem fl32_pow24 : fl32 16777216 = 16777216 ∧ fl32 (-16777216) = -16777216 := by decide!

/-- A value between 0 and a source dimension of at most 2^24 converts to `int`
within range. -/
theorem inInt32_of_clamped {v : ℚ} {n : Nat} (hn : n ≤ 16777216) (h0 : 0 ≤ v) (h1 : v ≤ (n : ℚ)) :
    InInt32 v := by
  have : (n : ℚ) ≤ 16777216 := by exact_mod_cast hn
  unfold InInt32
  constructor <;> linarith

/-- The rounded difference of two values between 0 and a source dimension of at
most 2^24 converts to `int` within range. -/
theorem inInt32_of_diff {a b : ℚ} {n : Nat} (hn : n ≤ 16777216) (ha0 : 0 ≤ a) (ha1 : a ≤ (n : ℚ))
    (hb0 : 0 ≤ b) (hb1 : b ≤ (n : ℚ)) : InInt32 (fl32 (a - b)) := by
  have hq : (n : ℚ) ≤ 16777216 := by exact_mod_cast hn
  have h1 := fl32_mono (by linarith : a - b ≤ 16777216)
  have h2 := fl32_mono (by linarith : (-16777216 : ℚ) ≤ a - b)
  rw [fl32_pow24.1] at h1
  rw [fl32_pow24.2] at h2
  unfold InInt32
  constructor <;> linarith

theorem fdiv32_of_ne (a : ℚ) {b : ℚ} (hb : b ≠ 0) : fdiv32 a b = F32.fin (fl32 (a / b)) := by
  unfold fdiv32
  rw [if_neg hb]

/-- With non-zero divisors the binary32 remapper followed by the clamp is the
rounded remapping formula followed by the clamp. -/
theorem clamp32_convert_coord_f32 (d : Detector) (img_size : Size) (c hi : ℚ)
    (hDw : fl32 (640 - fl32 (2 * d.padd_w_)) ≠ 0) (hDh : fl32 (640 - fl32 (2 * d.padd_h_)) ≠ 0) :
    clamp32 (convert_coord_f32 d img_size c true) hi =
        clampAxis (remapAxis_f32 d.padd_w_ img_size.width c) hi ∧
      clamp32 (convert_coord_f32 d img_size c false) hi =
        clampAxis (remapAxis_f32 d.padd_h_ img_size.height c) hi := by
  simp only [convert_coord_f32, buff_image_size, Int.cast_ofNat, fl32_640, if_true,
    Bool.false_eq_true, if_false, fdiv32_of_ne _ hDw, fdiv32_of_ne _ hDh, clamp32, remapAxis_f32,
    clampAxis, and_self]

/-- The box stored by the binary32 result loop when both divisors are non-zero,
in terms of the rounded remapping formula. -/
theorem makeBlade_f32_rect (d : Detector) (dec : Decoded) (img_size : Size) (idx : Nat)
    (hDw : fl32 (640 - fl32 (2 * d.padd_w_)) ≠ 0) (hDh : fl32 (640 - fl32 (2 * d.padd_h_)) ≠ 0) :
    (makeBlade_f32 d dec img_size idx).rect =
      ⟨toInt32 (clampAxis (remapAxis_f32 d.padd_w_ img_size.width
          (fl32 ((dec.boxes.getD idx ⟨0, 0, 0, 0⟩).x : ℚ))) (fl32 img_size.width)),
        toInt32 (clampAxis (remapAxis_f32 d.padd_h_ img_size.height
          (fl32 ((dec.boxes.getD idx ⟨0, 0, 0, 0⟩).y : ℚ))) (fl32 img_size.height)),
        toInt32 (fl32 (clampAxis (remapAxis_f32 d.padd_w_ img_size.width
            (fl32 ((wrap32 ((dec.boxes.getD idx ⟨0, 0, 0, 0⟩).x +
              (dec.boxes.getD idx ⟨0, 0, 0, 0⟩).width) : Int) : ℚ))) (fl32 img_size.width) -
          clampAxis (remapAxis_f32 d.padd_w_ img_size.width
            (fl32 ((dec.boxes.getD idx ⟨0, 0, 0, 0⟩).x : ℚ))) (fl32 img_size.width))),
        toInt32 (fl32 (clampAxis (remapAxis_f32 d.padd_h_ img_size.height
            (fl32 ((wrap32 ((dec.boxes.getD idx ⟨0, 0, 0, 0⟩).y +
              (dec.boxes.getD idx ⟨0, 0, 0, 0⟩).height) : Int) : ℚ))) (fl32 img_size.height) -
          clampAxis (remapAxis_f32 d.padd_h_ img_size.height
            (fl32 ((dec.boxes.getD idx ⟨0, 0, 0, 0⟩).y : ℚ))) (fl32 img_size.height)))⟩ := by
  simp only [makeBlade_f32, (clamp32_convert_coord_f32 d img_size _ _ hDw hDh).1,
    (clamp32_convert_coord_f32 d img_size _ _ hDw hDh).2]

/-- The box stored by the binary32 result loop for a source of at most 2^24
pixels per side and a candidate box whose corner sums fit a 32-bit int: every
conversion to `int` is in range. -/
theorem makeBlade_f32_rect_inRange (d : Detector) (dec : Decoded) (img_size : Size) (idx : Nat)
    (hDw : fl32 (640 - fl32 (2 * d.padd_w_)) ≠ 0) (hDh : fl32 (640 - fl32 (2 * d.padd_h_)) ≠ 0)
    (hW2 : img_size.width ≤ 16777216) (hH2 : img_size.height ≤ 16777216)
    (hx : -2147483648 ≤ (dec.boxes.getD idx ⟨0, 0, 0, 0⟩).x +
        (dec.boxes.getD idx ⟨0, 0, 0, 0⟩).width ∧
      (dec.boxes.getD idx ⟨0, 0, 0, 0⟩).x + (dec.boxes.getD idx ⟨0, 0, 0, 0⟩).width < 2147483648)
    (hy : -2147483648 ≤ (dec.boxes.getD idx ⟨0, 0, 0, 0⟩).y +
        (dec.boxes.getD idx ⟨0, 0, 0, 0⟩).height ∧
      (dec.boxes.getD idx ⟨0, 0, 0, 0⟩).y + (dec.boxes.getD idx ⟨0, 0, 0, 0⟩).height <
        2147483648) :
    (makeBlade_f32 d dec img_size idx).rect =
      ⟨toInt (clampAxis (remapAxis_f32 d.padd_w_ img_size.width
          (fl32 ((dec.boxes.getD idx ⟨0, 0, 0, 0⟩).x : ℚ))) img_size.width),
        toInt (clampAxis (remapAxis_f32 d.padd_h_ img_size.height
          (fl32 ((dec.boxes.getD idx ⟨0, 0, 0, 0⟩).y : ℚ))) img_size.height),
        toInt (fl32 (clampAxis (remapAxis_f32 d.padd_w_ img_size.width
            (fl32 (((dec.boxes.getD idx ⟨0, 0, 0, 0⟩).x +
              (dec.boxes.getD idx ⟨0, 0, 0, 0⟩).width : Int) : ℚ))) img_size.width -
          clampAxis (remapAxis_f32 d.padd_w_ img_size.width
            (fl32 ((dec.boxes.getD idx ⟨0, 0, 0, 0⟩).x : ℚ))) img_size.width)),
        toInt (fl32 (clampAxis (remapAxis_f32 d.padd_h_ img_size.height
            (fl32 (((dec.boxes.getD idx ⟨0, 0, 0, 0⟩).y +
              (dec.boxes.getD idx ⟨0, 0, 0, 0⟩).height : Int) : ℚ))) img_size.height -
          clampAxis (remapAxis_f32 d.padd_h_ img_size.height
            (fl32 ((dec.boxes.getD idx ⟨0, 0, 0, 0⟩).y : ℚ))) img_size.height))⟩ := by
  rw [makeBlade_f32_rect d dec img_size idx hDw hDh, fl32_natCast hW2, fl32_natCast hH2,
    wrap32_of_inRange hx.1 hx.2,
    wrap32_of_inRange hy.1 hy.2]
  have cb : ∀ (v : ℚ) (n : Nat), 0 ≤ clampAxis v n ∧ clampAxis v n ≤ (n : ℚ) := fun v n =>
    clamp_bounds v n
  rw [toInt32_of_inRange (inInt32_of_clamped hW2 (cb _ _).1 (cb _ _).2),
    toInt32_of_inRange (inInt32_of_clamped hH2 (cb _ _).1 (cb _ _).2),
    toInt32_of_inRange (inInt32_of_diff hW2 (cb _ _).1 (cb _ _).2 (cb _ _).1 (cb _ _).2),
    toInt32_of_inRange (inInt32_of_diff hH2 (cb _ _).1 (cb _ _).2 (cb _ _).1 (cb _ _).2)]

/-- Result of a binary32 detection call on a non-empty image, unfolded. -/
theorem Detect_f32_nonempty (infer : Mat → Tensor) (nmsBoxes : NMSFn) (d : Detector)
    (src_img : Mat) (h : src_img.empty = false) :
    (Detect_f32 infer nmsBoxes d src_img).1 =
      (nmsBoxes
          (decode_f32 (infer (letterbox_f32 d src_img buff_image_size buff_image_size).1)
            d.conf_threshold_).boxes
          (decode_f32 (infer (letterbox_f32 d src_img buff_image_size buff_image_size).1)
            d.conf_threshold_).confidences
          d.conf_threshold_ d.nms_threshold_).map
        (makeBlade_f32
          { (letterbox_f32 d src_img buff_image_size buff_image_size).2 with
            infer_runs := d.infer_runs + 1 }
          (decode_f32 (infer (letterbox_f32 d src_img buff_image_size buff_image_size).1)
            d.conf_threshold_)
          src_img.size) := by
  simp only [Detect_f32, h]
  rfl

/-- The rounded remapping formula is monotone in the canvas coordinate when the
divisor is not negative. -/
theorem remapAxis_f32_mono {p n a b : ℚ} (hn : 0 ≤ n) (hD : 0 ≤ fl32 (640 - fl32 (2 * p)))
    (hab : a ≤ b) : remapAxis_f32 p n a ≤ remapAxis_f32 p n b := by
  unfold remapAxis_f32
  apply fl32_mono
  apply div_le_div_of_nonneg_right _ hD
  apply fl32_mono
  apply mul_le_mul_of_nonneg_right _ (fl32_nonneg hn)
  apply fl32_mono
  linarith

/-- C11 (as stated, refuted): on a 1024 x 768 source (paddings 0 and 80) the
kept candidate with canvas box (7, 7, 35, 35) has mapped corners x = 56/5 and
x + w = 336/5, whose difference is 56, but the binary32 remapper returns the
box (11, 0, 55, 0): its x is not the mapped value and its width is not the
difference of the mapped corners. -/
theorem returned_box_rounding_counterexample :
    (letterbox_f32 newDetector ⟨1024, 768⟩ buff_image_size buff_image_size).2.padd_w_ = 0 ∧
      (letterbox_f32 newDetector ⟨1024, 768⟩ buff_image_size buff_image_size).2.padd_h_ = 80 ∧
      (decode_f32 cornerTensor (1 / 2)).boxes = [⟨7, 7, 35, 35⟩] ∧
      (Detect_f32 (fun _ => cornerTensor) NMSBoxes newDetector ⟨1024, 768⟩).1.map
        (fun b => b.rect) = [⟨11, 0, 55, 0⟩] ∧
      clampAxis (remapAxis 0 1024 7) 1024 = 56 / 5 ∧
      clampAxis (remapAxis 0 1024 (7 + 35)) 1024 - clampAxis (remapAxis 0 1024 7) 1024 = 56 ∧
      ((11 : Int) : ℚ) ≠ 56 / 5 ∧ (55 : Int) ≠ 56 := by
  decide!

/-- C11 (amended): for a source of at most 2^24 pixels per side with a
non-degenerate letterbox and a kept candidate with canvas box (x, y, w, h)
whose sums x + w and y + h fit a 32-bit int, the returned box is obtained by
mapping the corners (x, y) and (x + w, y + h) per axis with
(c - padding) * source_dim / (640 - 2 * padding), every operation rounded to
binary32, clamping each mapped coordinate to the source image, and truncating
toward zero to integers the clamped first corner and the rounded differences of
the clamped corners; the divisors are positive; for a 1920 x 1080 source
(paddings 0 and 140) the canvas box (300, 300, 40, 40) maps to
(900, 480, 120, 120). -/
theorem returned_box_is_rounded_remap (infer : Mat → Tensor) (nmsBoxes : NMSFn) (d : Detector)
    (src_img : Mat) (hW : 1 ≤ src_img.cols) (hH : 1 ≤ src_img.rows)
    (hW2 : src_img.cols ≤ 16777216) (hH2 : src_img.rows ≤ 16777216)
    (hnw : 1 ≤ (letterboxVars_f32 src_img buff_image_size buff_image_size).inside_w)
    (hnh : 1 ≤ (letterboxVars_f32 src_img buff_image_size buff_image_size).inside_h)
    (i idx : Nat) (box : Rect)
    (hpick : (nmsBoxes
      (decode_f32 (infer (letterbox_f32 d src_img buff_image_size buff_image_size).1)
        d.conf_threshold_).boxes
      (decode_f32 (infer (letterbox_f32 d src_img buff_image_size buff_image_size).1)
        d.conf_threshold_).confidences
      d.conf_threshold_ d.nms_threshold_)[i]? = some idx)
    (hbox : (decode_f32 (infer (letterbox_f32 d src_img buff_image_size buff_image_size).1)
      d.conf_threshold_).boxes[idx]? = some box)
    (hx : -2147483648 ≤ box.x + box.width ∧ box.x + box.width < 2147483648)
    (hy : -2147483648 ≤ box.y + box.height ∧ box.y + box.height < 2147483648) :
    (∃ b, (Detect_f32 infer nmsBoxes d src_img).1[i]? = some b ∧
        b.rect.x = toInt (clampAxis (remapAxis_f32
          (letterbox_f32 d src_img buff_image_size buff_image_size).2.padd_w_ src_img.cols
          (fl32 box.x)) src_img.cols) ∧
        b.rect.y = toInt (clampAxis (remapAxis_f32
          (letterbox_f32 d src_img buff_image_size buff_image_size).2.padd_h_ src_img.rows
          (fl32 box.y)) src_img.rows) ∧
        b.rect.width = toInt (fl32 (clampAxis (remapAxis_f32
            (letterbox_f32 d src_img buff_image_size buff_image_size).2.padd_w_ src_img.cols
            (fl32 ((box.x + box.width : Int) : ℚ))) src_img.cols -
          clampAxis (remapAxis_f32
            (letterbox_f32 d src_img buff_image_size buff_image_size).2.padd_w_ src_img.cols
            (fl32 box.x)) src_img.cols)) ∧
        b.rect.height = toInt (fl32 (clampAxis (remapAxis_f32
            (letterbox_f32 d src_img buff_image_size buff_image_size).2.padd_h_ src_img.rows
            (fl32 ((box.y + box.height : Int) : ℚ))) src_img.rows -
          clampAxis (remapAxis_f32
            (letterbox_f32 d src_img buff_image_size buff_image_size).2.padd_h_ src_img.rows
            (fl32 box.y)) src_img.rows))) ∧
      0 < fl32 (640 -
        fl32 (2 * (letterbox_f32 d src_img buff_image_size buff_image_size).2.padd_w_)) ∧
      0 < fl32 (640 -
        fl32 (2 * (letterbox_f32 d src_img buff_image_size buff_image_size).2.padd_h_)) ∧
      (letterbox_f32 newDetector ⟨1920, 1080⟩ buff_image_size buff_image_size).2.padd_w_ = 0 ∧
      (letterbox_f32 newDetector ⟨1920, 1080⟩ buff_image_size buff_image_size).2.padd_h_ = 140 ∧
      (decode_f32 scenarioTensor (1 / 2)).boxes = [⟨300, 300, 40, 40⟩] ∧
      (Detect_f32 (fun _ => scenarioTensor) NMSBoxes newDetector ⟨1920, 1080⟩).1.map
        (fun b => b.rect) = [⟨900, 480, 120, 120⟩] := by
  obtain ⟨-, -, dw, dh⟩ := letterbox_f32_paddings d src_img hW hH hW2 hH2
  have hDw : 0 < fl32 (640 -
      fl32 (2 * (letterbox_f32 d src_img buff_image_size buff_image_size).2.padd_w_)) := by
    rw [dw]
    exact_mod_cast hnw
  have hDh : 0 < fl32 (640 -
      fl32 (2 * (letterbox_f32 d src_img buff_image_size buff_image_size).2.padd_h_)) := by
    rw [dh]
    exact_mod_cast hnh
  refine ⟨?_, hDw, hDh, by decide!, by decide!, by decide!, by decide!⟩
  · have hget : (decode_f32 (infer (letterbox_f32 d src_img buff_image_size buff_image_size).1)
        d.conf_threshold_).boxes.getD idx ⟨0, 0, 0, 0⟩ = box := by
      rw [List.getD_eq_getElem?_getD, hbox, Option.getD_some]
    have hr := makeBlade_f32_rect_inRange
      { (letterbox_f32 d src_img buff_image_size buff_image_size).2 with
        infer_runs := d.infer_runs + 1 }
      (decode_f32 (infer (letterbox_f32 d src_img buff_image_size buff_image_size).1)
        d.conf_threshold_)
      src_img.size idx hDw.ne.symm hDh.ne.symm hW2 hH2 (by rw [hget]; exact hx)
      (by rw [hget]; exact hy)
    rw [hget] at hr
    refine ⟨makeBlade_f32
      { (letterbox_f32 d src_img buff_image_size buff_image_size).2 with
        infer_runs := d.infer_runs + 1 }
      (decode_f32 (infer (letterbox_f32 d src_img buff_image_size buff_image_size).1)
        d.conf_threshold_)
      src_img.size idx, ?_, ?_⟩
    · rw [Detect_f32_nonempty infer nmsBoxes d src_img (Mat.not_empty hW hH), List.getElem?_map,
        hpick, Option.map_some']
    · rw [hr]
      exact ⟨rfl, rfl, rfl, rfl⟩

theorem returned_box_is_rounded_remap_witness :
    1 ≤ (⟨1024, 768⟩ : Mat).cols ∧ 1 ≤ (⟨1024, 768⟩ : Mat).rows ∧
      (⟨1024, 768⟩ : Mat).cols ≤ 16777216 ∧ (⟨1024, 768⟩ : Mat).rows ≤ 16777216 ∧
      (letterboxVars_f32 ⟨1024, 768⟩ buff_image_size buff_image_size).inside_w = 640 ∧
      (letterboxVars_f32 ⟨1024, 768⟩ buff_image_size buff_image_size).inside_h = 480 ∧
      (decode_f32 cornerTensor (1 / 2)).boxes[0]? = some ⟨7, 7, 35, 35⟩ ∧
      (Detect_f32 (fun _ => cornerTensor) NMSBoxes newDetector ⟨1024, 768⟩).1.map
        (fun b => b.rect) = [⟨11, 0, 55, 0⟩] ∧
      ∃ b, (Detect_f32 (fun _ => cornerTensor) NMSBoxes newDetector ⟨1024, 768⟩).1[0]? = some b ∧
        b.rect.x = toInt (clampAxis (remapAxis_f32
          (letterbox_f32 newDetector ⟨1024, 768⟩ buff_image_size buff_image_size).2.padd_w_
          (⟨1024, 768⟩ : Mat).cols (fl32 (⟨7, 7, 35, 35⟩ : Rect).x)) (⟨1024, 768⟩ : Mat).cols) ∧
        b.rect.width = toInt (fl32 (clampAxis (remapAxis_f32
            (letterbox_f32 newDetector ⟨1024, 768⟩ buff_image_size buff_image_size).2.padd_w_
            (⟨1024, 768⟩ : Mat).cols
            (fl32 (((⟨7, 7, 35, 35⟩ : Rect).x + (⟨7, 7, 35, 35⟩ : Rect).width : Int) : ℚ)))
            (⟨1024, 768⟩ : Mat).cols -
          clampAxis (remapAxis_f32
            (letterbox_f32 newDetector ⟨1024, 768⟩ buff_image_size buff_image_size).2.padd_w_
            (⟨1024, 768⟩ : Mat).cols (fl32 (⟨7, 7, 35, 35⟩ : Rect).x))
            (⟨1024, 768⟩ : Mat).cols)) :=
  ⟨by decide, by decide, by decide, by decide, by decide!, by decide!, by decide!, by decide!,
    (returned_box_is_rounded_remap (fun _ => cornerTensor) NMSBoxes newDetector ⟨1024, 768⟩
      (by decide) (by decide) (by decide) (by decide) (by decide!) (by decide!) 0 0
      ⟨7, 7, 35, 35⟩ (by decide!) (by decide!) (by decide) (by decide)).1.imp
      fun _ h => ⟨h.1, h.2.1, h.2.2.2.1⟩⟩

/-! ## Sign of the returned box in binary32 -/

/-- C14 (as stated, refuted): the slot of `negWidthTensor` has raw width -40;
its canvas box is (120, 90, -40, 20) and on a 1920 x 1080 source Detect returns
the box (360, 0, -120, 0), whose width is negative. -/
theorem negative_width_counterexample :
    (decode_f32 negWidthTensor (1 / 2)).boxes = [⟨120, 90, -40, 20⟩] ∧
      (Detect_f32 (fun _ => negWidthTensor) NMSBoxes newDetector ⟨1920, 1080⟩).1.map
        (fun b => b.rect) = [⟨360, 0, -120, 0⟩] ∧
      ¬ ∀ b ∈ (Detect_f32 (fun _ => negWidthTensor) NMSBoxes newDetector ⟨1920, 1080⟩).1,
        0 ≤ b.rect.x ∧ 0 ≤ b.rect.y ∧ 0 ≤ b.rect.width ∧ 0 ≤ b.rect.height := by
  decide!

/-- The 32-bit sum of line 207 can wrap: the slot of `wideTensor` decodes to
the canvas box (2000000000, 90, 2000000000, 20), whose width is not negative;
x + width wraps to -294967296 and on a 1920 x 1080 source the returned box is
(1920, 0, -1920, 0). -/
theorem corner_sum_wrap_example :
    (decode_f32 wideTensor (1 / 2)).boxes = [⟨2000000000, 90, 2000000000, 20⟩] ∧
      wrap32 (2000000000 + 2000000000) = -294967296 ∧
      (Detect_f32 (fun _ => wideTensor) NMSBoxes newDetector ⟨1920, 1080⟩).1.map
        (fun b => b.rect) = [⟨1920, 0, -1920, 0⟩] := by
  decide!

/-- C14 (amended): for every raw tensor, thresholds, suppression routine and
source of at most 2^24 pixels per side with a non-degenerate letterbox, the
detection returned by Detect for a kept candidate has non-negative x and y; its
width (height) is non-negative whenever the canvas box of the candidate has
non-negative width (height) and the sum x + width (y + height) fits a 32-bit
int. -/
theorem returned_box_sign_f32 (infer : Mat → Tensor) (nmsBoxes : NMSFn) (d : Detector)
    (src_img : Mat) (hW : 1 ≤ src_img.cols) (hH : 1 ≤ src_img.rows)
    (hW2 : src_img.cols ≤ 16777216) (hH2 : src_img.rows ≤ 16777216)
    (hnw : 1 ≤ (letterboxVars_f32 src_img buff_image_size buff_image_size).inside_w)
    (hnh : 1 ≤ (letterboxVars_f32 src_img buff_image_size buff_image_size).inside_h)
    (i idx : Nat) (box : Rect)
    (hpick : (nmsBoxes
      (decode_f32 (infer (letterbox_f32 d src_img buff_image_size buff_image_size).1)
        d.conf_threshold_).boxes
      (decode_f32 (infer (letterbox_f32 d src_img buff_image_size buff_image_size).1)
        d.conf_threshold_).confidences
      d.conf_threshold_ d.nms_threshold_)[i]? = some idx)
    (hbox : (decode_f32 (infer (letterbox_f32 d src_img buff_image_size buff_image_size).1)
      d.conf_threshold_).boxes[idx]? = some box) :
    ∃ b, (Detect_f32 infer nmsBoxes d src_img).1[i]? = some b ∧
      0 ≤ b.rect.x ∧ 0 ≤ b.rect.y ∧
      (0 ≤ box.width → box.x + box.width < 2147483648 → -2147483648 ≤ box.x + box.width →
        0 ≤ b.rect.width) ∧
      (0 ≤ box.height → box.y + box.height < 2147483648 → -2147483648 ≤ box.y + box.height →
        0 ≤ b.rect.height) := by
  obtain ⟨-, -, dw, dh⟩ := letterbox_f32_paddings d src_img hW hH hW2 hH2
  have hDw : 0 < fl32 (640 -
      fl32 (2 * (letterbox_f32 d src_img buff_image_size buff_image_size).2.padd_w_)) := by
    rw [dw]
    exact_mod_cast hnw
  have hDh : 0 < fl32 (640 -
      fl32 (2 * (letterbox_f32 d src_img buff_image_size buff_image_size).2.padd_h_)) := by
    rw [dh]
    exact_mod_cast hnh
  have hget : (decode_f32 (infer (letterbox_f32 d src_img buff_image_size buff_image_size).1)
      d.conf_threshold_).boxes.getD idx ⟨0, 0, 0, 0⟩ = box := by
    rw [List.getD_eq_getElem?_getD, hbox, Option.getD_some]
  have hr := makeBlade_f32_rect
    { (letterbox_f32 d src_img buff_image_size buff_image_size).2 with
      infer_runs := d.infer_runs + 1 }
    (decode_f32 (infer (letterbox_f32 d src_img buff_image_size buff_image_size).1)
      d.conf_threshold_)
    src_img.size idx hDw.ne.symm hDh.ne.symm
  rw [hget] at hr
  have eW : fl32 ((src_img.size.width : Nat) : ℚ) = (src_img.cols : ℚ) := fl32_natCast hW2
  have eH : fl32 ((src_img.size.height : Nat) : ℚ) = (src_img.rows : ℚ) := fl32_natCast hH2
  rw [eW, eH] at hr
  have cb : ∀ (v : ℚ) (n : Nat), 0 ≤ clampAxis v n ∧ clampAxis v n ≤ (n : ℚ) := fun v n =>
    clamp_bounds v n
  refine ⟨makeBlade_f32
      { (letterbox_f32 d src_img buff_image_size buff_image_size).2 with
        infer_runs := d.infer_runs + 1 }
      (decode_f32 (infer (letterbox_f32 d src_img buff_image_size buff_image_size).1)
        d.conf_threshold_)
      src_img.size idx, ?_, ?_, ?_, ?_, ?_⟩
  · rw [Detect_f32_nonempty infer nmsBoxes d src_img (Mat.not_empty hW hH), List.getElem?_map,
      hpick, Option.map_some']
  · rw [hr]
    show 0 ≤ toInt32 _
    rw [toInt32_of_inRange (inInt32_of_clamped hW2 (cb _ _).1 (cb _ _).2)]
    exact toInt_nonneg (cb _ _).1
  · rw [hr]
    show 0 ≤ toInt32 _
    rw [toInt32_of_inRange (inInt32_of_clamped hH2 (cb _ _).1 (cb _ _).2)]
    exact toInt_nonneg (cb _ _).1
  · intro h0 h1 h2
    rw [hr]
    show 0 ≤ toInt32 _
    rw [toInt32_of_inRange (inInt32_of_diff hW2 (cb _ _).1 (cb _ _).2 (cb _ _).1 (cb _ _).2),
      wrap32_of_inRange h2 h1]
    apply toInt_nonneg
    apply fl32_nonneg
    have hle : fl32 (box.x : ℚ) ≤ fl32 ((box.x + box.width : Int) : ℚ) := by
      apply fl32_mono
      have h' : ((0 : Int) : ℚ) ≤ (box.width : ℚ) := by exact_mod_cast h0
      push_cast at h' ⊢
      linarith
    have hm := remapAxis_f32_mono (n := ((src_img.size.width : Nat) : ℚ)) (Nat.cast_nonneg _)
      hDw.le hle
    have : clampAxis (remapAxis_f32 _ _ (fl32 (box.x : ℚ))) (src_img.cols : ℚ) ≤
        clampAxis (remapAxis_f32 _ _ (fl32 ((box.x + box.width : Int) : ℚ))) (src_img.cols : ℚ) :=
      max_le_max le_rfl (min_le_min hm le_rfl)
    linarith
  · intro h0 h1 h2
    rw [hr]
    show 0 ≤ toInt32 _
    rw [toInt32_of_inRange (inInt32_of_diff hH2 (cb _ _).1 (cb _ _).2 (cb _ _).1 (cb _ _).2),
      wrap32_of_inRange h2 h1]
    apply toInt_nonneg
    apply fl32_nonneg
    have hle : fl32 (box.y : ℚ) ≤ fl32 ((box.y + box.height : Int) : ℚ) := by
      apply fl32_mono
      have h' : ((0 : Int) : ℚ) ≤ (box.height : ℚ) := by exact_mod_cast h0
      push_cast at h' ⊢
      linarith
    have hm := remapAxis_f32_mono (n := ((src_img.size.height : Nat) : ℚ)) (Nat.cast_nonneg _)
      hDh.le hle
    have : clampAxis (remapAxis_f32 _ _ (fl32 (box.y : ℚ))) (src_img.rows : ℚ) ≤
        clampAxis (remapAxis_f32 _ _ (fl32 ((box.y + box.height : Int) : ℚ))) (src_img.rows : ℚ) :=
      max_le_max le_rfl (min_le_min hm le_rfl)
    linarith

theorem returned_box_sign_f32_witness :
    1 ≤ (⟨1920, 1080⟩ : Mat).cols ∧ 1 ≤ (⟨1920, 1080⟩ : Mat).rows ∧
      (⟨1920, 1080⟩ : Mat).cols ≤ 16777216 ∧ (⟨1920, 1080⟩ : Mat).rows ≤ 16777216 ∧
      (letterboxVars_f32 ⟨1920, 1080⟩ buff_image_size buff_image_size).inside_w = 640 ∧
      (letterboxVars_f32 ⟨1920, 1080⟩ buff_image_size buff_image_size).inside_h = 360 ∧
      (NMSBoxes
        (decode_f32 ((fun _ => sampleTensor)
          (letterbox_f32 newDetector ⟨1920, 1080⟩ buff_image_size buff_image_size).1)
          newDetector.conf_threshold_).boxes
        (decode_f32 ((fun _ => sampleTensor)
          (letterbox_f32 newDetector ⟨1920, 1080⟩ buff_image_size buff_image_size).1)
          newDetector.conf_threshold_).confidences
        newDetector.conf_threshold_ newDetector.nms_threshold_)[1]? = some 1 ∧
      (decode_f32 ((fun _ => sampleTensor)
        (letterbox_f32 newDetector ⟨1920, 1080⟩ buff_image_size buff_image_size).1)
        newDetector.conf_threshold_).boxes[1]? = some ⟨0, 139, 100, 12⟩ ∧
      (Detect_f32 (fun _ => sampleTensor) NMSBoxes newDetector ⟨1920, 1080⟩).1.map
        (fun b => b.rect) = [⟨0, 0, 300, 30⟩, ⟨0, 0, 300, 33⟩] ∧
      ∃ b, (Detect_f32 (fun _ => sampleTensor) NMSBoxes newDetector ⟨1920, 1080⟩).1[1]? = some b ∧
        0 ≤ b.rect.x ∧ 0 ≤ b.rect.y ∧
        (0 ≤ (⟨0, 139, 100, 12⟩ : Rect).width →
          (⟨0, 139, 100, 12⟩ : Rect).x + (⟨0, 139, 100, 12⟩ : Rect).width < 2147483648 →
          -2147483648 ≤ (⟨0, 139, 100, 12⟩ : Rect).x + (⟨0, 139, 100, 12⟩ : Rect).width →
          0 ≤ b.rect.width) ∧
        (0 ≤ (⟨0, 139, 100, 12⟩ : Rect).height →
          (⟨0, 139, 100, 12⟩ : Rect).y + (⟨0, 139, 100, 12⟩ : Rect).height < 2147483648 →
          -2147483648 ≤ (⟨0, 139, 100, 12⟩ : Rect).y + (⟨0, 139, 100, 12⟩ : Rect).height →
          0 ≤ b.rect.height) :=
  ⟨by decide, by decide, by decide, by decide, by decide!, by decide!, by decide!, by decide!,
    by decide!,
    returned_box_sign_f32 (fun _ => sampleTensor) NMSBoxes newDetector ⟨1920, 1080⟩
      (by decide) (by decide) (by decide) (by decide) (by decide!) (by decide!) 1 1
      ⟨0, 139, 100, 12⟩ (by decide!) (by decide!)⟩

/-! ## Zero divisor in the binary32 remapper -/

/-- C18 (as stated, refuted): `twelveTensor` has 12 features per slot instead
of 16. Every index the decoder reads lies inside the single slot, and decoding
does not fail: it returns one candidate with class 2, confidence 7/8, canvas
box (80, 90, 40, 20), the keypoints (10, 20) and (30, 40) and two absent
keypoints, and Detect returns one detection for it. -/
theorem decode_twelve_features_counterexample :
    twelveTensor.shape2 = 12 ∧ twelveTensor.shape2 ≠ 4 + 4 + 2 * 4 ∧
      slotOffsets twelveTensor = [0] ∧
      decodeReads twelveTensor = List.range 12 ∧
      (decode twelveTensor (1 / 2)).classIds = [2] ∧
      (decode twelveTensor (1 / 2)).confidences = [7 / 8] ∧
      (decode twelveTensor (1 / 2)).boxes = [⟨80, 90, 40, 20⟩] ∧
      (decode twelveTensor (1 / 2)).kpts_list = [[⟨10, 20⟩, ⟨30, 40⟩, sentinel, sentinel]] ∧
      (Detect (fun _ => twelveTensor) NMSBoxes newDetector ⟨640, 640⟩).1.map
        (fun b => (b.rect, b.label, b.prob)) = [(⟨80, 90, 40, 20⟩, "BR", 7 / 8)] := by
  decide!

/-- C18 (amended): for a raw tensor with feature count F at least 8, whether F
is 16 or not, decoding does no shape validation and produces its candidates as
usual: every index read while decoding a slot lies inside that slot and the
decoder output is determined by the slot contents alone; the candidate lists
have one entry per slot not skipped by the confidence test; every candidate has
exactly 4 keypoints, of which keypoint k is decoded from the slot (kept when
inside the canvas, absent otherwise) when its y index 9 + 2k is below F, and is
recorded as absent, without a read, when it is not. -/
theorem decode_feature_count_unchecked (output : Tensor) (conf_thres : ℚ)
    (hF : 8 ≤ output.shape2) :
    (∀ off ∈ slotOffsets output, ∀ n ∈ slotReads output.shape2 off,
        off ≤ n ∧ n < off + output.shape2) ∧
      (∀ data' : Nat → ℚ,
        (∀ off ∈ slotOffsets output, ∀ n, off ≤ n → n < off + output.shape2 →
          data' n = output.data n) →
        decode { output with data := data' } conf_thres = decode output conf_thres) ∧
      (decode output conf_thres).classIds.length = (candidateOffsets output conf_thres).length ∧
      (decode output conf_thres).confidences.length =
        (candidateOffsets output conf_thres).length ∧
      (decode output conf_thres).boxes.length = (candidateOffsets output conf_thres).length ∧
      (decode output conf_thres).kpts_list.length =
        (candidateOffsets output conf_thres).length ∧
      ∀ (idx off : Nat), (candidateOffsets output conf_thres)[idx]? = some off →
        ∃ kpts, (decode output conf_thres).kpts_list[idx]? = some kpts ∧ kpts.length = 4 ∧
          ∀ k < 4,
            (8 + k * 2 + 1 < output.shape2 →
              kpts[k]? = some
                (if InCanvas ⟨output.data (off + (8 + k * 2)),
                    output.data (off + (8 + k * 2 + 1))⟩ then
                  ⟨output.data (off + (8 + k * 2)), output.data (off + (8 + k * 2 + 1))⟩
                else sentinel)) ∧
            (¬ 8 + k * 2 + 1 < output.shape2 → kpts[k]? = some sentinel) := by
  have hin : ∀ off ∈ slotOffsets output, ∀ n ∈ slotReads output.shape2 off,
      off ≤ n ∧ n < off + output.shape2 :=
    fun off _ n hn => slotReads_lt output.shape2 off n hF hn
  refine ⟨hin, ?_, ?_⟩
  · intro data' hagree
    apply decode_congr
    intro n hn
    obtain ⟨off, hoff, hn'⟩ := List.mem_flatMap.mp hn
    exact hagree off hoff n (hin off hoff n hn').1 (hin off hoff n hn').2
  · rw [decode_eq]
    refine ⟨by simp, by simp, by simp, by simp, ?_⟩
    intro idx off hoff
    refine ⟨slotKpts output off, ?_, slotKpts_length output off, ?_⟩
    · simp only [List.getElem?_map, hoff, Option.map_some']
    · intro k hk4
      have hk' : k < KPT_NUM := hk4
      constructor
      · intro hr
        obtain ⟨h1, h2⟩ := decodeKpt_read output.data output.shape2 off k hr
        simp only [slotKpts, List.getElem?_map, List.getElem?_range hk', Option.map_some']
        by_cases hc : InCanvas ⟨output.data (off + (8 + k * 2)),
            output.data (off + (8 + k * 2 + 1))⟩
        · rw [if_pos hc, h1 hc]
        · rw [if_neg hc, h2 hc]
      · intro hr
        simp only [slotKpts, List.getElem?_map, List.getElem?_range hk', Option.map_some',
          decodeKpt_unread output.data output.shape2 off k hr]

theorem decode_feature_count_unchecked_witness :
    8 ≤ twelveTensor.shape2 ∧
      (candidateOffsets twelveTensor (1 / 2))[0]? = some 0 ∧
      (decode twelveTensor (1 / 2)).kpts_list[0]? =
        some [⟨10, 20⟩, ⟨30, 40⟩, sentinel, sentinel] ∧
      ∀ off ∈ slotOffsets twelveTensor, ∀ n ∈ slotReads twelveTensor.shape2 off,
        off ≤ n ∧ n < off + twelveTensor.shape2 :=
  ⟨by decide, by decide!, by decide!,
    (decode_feature_count_unchecked twelveTensor (1 / 2) (by decide)).1⟩

end rm_buff
